import Mathlib

/-!
# kvcache-ops: paged / contiguous KV-cache copy kernels

A shallow embedding of the three copy kernels of `src/kernels`
(`single_layer_mem_kernels.cpp`, `multi_layer_mem_kernels.cpp`,
`load_and_reshape_flash.cpp`) and of their host-side dispatchers.

Conventions of the embedding.

* Global memory is a family of element arrays indexed by `Buf`; an element
  offset is the `scalar_t*` pointer arithmetic of the source, so every array is
  indexed by an `Int`.  The element type `scalar_t` is the type parameter `α`.
* The C++ objects are records, member functions are functions that return the
  updated record, and the kernel state `Machine` is passed explicitly.
* Integer values are mathematical integers: the kernels describe the
  executions in which no arithmetic operation leaves the range of its C++
  operand type.  Where the width of an operand matters it is modelled
  separately: `wrap32`, `wrap64` and `SlotT.widen` give the value a fixed-width
  integer holds, and `LoadAndReshapeFlashCopy.nonPagedKeyOffset` and
  `nonPagedValueOffset` evaluate the flash offsets with the widths of their
  operand types.
* A `for` loop is run with a fuel argument and returns `none` when the fuel is
  used up before the loop condition fails.
-/

namespace KVCacheOps

/-! ## Global memory, descriptors, events -/

/-- The buffers of global memory: `key` is what `keyCachePtr` points to,
`value` what `valueCachePtr` points to, `lmc` the contiguous cache tensor
(`dstCacheTensor` / `cacheTensor`), `layer p` the paged buffer a pointer `p` of the
multi-layer pointer table points to, `null` the address of a default constructed
`GlobalTensor`. -/
inductive Buf where
  | key : Buf
  | value : Buf
  | lmc : Buf
  | layer (p : Int) : Buf
  | null : Buf
  deriving DecidableEq

/-- The value of an `AscendC::GlobalTensor<scalar_t>` after
`SetGlobalBuffer(base + off, len)`: a buffer, an element offset and a length. -/
structure GlobalTensor where
  buf : Buf
  off : Int
  len : Int
  deriving DecidableEq

/-- A default constructed `GlobalTensor`. -/
def GlobalTensor.empty : GlobalTensor := ⟨Buf.null, 0, 0⟩

/-- What a kernel does to memory and to its scratch queue, in program order. -/
inductive Event where
  | slotRead (tokenIdx : Int) : Event
  | ptrRead (layerIdx : Int) : Event
  | gmRead (g : GlobalTensor) (n : Int) : Event
  | gmWrite (g : GlobalTensor) (n : Int) : Event
  | alloc (b : Nat) : Event
  | enque (b : Nat) : Event
  | deque (b : Nat) : Event
  | release (b : Nat) : Event
  deriving DecidableEq

/-- The state a kernel runs on: global memory `gm`, the slot-mapping table
`slots` (`slotmappings`), the per-layer pointer table `ptrs` (`pagedKVCaches`), the
scratch buffers `ub` of the queue `pagedTokenQue_` with its free list `pool` and its
FIFO of published buffers `ready`, and the trace `log` of events. -/
structure Machine (α : Type) where
  gm : Buf → Int → α
  slots : Int → Int
  ptrs : Int → Int
  ub : Nat → Int → α
  pool : List Nat
  ready : List Nat
  log : List Event

variable {α : Type}

/-! ## The AscendC primitives used by the kernels -/

/-- Modelled from the spec: `TPipe::InitBuffer(que, num, len)` of the AscendC library
(not part of the sources) gives the queue a pool of `num` free scratch buffers and an
empty ready list. -/
def InitBuffer (m : Machine α) (num : Nat) : Machine α :=
  { m with pool := List.range num, ready := [] }

/-- Modelled from the spec: `TQueBind::AllocTensor` of the AscendC library (not part
of the sources) acquires a scratch buffer from the pool; with an empty pool it does
not return. -/
def AllocTensor (m : Machine α) : Option (Nat × Machine α) :=
  match m.pool with
  | [] => none
  | b :: rest => some (b, { m with pool := rest, log := m.log ++ [Event.alloc b] })

/-- Modelled from the spec: `TQueBind::EnQue` of the AscendC library (not part of the
sources) publishes a scratch buffer at the back of the ready list. -/
def EnQue (m : Machine α) (b : Nat) : Machine α :=
  { m with ready := m.ready ++ [b], log := m.log ++ [Event.enque b] }

/-- Modelled from the spec: `TQueBind::DeQue` of the AscendC library (not part of the
sources) consumes the scratch buffer at the front of the ready list; with an empty
ready list it does not return. -/
def DeQue (m : Machine α) : Option (Nat × Machine α) :=
  match m.ready with
  | [] => none
  | b :: rest => some (b, { m with ready := rest, log := m.log ++ [Event.deque b] })

/-- Modelled from the spec: `TQueBind::FreeTensor` of the AscendC library (not part
of the sources) releases a scratch buffer back to the pool. -/
def FreeTensor (m : Machine α) (b : Nat) : Machine α :=
  { m with pool := m.pool ++ [b], log := m.log ++ [Event.release b] }

/-- Modelled from the spec: `AscendC::DataCopy(local, global, n)` of the AscendC
library (not part of the sources) copies the `n` elements of the global range
`[off, off + n)` into the scratch buffer `b`. -/
def DataCopyIn (m : Machine α) (b : Nat) (g : GlobalTensor) (n : Int) : Machine α :=
  { m with
    ub := fun c j => if c = b ∧ 0 ≤ j ∧ j < n then m.gm g.buf (g.off + j) else m.ub c j,
    log := m.log ++ [Event.gmRead g n] }

/-- Modelled from the spec: `AscendC::DataCopy(global, local, n)` of the AscendC
library (not part of the sources) copies the first `n` elements of the scratch buffer
`b` to the global range `[off, off + n)`. -/
def DataCopyOut (m : Machine α) (g : GlobalTensor) (b : Nat) (n : Int) : Machine α :=
  { m with
    gm := fun c x => if c = g.buf ∧ g.off ≤ x ∧ x < g.off + n then m.ub b (x - g.off)
                     else m.gm c x,
    log := m.log ++ [Event.gmWrite g n] }

/-- The loop `for (i = start; i < bound; i += step) body(i)`, run with `fuel`
iterations at most: `none` when the fuel is used up or the body does not return. -/
def forLoop {σ : Type} (body : Int → σ → Option σ) (bound step : Int) :
    Nat → Int → σ → Option σ
  | 0, _, _ => none
  | fuel + 1, i, s =>
    if i < bound then (body i s).bind (forLoop body bound step fuel (i + step))
    else some s

/-- Modelled from the spec: the launch `kernel<<<blockDim, nullptr, stream>>>(...)`
(the execution substrate is not part of the sources) runs the kernel body once for
every block index `0, ..., blockDim - 1`; the workers are run one after the other in
index order. -/
def launch (blockDim : Nat) (kernel : Int → Machine α → Option (Machine α))
    (m : Machine α) : Option (Machine α) :=
  (List.range blockDim).foldlM (fun s (b : Nat) => kernel (b : Int) s) m

/-! ## `single_layer_mem_kernels.cpp` -/

/-- The data members of `SingleLayerPagedKVCopy<scalar_t, slot_t, IsMLA>`. -/
structure SingleLayerPagedKVCopy where
  hiddenDims : Int
  numTokens : Int
  numKvs : Int
  page2L : Bool
  tokenMajor : Bool
  valid : Bool
  keyTokensGlobal : GlobalTensor
  valueTokensGlobal : GlobalTensor
  lmcBufferKeyGlobal : GlobalTensor
  lmcBufferValueGlobal : GlobalTensor

namespace SingleLayerPagedKVCopy

/-- The member function `SingleLayerPagedKVCopy::init`. -/
def init (isMLA : Bool) (hiddenDims numTokens : Int) (page2L tokenMajor : Bool)
    (m : Machine α) : SingleLayerPagedKVCopy × Machine α :=
  ({ hiddenDims := hiddenDims
     numTokens := numTokens
     tokenMajor := tokenMajor
     valid := true
     page2L := page2L
     numKvs := if isMLA then 1 else 2
     keyTokensGlobal := GlobalTensor.empty
     valueTokensGlobal := GlobalTensor.empty
     lmcBufferKeyGlobal := GlobalTensor.empty
     lmcBufferValueGlobal := GlobalTensor.empty },
   InitBuffer m 4)

/-- The member function `SingleLayerPagedKVCopy::reset`. -/
def reset (op : SingleLayerPagedKVCopy) : SingleLayerPagedKVCopy :=
  { op with valid := true }

/-- The member function `SingleLayerPagedKVCopy::updateTensorMemOffsetAndProcess`;
the slot table `slotmappings` is `m.slots`. -/
def updateTensorMemOffsetAndProcess (op : SingleLayerPagedKVCopy) (m : Machine α)
    (pagedTensor nonPagedTensor : Buf) (tokenIdx kvIdx : Int) :
    SingleLayerPagedKVCopy × Machine α :=
  let slot := m.slots tokenIdx
  let m1 := { m with log := m.log ++ [Event.slotRead tokenIdx] }
  if slot = -1 then
    ({ op with valid := false }, m1)
  else
    let pagedIdxOffset := slot * op.hiddenDims
    let nonPagedIdxOffset :=
      if op.tokenMajor then
        tokenIdx * op.numKvs * op.hiddenDims + kvIdx * op.hiddenDims
      else
        kvIdx * op.numTokens * op.hiddenDims + tokenIdx * op.hiddenDims
    if kvIdx = 0 then
      ({ op with
         keyTokensGlobal := ⟨pagedTensor, pagedIdxOffset, op.hiddenDims⟩
         lmcBufferKeyGlobal := ⟨nonPagedTensor, nonPagedIdxOffset, op.hiddenDims⟩ }, m1)
    else
      ({ op with
         valueTokensGlobal := ⟨pagedTensor, pagedIdxOffset, op.hiddenDims⟩
         lmcBufferValueGlobal := ⟨nonPagedTensor, nonPagedIdxOffset, op.hiddenDims⟩ }, m1)

/-- The member function `SingleLayerPagedKVCopy::processFunc`; `isMLA` is the template
parameter `IsMLA`, whose `if constexpr` branches select one of the two bodies. -/
def processFunc (isMLA : Bool) (op : SingleLayerPagedKVCopy) (m : Machine α) :
    Option (Machine α) :=
  if !op.valid then some m
  else if isMLA then do
    let (k, m) ← AllocTensor m
    let m := if op.page2L then DataCopyIn m k op.keyTokensGlobal op.hiddenDims
             else DataCopyIn m k op.lmcBufferKeyGlobal op.hiddenDims
    let m := EnQue m k
    let (k, m) ← DeQue m
    let m := if op.page2L then DataCopyOut m op.lmcBufferKeyGlobal k op.hiddenDims
             else DataCopyOut m op.keyTokensGlobal k op.hiddenDims
    some (FreeTensor m k)
  else do
    let (k, m) ← AllocTensor m
    let (v, m) ← AllocTensor m
    let m := if op.page2L then
               DataCopyIn (DataCopyIn m k op.keyTokensGlobal op.hiddenDims)
                 v op.valueTokensGlobal op.hiddenDims
             else
               DataCopyIn (DataCopyIn m k op.lmcBufferKeyGlobal op.hiddenDims)
                 v op.lmcBufferValueGlobal op.hiddenDims
    let m := EnQue (EnQue m k) v
    let (k, m) ← DeQue m
    let (v, m) ← DeQue m
    let m := if op.page2L then
               DataCopyOut (DataCopyOut m op.lmcBufferKeyGlobal k op.hiddenDims)
                 op.lmcBufferValueGlobal v op.hiddenDims
             else
               DataCopyOut (DataCopyOut m op.keyTokensGlobal k op.hiddenDims)
                 op.valueTokensGlobal v op.hiddenDims
    some (FreeTensor (FreeTensor m k) v)

/-- The body of the kernel loop of `SINGLE_LAYER_PAGED_KV_COPY_TYPE_DECLARE` for the
token index `i`: `reset`, the resolver for the keys, the resolver for the values
unless `ISMLA`, then `processFunc`. -/
def iteration (isMLA : Bool) (i : Int) (s : SingleLayerPagedKVCopy × Machine α) :
    Option (SingleLayerPagedKVCopy × Machine α) :=
  let op := s.1.reset
  let r := op.updateTensorMemOffsetAndProcess s.2 Buf.key Buf.lmc i 0
  let r := if !isMLA then r.1.updateTensorMemOffsetAndProcess r.2 Buf.value Buf.lmc i 1
           else r
  (r.1.processFunc isMLA r.2).map (fun m => (r.1, m))

end SingleLayerPagedKVCopy

/-- The kernel `single_layer_paged_kv_copy_TYPE_SLOTTYPE_ISMLA` run by the worker
with block index `bIdx` (`AscendC::GetBlockIdx()`). -/
def single_layer_paged_kv_copy (isMLA : Bool) (hiddenDims numTokens coreNums : Int)
    (page2L tokenMajor : Bool) (fuel : Nat) (bIdx : Int) (m : Machine α) :
    Option (Machine α) :=
  (forLoop (SingleLayerPagedKVCopy.iteration isMLA) numTokens coreNums fuel bIdx
    (SingleLayerPagedKVCopy.init isMLA hiddenDims numTokens page2L tokenMajor m)).map
    Prod.snd

/-- The host function `single_layer_paged_kernel<T, SlotT, ISMLA>`: the launch of the
kernel on `blockDim` workers, with `coreNums = blockDim`. -/
def single_layer_paged_kernel (isMLA : Bool) (blockDim : Nat) (hiddenDims numTokens : Int)
    (page2L tokenMajor : Bool) (fuel : Nat) (m : Machine α) : Option (Machine α) :=
  launch blockDim
    (single_layer_paged_kv_copy isMLA hiddenDims numTokens blockDim page2L tokenMajor fuel) m

/-! ## `multi_layer_mem_kernels.cpp` -/

/-- The data members of `MultiLayerPagedKVCopy<scalar_t, slot_t>`. -/
structure MultiLayerPagedKVCopy where
  numLayers : Int
  pageBuffSize : Int
  hiddenDims : Int
  numTokensChunk : Int
  valid : Bool
  page2L : Bool
  pagedTokenGlobal : GlobalTensor
  lmcBufferGlobal : GlobalTensor

namespace MultiLayerPagedKVCopy

/-- The member function `MultiLayerPagedKVCopy::init`. -/
def init (hiddenDims numLayers pageBuffSize numTokensChunk : Int) (page2L : Bool)
    (m : Machine α) : MultiLayerPagedKVCopy × Machine α :=
  ({ numLayers := numLayers
     hiddenDims := hiddenDims
     pageBuffSize := pageBuffSize
     numTokensChunk := numTokensChunk
     page2L := page2L
     valid := true
     pagedTokenGlobal := GlobalTensor.empty
     lmcBufferGlobal := GlobalTensor.empty },
   InitBuffer m 4)

/-- The member function `MultiLayerPagedKVCopy::reset`. -/
def reset (op : MultiLayerPagedKVCopy) : MultiLayerPagedKVCopy :=
  { op with valid := true }

/-- The member function `MultiLayerPagedKVCopy::updateMemOffset`; the slot table
`slotmappings` is `m.slots`, the pointer table `pagedKVCaches` is `m.ptrs`, and the
buffer the pointer `p` points to is `Buf.layer p`. -/
def updateMemOffset (op : MultiLayerPagedKVCopy) (m : Machine α) (cacheTensor : Buf)
    (tokenIdx kvIdx layerIdx : Int) : MultiLayerPagedKVCopy × Machine α :=
  let slot := m.slots tokenIdx
  let m1 := { m with log := m.log ++ [Event.slotRead tokenIdx] }
  if slot = -1 then
    ({ op with valid := false }, m1)
  else
    let pagedLayerKVCaches := m.ptrs layerIdx
    let m2 := { m1 with log := m1.log ++ [Event.ptrRead layerIdx] }
    let pagedIdxOffset := kvIdx * op.pageBuffSize * op.hiddenDims + slot * op.hiddenDims
    let dstTensorIdxOffset :=
      kvIdx * op.numLayers * op.numTokensChunk * op.hiddenDims +
      layerIdx * op.numTokensChunk * op.hiddenDims +
      tokenIdx * op.hiddenDims
    ({ op with
       pagedTokenGlobal := ⟨Buf.layer pagedLayerKVCaches, pagedIdxOffset, op.hiddenDims⟩
       lmcBufferGlobal := ⟨cacheTensor, dstTensorIdxOffset, op.hiddenDims⟩ }, m2)

/-- The member function `MultiLayerPagedKVCopy::processFunc`. -/
def processFunc (op : MultiLayerPagedKVCopy) (m : Machine α) : Option (Machine α) :=
  if !op.valid then some m
  else do
    let (t, m) ← AllocTensor m
    let m := if op.page2L then DataCopyIn m t op.pagedTokenGlobal op.hiddenDims
             else DataCopyIn m t op.lmcBufferGlobal op.hiddenDims
    let m := EnQue m t
    let (t, m) ← DeQue m
    let m := if op.page2L then DataCopyOut m op.lmcBufferGlobal t op.hiddenDims
             else DataCopyOut m op.pagedTokenGlobal t op.hiddenDims
    some (FreeTensor m t)

/-- The body of the innermost kernel loop of `MULTI_LAYER_PAGED_KV_COPY_TYPE_DECLARE`:
`reset`, `updateMemOffset`, `processFunc`. -/
def iteration (i kvIdx layerIdx : Int) (s : MultiLayerPagedKVCopy × Machine α) :
    Option (MultiLayerPagedKVCopy × Machine α) :=
  let op := s.1.reset
  let r := op.updateMemOffset s.2 Buf.lmc i kvIdx layerIdx
  (r.1.processFunc r.2).map (fun m => (r.1, m))

end MultiLayerPagedKVCopy

/-- The kernel `multi_layer_paged_kv_copy_TYPE_SLOTTYPE` run by the worker with block
index `bIdx`: the token loop, and inside it the loop over `kvIdx` and the loop over
`layerIdx`. -/
def multi_layer_paged_kv_copy (hiddenDims kvs numLayers pageBuffSize numTokensChunk
    coreNum : Int) (page2L : Bool) (fuel : Nat) (bIdx : Int) (m : Machine α) :
    Option (Machine α) :=
  (forLoop
    (fun i s =>
      forLoop
        (fun kvIdx s =>
          forLoop (fun layerIdx s => MultiLayerPagedKVCopy.iteration i kvIdx layerIdx s)
            numLayers 1 fuel 0 s)
        kvs 1 fuel 0 s)
    numTokensChunk coreNum fuel bIdx
    (MultiLayerPagedKVCopy.init hiddenDims numLayers pageBuffSize numTokensChunk page2L
      m)).map Prod.snd

/-- The host function `multi_layer_paged_kernel<T, SlotT>`: the launch of the kernel on
`blockDim` workers, with `coreNum = blockDim`. -/
def multi_layer_paged_kernel (blockDim : Nat) (hiddenDims kvs numLayers pageBuffSize
    numTokensChunk : Int) (page2L : Bool) (fuel : Nat) (m : Machine α) :
    Option (Machine α) :=
  launch blockDim
    (multi_layer_paged_kv_copy hiddenDims kvs numLayers pageBuffSize numTokensChunk
      blockDim page2L fuel) m

/-! ## `load_and_reshape_flash.cpp` -/

/-- The data members of `LoadAndReshapeFlashCopy<scalar_t, slot_t>`. -/
structure LoadAndReshapeFlashCopy where
  numPages : Int
  pagedSize : Int
  hiddenDims : Int
  numTokens : Int
  numLayers : Int
  layerIdx : Int
  valid : Bool
  page2L : Bool
  keyTokensGlobal : GlobalTensor
  valueTokensGlobal : GlobalTensor
  lmcBufferKeyGlobal : GlobalTensor
  lmcBufferValueGlobal : GlobalTensor

namespace LoadAndReshapeFlashCopy

/-- The member function `LoadAndReshapeFlashCopy::init`. -/
def init (numPages hiddenDims pagedSize numTokens numLayers layerIdx : Int)
    (page2L : Bool) (m : Machine α) : LoadAndReshapeFlashCopy × Machine α :=
  ({ numPages := numPages
     hiddenDims := hiddenDims
     numTokens := numTokens
     pagedSize := pagedSize
     numLayers := numLayers
     layerIdx := layerIdx
     valid := true
     page2L := page2L
     keyTokensGlobal := GlobalTensor.empty
     valueTokensGlobal := GlobalTensor.empty
     lmcBufferKeyGlobal := GlobalTensor.empty
     lmcBufferValueGlobal := GlobalTensor.empty },
   InitBuffer m 4)

/-- The member function `LoadAndReshapeFlashCopy::reset`. -/
def reset (op : LoadAndReshapeFlashCopy) : LoadAndReshapeFlashCopy :=
  { op with valid := true }

/-- The member function `LoadAndReshapeFlashCopy::updateTensorMemOffsetAndProcess`;
the slot table `slotmappings` is `m.slots`. -/
def updateTensorMemOffsetAndProcess (op : LoadAndReshapeFlashCopy) (m : Machine α)
    (pagedKeyTensor pagedValueTensor nonPagedTensor : Buf) (tokenIdx : Int) :
    LoadAndReshapeFlashCopy × Machine α :=
  let slot := m.slots tokenIdx
  let m1 := { m with log := m.log ++ [Event.slotRead tokenIdx] }
  if slot = -1 then
    ({ op with valid := false }, m1)
  else
    let pagedIdxOffset := slot * op.hiddenDims
    let nonPagedKeyOffset :=
      op.layerIdx * op.numTokens * op.hiddenDims + tokenIdx * op.hiddenDims
    let nonPagedValueOffset :=
      op.numLayers * op.numTokens * op.hiddenDims +
      op.layerIdx * op.numTokens * op.hiddenDims +
      tokenIdx * op.hiddenDims
    ({ op with
       keyTokensGlobal := ⟨pagedKeyTensor, pagedIdxOffset, op.hiddenDims⟩
       lmcBufferKeyGlobal := ⟨nonPagedTensor, nonPagedKeyOffset, op.hiddenDims⟩
       valueTokensGlobal := ⟨pagedValueTensor, pagedIdxOffset, op.hiddenDims⟩
       lmcBufferValueGlobal := ⟨nonPagedTensor, nonPagedValueOffset, op.hiddenDims⟩ }, m1)

/-- The member function `LoadAndReshapeFlashCopy::processFunc`. -/
def processFunc (op : LoadAndReshapeFlashCopy) (m : Machine α) : Option (Machine α) :=
  if !op.valid then some m
  else do
    let (k, m) ← AllocTensor m
    let (v, m) ← AllocTensor m
    let m := if op.page2L then
               DataCopyIn (DataCopyIn m k op.keyTokensGlobal op.hiddenDims)
                 v op.valueTokensGlobal op.hiddenDims
             else
               DataCopyIn (DataCopyIn m k op.lmcBufferKeyGlobal op.hiddenDims)
                 v op.lmcBufferValueGlobal op.hiddenDims
    let m := EnQue (EnQue m k) v
    let (k, m) ← DeQue m
    let (v, m) ← DeQue m
    let m := if op.page2L then
               DataCopyOut (DataCopyOut m op.lmcBufferKeyGlobal k op.hiddenDims)
                 op.lmcBufferValueGlobal v op.hiddenDims
             else
               DataCopyOut (DataCopyOut m op.keyTokensGlobal k op.hiddenDims)
                 op.valueTokensGlobal v op.hiddenDims
    some (FreeTensor (FreeTensor m k) v)

/-- The body of the kernel loop of `LOAD_AND_RESHAPE_FLASH_COPY_TYPE_DECLARE` for the
token index `i`: `reset`, the resolver, `processFunc`. -/
def iteration (i : Int) (s : LoadAndReshapeFlashCopy × Machine α) :
    Option (LoadAndReshapeFlashCopy × Machine α) :=
  let op := s.1.reset
  let r := op.updateTensorMemOffsetAndProcess s.2 Buf.key Buf.value Buf.lmc i
  (r.1.processFunc r.2).map (fun m => (r.1, m))

end LoadAndReshapeFlashCopy

/-- The kernel `load_and_reshape_flash_copy_TYPE_SLOTTYPE` run by the worker with block
index `bIdx`. -/
def load_and_reshape_flash_copy (hiddenDims numPages pagedSize numTokens numLayers
    layerIdx : Int) (page2L : Bool) (blockNum : Int) (fuel : Nat) (bIdx : Int)
    (m : Machine α) : Option (Machine α) :=
  (forLoop LoadAndReshapeFlashCopy.iteration numTokens blockNum fuel bIdx
    (LoadAndReshapeFlashCopy.init numPages hiddenDims pagedSize numTokens numLayers
      layerIdx page2L m)).map Prod.snd

/-- The host function `load_and_reshape_kernel_call<T, SlotT>`: the launch of the kernel
on `blockDim` workers, with `blockNum = blockDim`. -/
def load_and_reshape_kernel_call (blockDim : Nat) (hiddenDims numPages pagedSize
    numTokens numLayers layerIdx : Int) (page2L : Bool) (fuel : Nat) (m : Machine α) :
    Option (Machine α) :=
  launch blockDim
    (load_and_reshape_flash_copy hiddenDims numPages pagedSize numTokens numLayers
      layerIdx page2L blockDim fuel) m

/-! ## The host-side dispatchers -/

/-- Modelled from the spec: the enumeration `kvcache_ops::AscendType` of `types.h`
(not part of the sources), the tag of an element type or of a slot-index width. The
members the dispatchers name are `FP16`, `BF16`, `INT8`, `INT32` and `INT64`; `other`
stands for every further value of the enumeration. -/
inductive AscendType where
  | FP16 : AscendType
  | BF16 : AscendType
  | INT8 : AscendType
  | INT32 : AscendType
  | INT64 : AscendType
  | other (tag : Nat) : AscendType
  deriving DecidableEq

/-- The element types `scalar_t` the kernels are instantiated for. -/
inductive ScalarT where
  | half : ScalarT
  | bfloat16_t : ScalarT
  | int8_t : ScalarT
  deriving DecidableEq

/-- The slot-index types `slot_t` the kernels are instantiated for. -/
inductive SlotT where
  | int32_t : SlotT
  | int64_t : SlotT
  deriving DecidableEq

/-- The kernel instances declared by the three `..._TYPE_DECLARE` macro lists. -/
inductive Kernel where
  | single_layer_paged_kv_copy (t : ScalarT) (s : SlotT) (isMLA : Bool) : Kernel
  | multi_layer_paged_kv_copy (t : ScalarT) (s : SlotT) : Kernel
  | load_and_reshape_flash_copy (t : ScalarT) (s : SlotT) : Kernel
  deriving DecidableEq

/-- The state of a host call: the kernel instances launched so far, in order, and the
machine they ran on. -/
structure Host (α : Type) where
  launched : List Kernel
  machine : Machine α

/-- The specialisation `single_layer_paged_kernel<TYPE, SLOTTYPE, ISMLA>` of
`SINGLE_LAYER_PAGED_KERNEL_CALL_TYPE_DECLARE` as the dispatcher calls it: one launch of
the instance, recorded in the launches of the host. -/
def single_layer_paged_kernel_inst (t : ScalarT) (s : SlotT) (isMLA : Bool)
    (blockDim : Nat) (hiddenDims numTokens : Int) (page2L tokenMajor : Bool) (fuel : Nat)
    (h : Host α) : Option (Host α) :=
  (single_layer_paged_kernel isMLA blockDim hiddenDims numTokens page2L tokenMajor fuel
    h.machine).map
    (fun m => ⟨h.launched ++ [Kernel.single_layer_paged_kv_copy t s isMLA], m⟩)

/-- The host function `dispatch_single_layer_kernel_on_slot_type<T>`. -/
def dispatch_single_layer_kernel_on_slot_type (t : ScalarT) (slotType : AscendType)
    (blockDim : Nat) (hiddenDims numTokens : Int) (page2L tokenMajor isMLA : Bool)
    (fuel : Nat) (h : Host α) : Option (Host α) :=
  if isMLA then
    match slotType with
    | AscendType.INT32 =>
      single_layer_paged_kernel_inst t SlotT.int32_t true blockDim hiddenDims numTokens
        page2L tokenMajor fuel h
    | AscendType.INT64 =>
      single_layer_paged_kernel_inst t SlotT.int64_t true blockDim hiddenDims numTokens
        page2L tokenMajor fuel h
    | _ => some h
  else
    match slotType with
    | AscendType.INT32 =>
      single_layer_paged_kernel_inst t SlotT.int32_t false blockDim hiddenDims numTokens
        page2L tokenMajor fuel h
    | AscendType.INT64 =>
      single_layer_paged_kernel_inst t SlotT.int64_t false blockDim hiddenDims numTokens
        page2L tokenMajor fuel h
    | _ => some h

/-- The host function `single_layer_kv_transfer_kernel`. `cceAicore` is the value of
the build macro `__CCE_AICORE__`: the `BF16` case exists only under
`#if (__CCE_AICORE__ >= 220)`. The `INT8` case has no `break`: after its dispatch the
control falls into `default: return`. -/
def single_layer_kv_transfer_kernel (cceAicore : Nat) (type slotType : AscendType)
    (blockDim : Nat) (hiddenDims numTokens : Int) (page2L tokenMajor isMLA : Bool)
    (fuel : Nat) (h : Host α) : Option (Host α) :=
  match type with
  | AscendType.FP16 =>
    dispatch_single_layer_kernel_on_slot_type ScalarT.half slotType blockDim hiddenDims
      numTokens page2L tokenMajor isMLA fuel h
  | AscendType.BF16 =>
    if 220 ≤ cceAicore then
      dispatch_single_layer_kernel_on_slot_type ScalarT.bfloat16_t slotType blockDim
        hiddenDims numTokens page2L tokenMajor isMLA fuel h
    else some h
  | AscendType.INT8 =>
    (dispatch_single_layer_kernel_on_slot_type ScalarT.int8_t slotType blockDim hiddenDims
      numTokens page2L tokenMajor isMLA fuel h).bind (fun h1 => some h1)
  | _ => some h

/-- The specialisation `multi_layer_paged_kernel<TYPE, SLOTTYPE>` of
`MULTI_LAYER_PAGED_KERNEL_CALL_TYPE_DECLARE` as the dispatcher calls it: one launch of
the instance, recorded in the launches of the host. -/
def multi_layer_paged_kernel_inst (t : ScalarT) (s : SlotT) (blockDim : Nat)
    (hiddenDims kvs numLayers pageBuffSize numTokensChunk : Int) (page2L : Bool)
    (fuel : Nat) (h : Host α) : Option (Host α) :=
  (multi_layer_paged_kernel blockDim hiddenDims kvs numLayers pageBuffSize numTokensChunk
    page2L fuel h.machine).map
    (fun m => ⟨h.launched ++ [Kernel.multi_layer_paged_kv_copy t s], m⟩)

/-- The host function `dispatch_paged_kernel_on_slot_type<T>`. -/
def dispatch_paged_kernel_on_slot_type (t : ScalarT) (slotType : AscendType)
    (blockDim : Nat) (hiddenDims kvs numLayers pageBuffSize numTokensChunk : Int)
    (page2L : Bool) (fuel : Nat) (h : Host α) : Option (Host α) :=
  match slotType with
  | AscendType.INT32 =>
    multi_layer_paged_kernel_inst t SlotT.int32_t blockDim hiddenDims kvs numLayers
      pageBuffSize numTokensChunk page2L fuel h
  | AscendType.INT64 =>
    multi_layer_paged_kernel_inst t SlotT.int64_t blockDim hiddenDims kvs numLayers
      pageBuffSize numTokensChunk page2L fuel h
  | _ => some h

/-- The host function `multi_layer_kv_transfer_kernel`. `cceAicore` is the value of the
build macro `__CCE_AICORE__`: the `BF16` case exists only under
`#if (__CCE_AICORE__ >= 220)`. -/
def multi_layer_kv_transfer_kernel (cceAicore : Nat) (type slotType : AscendType)
    (blockDim : Nat) (hiddenDims kvs numLayers pageBuffSize numTokensChunk : Int)
    (page2L : Bool) (fuel : Nat) (h : Host α) : Option (Host α) :=
  match type with
  | AscendType.FP16 =>
    dispatch_paged_kernel_on_slot_type ScalarT.half slotType blockDim hiddenDims kvs
      numLayers pageBuffSize numTokensChunk page2L fuel h
  | AscendType.BF16 =>
    if 220 ≤ cceAicore then
      dispatch_paged_kernel_on_slot_type ScalarT.bfloat16_t slotType blockDim hiddenDims
        kvs numLayers pageBuffSize numTokensChunk page2L fuel h
    else some h
  | AscendType.INT8 =>
    dispatch_paged_kernel_on_slot_type ScalarT.int8_t slotType blockDim hiddenDims kvs
      numLayers pageBuffSize numTokensChunk page2L fuel h
  | _ => some h

/-- The specialisation `load_and_reshape_kernel_call<TYPE, SLOTTYPE>` of
`LOAD_AND_RESHAPE_KERNEL_CALL_TYPE_DECLARE` as the dispatcher calls it: one launch of the
instance, recorded in the launches of the host. -/
def load_and_reshape_kernel_call_inst (t : ScalarT) (s : SlotT) (blockDim : Nat)
    (hiddenDims numPages pagedSize numTokens numLayers layerIdx : Int) (page2L : Bool)
    (fuel : Nat) (h : Host α) : Option (Host α) :=
  (load_and_reshape_kernel_call blockDim hiddenDims numPages pagedSize numTokens
    numLayers layerIdx page2L fuel h.machine).map
    (fun m => ⟨h.launched ++ [Kernel.load_and_reshape_flash_copy t s], m⟩)

/-- The host function `dispatch_on_slot_type<T>`. -/
def dispatch_on_slot_type (t : ScalarT) (slotType : AscendType) (blockDim : Nat)
    (hiddenDims numPages pagedSize numTokens numLayers layerIdx : Int) (page2L : Bool)
    (fuel : Nat) (h : Host α) : Option (Host α) :=
  match slotType with
  | AscendType.INT32 =>
    load_and_reshape_kernel_call_inst t SlotT.int32_t blockDim hiddenDims numPages
      pagedSize numTokens numLayers layerIdx page2L fuel h
  | AscendType.INT64 =>
    load_and_reshape_kernel_call_inst t SlotT.int64_t blockDim hiddenDims numPages
      pagedSize numTokens numLayers layerIdx page2L fuel h
  | _ => some h

/-- The host function `load_and_reshape_flash_kernel`; its `BF16` case is not under a
build condition. -/
def load_and_reshape_flash_kernel (type slotType : AscendType) (blockDim : Nat)
    (hiddenDims numPages pagedSize numTokens numLayers layerIdx : Int) (page2L : Bool)
    (fuel : Nat) (h : Host α) : Option (Host α) :=
  match type with
  | AscendType.FP16 =>
    dispatch_on_slot_type ScalarT.half slotType blockDim hiddenDims numPages pagedSize
      numTokens numLayers layerIdx page2L fuel h
  | AscendType.BF16 =>
    dispatch_on_slot_type ScalarT.bfloat16_t slotType blockDim hiddenDims numPages
      pagedSize numTokens numLayers layerIdx page2L fuel h
  | AscendType.INT8 =>
    dispatch_on_slot_type ScalarT.int8_t slotType blockDim hiddenDims numPages pagedSize
      numTokens numLayers layerIdx page2L fuel h
  | _ => some h

/-! ## Definitions used to state and prove the properties -/

/-- The indices at which the loop `for (i = start; i < bound; i += step)` runs its body,
in order, with `fuel` iterations at most. -/
def loopIndices (bound step : Int) : Nat → Int → List Int
  | 0, _ => []
  | fuel + 1, i => if i < bound then i :: loopIndices bound step fuel (i + step) else []

/-- The trace of the kernel loop `for (i = bIdx; i < numTokens; i += coreNums)`: the
loop is run with a body that records its index. -/
def visited (numTokens coreNums : Int) (fuel : Nat) (bIdx : Int) : Option (List Int) :=
  forLoop (fun i tr => some (tr ++ [i])) numTokens coreNums fuel bIdx []

/-- The token indices of a launch on `blockDim` workers in the order of execution:
worker after worker, each with the indices of its loop. -/
def schedule (blockDim : Nat) (numTokens : Int) (fuel : Nat) : List Int :=
  (List.range blockDim).flatMap (fun b => loopIndices numTokens blockDim fuel (b : Int))

/-- One vector transfer: `n` elements from offset `so` of buffer `sb` to offset `dof` of
buffer `db`. -/
structure Xfer where
  sb : Buf
  so : Int
  db : Buf
  dof : Int
  deriving DecidableEq

/-- The element `i` of buffer `b` is written by the transfer `x` of length `n`. -/
def Xfer.hits (n : Int) (x : Xfer) (b : Buf) (i : Int) : Prop :=
  b = x.db ∧ x.dof ≤ i ∧ i < x.dof + n

/-- The effect of one vector transfer on global memory. -/
def applyXfer (n : Int) (gm : Buf → Int → α) (x : Xfer) : Buf → Int → α :=
  fun b i => if b = x.db ∧ x.dof ≤ i ∧ i < x.dof + n then gm x.sb (x.so + (i - x.dof))
             else gm b i

/-- The scratch queue between two calls of `processFunc`: nothing is published and the
pool holds at least two buffers, all different. -/
def PoolOK (m : Machine α) : Prop :=
  m.ready = [] ∧ m.pool.Nodup ∧ 2 ≤ m.pool.length

/-- The transfer between a paged descriptor and a contiguous descriptor in the
direction given by `page2L`. -/
def mkXfer (page2L : Bool) (paged lmc : GlobalTensor) : Xfer :=
  if page2L then ⟨paged.buf, paged.off, lmc.buf, lmc.off⟩
  else ⟨lmc.buf, lmc.off, paged.buf, paged.off⟩

/-- The body of a `processFunc` that moves one vector (steps 1 to 6 of the source). -/
def process1 (page2L : Bool) (n : Int) (pT lT : GlobalTensor) (m : Machine α) :
    Option (Machine α) := do
  let (k, m) ← AllocTensor m
  let m := if page2L then DataCopyIn m k pT n else DataCopyIn m k lT n
  let m := EnQue m k
  let (k, m) ← DeQue m
  let m := if page2L then DataCopyOut m lT k n else DataCopyOut m pT k n
  some (FreeTensor m k)

/-- The body of a `processFunc` that moves a key vector and a value vector (steps 1 to
6 of the source). -/
def process2 (page2L : Bool) (n : Int) (kT vT lK lV : GlobalTensor) (m : Machine α) :
    Option (Machine α) := do
  let (k, m) ← AllocTensor m
  let (v, m) ← AllocTensor m
  let m := if page2L then DataCopyIn (DataCopyIn m k kT n) v vT n
           else DataCopyIn (DataCopyIn m k lK n) v lV n
  let m := EnQue (EnQue m k) v
  let (k, m) ← DeQue m
  let (v, m) ← DeQue m
  let m := if page2L then DataCopyOut (DataCopyOut m lK k n) lV v n
           else DataCopyOut (DataCopyOut m kT k n) vT v n
  some (FreeTensor (FreeTensor m k) v)

/-- The invariant of the single-layer kernel loop: the configuration members keep the
values `init` gave them, the slot table is `slots`, and the scratch queue is at rest. -/
def SingleLayerPagedKVCopy.Inv (isMLA : Bool) (h T : Int) (p tm : Bool) (slots : Int → Int)
    (s : SingleLayerPagedKVCopy × Machine α) : Prop :=
  s.1.hiddenDims = h ∧ s.1.numTokens = T ∧ s.1.numKvs = (if isMLA then 1 else 2) ∧
  s.1.page2L = p ∧ s.1.tokenMajor = tm ∧ s.2.slots = slots ∧ PoolOK s.2

/-- The contiguous-side element offset of the single-layer layout. -/
def SingleLayerPagedKVCopy.lmcOff (isMLA : Bool) (h T : Int) (tm : Bool) (t k : Int) : Int :=
  if tm then t * (if isMLA then 1 else 2) * h + k * h else k * T * h + t * h

/-- The vector transfers of one iteration of the single-layer kernel loop for the token
index `t`, in order. -/
def SingleLayerPagedKVCopy.xfers (isMLA : Bool) (h T : Int) (p tm : Bool)
    (slots : Int → Int) (t : Int) : List Xfer :=
  if slots t = -1 then []
  else if isMLA then
    [mkXfer p ⟨Buf.key, slots t * h, h⟩ ⟨Buf.lmc, SingleLayerPagedKVCopy.lmcOff isMLA h T tm t 0, h⟩]
  else
    [mkXfer p ⟨Buf.key, slots t * h, h⟩ ⟨Buf.lmc, SingleLayerPagedKVCopy.lmcOff isMLA h T tm t 0, h⟩,
     mkXfer p ⟨Buf.value, slots t * h, h⟩
       ⟨Buf.lmc, SingleLayerPagedKVCopy.lmcOff isMLA h T tm t 1, h⟩]

/-- The invariant of the flash kernel loop: the configuration members keep the values
`init` gave them, the slot table is `slots`, and the scratch queue is at rest. -/
def LoadAndReshapeFlashCopy.Inv (h T L l : Int) (p : Bool) (slots : Int → Int)
    (s : LoadAndReshapeFlashCopy × Machine α) : Prop :=
  s.1.hiddenDims = h ∧ s.1.numTokens = T ∧ s.1.numLayers = L ∧ s.1.layerIdx = l ∧
  s.1.page2L = p ∧ s.2.slots = slots ∧ PoolOK s.2

/-- The vector transfers of one iteration of the flash kernel loop for the token index
`t`, in order. -/
def LoadAndReshapeFlashCopy.xfers (h T L l : Int) (p : Bool) (slots : Int → Int)
    (t : Int) : List Xfer :=
  if slots t = -1 then []
  else
    [mkXfer p ⟨Buf.key, slots t * h, h⟩ ⟨Buf.lmc, l * T * h + t * h, h⟩,
     mkXfer p ⟨Buf.value, slots t * h, h⟩ ⟨Buf.lmc, L * T * h + l * T * h + t * h, h⟩]

/-- The invariant of the multi-layer kernel loops: the configuration members keep the
values `init` gave them, the slot table is `slots`, the pointer table is `ptrs`, and
the scratch queue is at rest. -/
def MultiLayerPagedKVCopy.Inv (h L B T : Int) (p : Bool) (slots ptrs : Int → Int)
    (s : MultiLayerPagedKVCopy × Machine α) : Prop :=
  s.1.hiddenDims = h ∧ s.1.numLayers = L ∧ s.1.pageBuffSize = B ∧ s.1.numTokensChunk = T ∧
  s.1.page2L = p ∧ s.2.slots = slots ∧ s.2.ptrs = ptrs ∧ PoolOK s.2

/-- The vector transfer of one innermost iteration of the multi-layer kernel, for the
token index `t`, the component `kv` and the layer `layer`. -/
def MultiLayerPagedKVCopy.xfer1 (h L B T : Int) (p : Bool) (slots ptrs : Int → Int)
    (t kv layer : Int) : List Xfer :=
  if slots t = -1 then []
  else
    [mkXfer p ⟨Buf.layer (ptrs layer), kv * B * h + slots t * h, h⟩
       ⟨Buf.lmc, kv * L * T * h + layer * T * h + t * h, h⟩]

/-- The vector transfers of one iteration of the multi-layer token loop for the token
index `t`, in order: the loop over `kvIdx` outside, the loop over `layerIdx` inside. -/
def MultiLayerPagedKVCopy.xfers (h kvs L B T : Int) (p : Bool) (slots ptrs : Int → Int)
    (fuel : Nat) (t : Int) : List Xfer :=
  (loopIndices kvs 1 fuel 0).flatMap (fun kv =>
    (loopIndices L 1 fuel 0).flatMap (fun layer =>
      MultiLayerPagedKVCopy.xfer1 h L B T p slots ptrs t kv layer))

/-- The object of the single-layer kernel after the resolver calls of one iteration of the
kernel loop for the token index `t`: `reset`, the call for the keys, and the call for the
values unless `isMLA`. -/
def SingleLayerPagedKVCopy.resolve (isMLA : Bool) (op : SingleLayerPagedKVCopy)
    (m : Machine α) (t : Int) : SingleLayerPagedKVCopy :=
  let r := op.reset.updateTensorMemOffsetAndProcess m Buf.key Buf.lmc t 0
  if !isMLA then (r.1.updateTensorMemOffsetAndProcess r.2 Buf.value Buf.lmc t 1).1 else r.1

/-- The object of the multi-layer kernel after the resolver call of one innermost
iteration. -/
def MultiLayerPagedKVCopy.resolve (op : MultiLayerPagedKVCopy) (m : Machine α)
    (t kvIdx layerIdx : Int) : MultiLayerPagedKVCopy :=
  (op.reset.updateMemOffset m Buf.lmc t kvIdx layerIdx).1

/-- The object of the flash kernel after the resolver call of one iteration. -/
def LoadAndReshapeFlashCopy.resolve (op : LoadAndReshapeFlashCopy) (m : Machine α)
    (t : Int) : LoadAndReshapeFlashCopy :=
  (op.reset.updateTensorMemOffsetAndProcess m Buf.key Buf.value Buf.lmc t).1

/-- The transfer of the single-layer kernel for the token `t` and the component `k`
(0 for the keys, 1 for the values). -/
def SingleLayerPagedKVCopy.xfer (isMLA : Bool) (h T : Int) (p tm : Bool)
    (slots : Int → Int) (t k : Int) : Xfer :=
  mkXfer p ⟨if k = 0 then Buf.key else Buf.value, slots t * h, h⟩
    ⟨Buf.lmc, SingleLayerPagedKVCopy.lmcOff isMLA h T tm t k, h⟩

/-- The transfer of the flash kernel for the token `t` and the component `k` (0 for the
keys, 1 for the values). -/
def LoadAndReshapeFlashCopy.xfer (h T L l : Int) (p : Bool) (slots : Int → Int)
    (t k : Int) : Xfer :=
  mkXfer p ⟨if k = 0 then Buf.key else Buf.value, slots t * h, h⟩
    ⟨Buf.lmc, if k = 0 then l * T * h + t * h else L * T * h + l * T * h + t * h, h⟩

/-- The transfer of the multi-layer kernel for the token `t`, the component `kv` and
the layer `layer`. -/
def MultiLayerPagedKVCopy.xfer (h L B T : Int) (p : Bool) (slots ptrs : Int → Int)
    (t kv layer : Int) : Xfer :=
  mkXfer p ⟨Buf.layer (ptrs layer), kv * B * h + slots t * h, h⟩
    ⟨Buf.lmc, kv * L * T * h + layer * T * h + t * h, h⟩

/-! ## Machine integers -/

/-- The value of a signed 32-bit integer (`int`, `int32_t`) that holds the low 32 bits
of `x` in two's complement. -/
def wrap32 (x : Int) : Int := (x + 2147483648) % 4294967296 - 2147483648

/-- The value of a signed 64-bit integer (`int64_t`) that holds the low 64 bits of `x`
in two's complement. -/
def wrap64 (x : Int) : Int :=
  (x + 9223372036854775808) % 18446744073709551616 - 9223372036854775808

/-- The conversion `static_cast<int64_t>(slotmappingPtr[tokenIdx])` for the slot type
`slot_t`: the table entry with the bit pattern of `raw`, read as a `slot_t` and widened
to 64 bits. -/
def SlotT.widen : SlotT → Int → Int
  | SlotT.int32_t, raw => wrap64 (wrap32 raw)
  | SlotT.int64_t, raw => wrap64 raw

/-- The expression `nonPagedKeyOffset` of
`LoadAndReshapeFlashCopy::updateTensorMemOffsetAndProcess` evaluated with the widths of
its operand types: `layerIdx_ * numTokens_` is a product of two `int32_t` values, every
other operation is on `int64_t`. -/
def LoadAndReshapeFlashCopy.nonPagedKeyOffset (layerIdx numTokens hiddenDims
    tokenIdx : Int) : Int :=
  wrap64 (wrap64 (wrap32 (layerIdx * numTokens) * hiddenDims) +
    wrap64 (tokenIdx * hiddenDims))

/-- The expression `nonPagedValueOffset` of
`LoadAndReshapeFlashCopy::updateTensorMemOffsetAndProcess` evaluated with the widths of
its operand types: `numLayers_ * numTokens_` and `layerIdx_ * numTokens_` are products of
two `int32_t` values, every other operation is on `int64_t`. -/
def LoadAndReshapeFlashCopy.nonPagedValueOffset (numLayers layerIdx numTokens hiddenDims
    tokenIdx : Int) : Int :=
  wrap64 (wrap64 (wrap64 (wrap32 (numLayers * numTokens) * hiddenDims) +
      wrap64 (wrap32 (layerIdx * numTokens) * hiddenDims)) +
    wrap64 (tokenIdx * hiddenDims))

/-! ## Definitions used to state the properties of the event log -/

/-- The descriptor of the source range of a transfer of `n` elements. -/
def Xfer.src (n : Int) (x : Xfer) : GlobalTensor := ⟨x.sb, x.so, n⟩

/-- The descriptor of the destination range of a transfer of `n` elements. -/
def Xfer.dst (n : Int) (x : Xfer) : GlobalTensor := ⟨x.db, x.dof, n⟩

/-- The descriptors of the global-memory reads of a log, in order. -/
def readsOf : List Event → List GlobalTensor
  | [] => []
  | Event.gmRead g _ :: l => g :: readsOf l
  | _ :: l => readsOf l

/-- The descriptors of the global-memory writes of a log, in order. -/
def writesOf : List Event → List GlobalTensor
  | [] => []
  | Event.gmWrite g _ :: l => g :: writesOf l
  | _ :: l => writesOf l

/-- The scratch buffers acquired in a log, in order. -/
def allocsOf : List Event → List Nat
  | [] => []
  | Event.alloc b :: l => b :: allocsOf l
  | _ :: l => allocsOf l

/-- The number of scratch buffers held (acquired and not yet released) after each
event of a log, starting from `held` buffers. -/
def heldTrace (held : Int) : List Event → List Int
  | [] => []
  | Event.alloc _ :: l => (held + 1) :: heldTrace (held + 1) l
  | Event.release _ :: l => (held - 1) :: heldTrace (held - 1) l
  | _ :: l => held :: heldTrace held l

/-- The events of a call of `processFunc` that moves one vector from the range `s` to
the range `d` through the scratch buffer `a`. -/
def copyLog1 (n : Int) (a : Nat) (s d : GlobalTensor) : List Event :=
  [Event.alloc a, Event.gmRead s n, Event.enque a, Event.deque a, Event.gmWrite d n,
   Event.release a]

/-- The events of a call of `processFunc` that moves a key vector from `ks` to `kd`
through the scratch buffer `a` and a value vector from `vs` to `vd` through the scratch
buffer `b`. -/
def copyLog2 (n : Int) (a b : Nat) (ks vs kd vd : GlobalTensor) : List Event :=
  [Event.alloc a, Event.alloc b, Event.gmRead ks n, Event.gmRead vs n,
   Event.enque a, Event.enque b, Event.deque a, Event.deque b,
   Event.gmWrite kd n, Event.gmWrite vd n, Event.release a, Event.release b]

/-- The events of a call of `processFunc` that moves one vector by the transfer `x`
through the scratch buffer `a`. -/
def callLog1 (n : Int) (a : Nat) (x : Xfer) : List Event :=
  copyLog1 n a (x.src n) (x.dst n)

/-- The events of a call of `processFunc` that moves a key vector by the transfer `x`
through the scratch buffer `a` and a value vector by the transfer `y` through the
scratch buffer `b`. -/
def callLog2 (n : Int) (a b : Nat) (x y : Xfer) : List Event :=
  copyLog2 n a b (x.src n) (y.src n) (x.dst n) (y.dst n)

/-- The scratch queue between two calls of `processFunc`, with nothing held: nothing is
published and the pool holds its four buffers, all different. -/
def PoolRest (m : Machine α) : Prop :=
  m.ready = [] ∧ m.pool.Nodup ∧ m.pool.length = 4

/-- The events of one iteration of the single-layer kernel loop for the token index `i`,
with `a` and `b` the first two scratch buffers of the pool. -/
def SingleLayerPagedKVCopy.iterLog (isMLA : Bool) (h T : Int) (p tm : Bool)
    (slots : Int → Int) (i : Int) (a b : Nat) : List Event :=
  if isMLA then
    Event.slotRead i ::
      (if slots i = -1 then []
       else callLog1 h a (SingleLayerPagedKVCopy.xfer isMLA h T p tm slots i 0))
  else
    Event.slotRead i :: Event.slotRead i ::
      (if slots i = -1 then []
       else callLog2 h a b (SingleLayerPagedKVCopy.xfer isMLA h T p tm slots i 0)
         (SingleLayerPagedKVCopy.xfer isMLA h T p tm slots i 1))

/-- The events of one iteration of the flash kernel loop for the token index `i`, with
`a` and `b` the first two scratch buffers of the pool. -/
def LoadAndReshapeFlashCopy.iterLog (h T L l : Int) (p : Bool) (slots : Int → Int)
    (i : Int) (a b : Nat) : List Event :=
  Event.slotRead i ::
    (if slots i = -1 then []
     else callLog2 h a b (LoadAndReshapeFlashCopy.xfer h T L l p slots i 0)
       (LoadAndReshapeFlashCopy.xfer h T L l p slots i 1))

/-- The events of one innermost iteration of the multi-layer kernel for the token index
`i`, the component `kv` and the layer `layer`, with `a` the first scratch buffer of the
pool. -/
def MultiLayerPagedKVCopy.iterLog (h L B T : Int) (p : Bool) (slots ptrs : Int → Int)
    (i kv layer : Int) (a : Nat) : List Event :=
  Event.slotRead i ::
    (if slots i = -1 then []
     else Event.ptrRead layer ::
       callLog1 h a (MultiLayerPagedKVCopy.xfer h L B T p slots ptrs i kv layer))

/-- The elements of the range of `d` outside the range of `skip` hold in `gm1` what the
corresponding elements of the range of `s` hold in `gm`. -/
def Delivered (n : Int) (s d : GlobalTensor) (skip : Option GlobalTensor)
    (gm gm1 : Buf → Int → α) : Prop :=
  ∀ j : Int, 0 ≤ j → j < n →
    (∀ v, skip = some v → ¬ (d.buf = v.buf ∧ v.off ≤ d.off + j ∧ d.off + j < v.off + n)) →
    gm1 d.buf (d.off + j) = gm s.buf (s.off + j)

/-- A call of a one-vector `processFunc` from the machine `m` to the machine `m1`: the
events are those of `copyLog1` for the first buffer `a` of the pool, the buffer is back
in the pool, and the destination holds the source data. -/
def OneVectorCall (n : Int) (a : Nat) (s d : GlobalTensor) (m m1 : Machine α) : Prop :=
  m1.log = m.log ++ copyLog1 n a s d ∧ m1.ready = [] ∧ m1.pool = m.pool.tail ++ [a] ∧
  Delivered n s d none m.gm m1.gm

/-- A call of a two-vector `processFunc` from the machine `m` to the machine `m1`: the
events are those of `copyLog2` for the first two buffers `a`, `b` of the pool, both are
back in the pool, the value destination holds the value source data, and the key
destination holds the key source data where the value destination does not cover
it. -/
def TwoVectorCall (n : Int) (a b : Nat) (ks vs kd vd : GlobalTensor)
    (m m1 : Machine α) : Prop :=
  m1.log = m.log ++ copyLog2 n a b ks vs kd vd ∧ m1.ready = [] ∧
  m1.pool = m.pool.tail.tail ++ [a, b] ∧
  Delivered n vs vd none m.gm m1.gm ∧ Delivered n ks kd (some vd) m.gm m1.gm

/-- The run from the machine `m` to the machine `m1` performs exactly the vector
transfers `xs` of `n` elements, in order: global memory is changed by them one after the
other, the global-memory reads of the log gain their source ranges, its global-memory
writes gain their destination ranges, and the slot table and the pointer table are as
before. -/
def Performs (n : Int) (xs : List Xfer) (m m1 : Machine α) : Prop :=
  m1.gm = xs.foldl (applyXfer n) m.gm ∧
  readsOf m1.log = readsOf m.log ++ xs.map (Xfer.src n) ∧
  writesOf m1.log = writesOf m.log ++ xs.map (Xfer.dst n) ∧
  m1.slots = m.slots ∧ m1.ptrs = m.ptrs

/-- The side of a transfer a buffer is on when it is read in the direction `page2L`:
a paged buffer (any buffer other than the contiguous one) for `page2L = true`, the
contiguous buffer for `page2L = false`. -/
def Buf.isSource (page2L : Bool) (b : Buf) : Prop :=
  if page2L then b ≠ Buf.lmc else b = Buf.lmc

/-- The run from the machine `m` to the machine `m1` reads global memory only in
buffers of the source side of the direction `page2L` and writes only buffers of the
other side: every buffer of the source side is unchanged, every global-memory read the
log gains addresses the source side, every write the other side, and the slot table and
the pointer table are as before. -/
def OnlyMoves (page2L : Bool) (m m1 : Machine α) : Prop :=
  (∀ b, b.isSource page2L → m1.gm b = m.gm b) ∧
  (∃ rs ws, readsOf m1.log = readsOf m.log ++ rs ∧ writesOf m1.log = writesOf m.log ++ ws ∧
    (∀ g ∈ rs, g.buf.isSource page2L) ∧ (∀ g ∈ ws, g.buf.isSource (!page2L))) ∧
  m1.slots = m.slots ∧ m1.ptrs = m.ptrs

/-- The descriptors `SingleLayerPagedKVCopy::processFunc` reads global memory from, in
order. -/
def SingleLayerPagedKVCopy.sources (isMLA : Bool) (op : SingleLayerPagedKVCopy) :
    List GlobalTensor :=
  if isMLA then [if op.page2L then op.keyTokensGlobal else op.lmcBufferKeyGlobal]
  else [if op.page2L then op.keyTokensGlobal else op.lmcBufferKeyGlobal,
        if op.page2L then op.valueTokensGlobal else op.lmcBufferValueGlobal]

/-- The descriptors `SingleLayerPagedKVCopy::processFunc` writes global memory to, in
order. -/
def SingleLayerPagedKVCopy.dests (isMLA : Bool) (op : SingleLayerPagedKVCopy) :
    List GlobalTensor :=
  if isMLA then [if op.page2L then op.lmcBufferKeyGlobal else op.keyTokensGlobal]
  else [if op.page2L then op.lmcBufferKeyGlobal else op.keyTokensGlobal,
        if op.page2L then op.lmcBufferValueGlobal else op.valueTokensGlobal]

/-- The descriptors `LoadAndReshapeFlashCopy::processFunc` reads global memory from, in
order. -/
def LoadAndReshapeFlashCopy.sources (op : LoadAndReshapeFlashCopy) : List GlobalTensor :=
  [if op.page2L then op.keyTokensGlobal else op.lmcBufferKeyGlobal,
   if op.page2L then op.valueTokensGlobal else op.lmcBufferValueGlobal]

/-- The descriptors `LoadAndReshapeFlashCopy::processFunc` writes global memory to, in
order. -/
def LoadAndReshapeFlashCopy.dests (op : LoadAndReshapeFlashCopy) : List GlobalTensor :=
  [if op.page2L then op.lmcBufferKeyGlobal else op.keyTokensGlobal,
   if op.page2L then op.lmcBufferValueGlobal else op.valueTokensGlobal]

/-- The descriptor `MultiLayerPagedKVCopy::processFunc` reads global memory from. -/
def MultiLayerPagedKVCopy.sources (op : MultiLayerPagedKVCopy) : List GlobalTensor :=
  [if op.page2L then op.pagedTokenGlobal else op.lmcBufferGlobal]

/-- The descriptor `MultiLayerPagedKVCopy::processFunc` writes global memory to. -/
def MultiLayerPagedKVCopy.dests (op : MultiLayerPagedKVCopy) : List GlobalTensor :=
  [if op.page2L then op.lmcBufferGlobal else op.pagedTokenGlobal]

/-- The pairs (kv, layer) of the nested loops of the multi-layer kernel in the order of
execution: the loop over `kvIdx` outside, the loop over `layerIdx` inside. -/
def MultiLayerPagedKVCopy.pairs (kvs L : Int) : List (Int × Int) :=
  (List.range kvs.toNat).flatMap (fun (kv : Nat) =>
    (List.range L.toNat).map (fun (layer : Nat) => ((kv : Int), (layer : Int))))

/-- The triples (token, kv, layer) for which the multi-layer kernel performs a transfer
when its token loop visits `tokens`, in the order of execution: the tokens whose slot
is `-1` contribute nothing, every other token contributes all pairs. -/
def MultiLayerPagedKVCopy.work (kvs L : Int) (slots : Int → Int) (tokens : List Int) :
    List (Int × Int × Int) :=
  tokens.flatMap (fun t =>
    if slots t = -1 then []
    else (MultiLayerPagedKVCopy.pairs kvs L).map (fun q => (t, q.1, q.2)))

/-- The number of tokens of `[0, numTokens)` whose slot is not `-1`. -/
def validCount (slots : Int → Int) (numTokens : Int) : Nat :=
  ((List.range numTokens.toNat).filter (fun (t : Nat) => decide (slots (t : Int) ≠ -1))).length

/-! ## Definitions used to state the independence of the order of execution -/

/-- The token indices passed to the resolver calls of a log (every resolver call reads
the slot table once, at the index it is passed), in order. -/
def slotReadsOf : List Event → List Int
  | [] => []
  | Event.slotRead t :: l => t :: slotReadsOf l
  | _ :: l => slotReadsOf l

/-! ## Concrete inputs -/

/-- The machine of the single-layer scenario: the slot table is `[5, -1]`, slot 5 of the
paged key buffer holds `[1, 2, 3, 4]` and slot 5 of the paged value buffer holds
`[5, 6, 7, 8]` (with `hiddenDims = 4`); the element `x` of the contiguous buffer holds
`100 + x`. -/
def scenario : Machine Int :=
  { gm := fun b x =>
      match b with
      | Buf.key => if 20 ≤ x ∧ x < 24 then x - 19 else 0
      | Buf.value => if 20 ≤ x ∧ x < 24 then x - 15 else 0
      | Buf.lmc => 100 + x
      | Buf.layer p => 1000 * (p + 1) + x
      | Buf.null => 0
    slots := fun t => if t = 0 then 5 else -1
    ptrs := fun l => l
    ub := fun _ _ => 0
    pool := []
    ready := []
    log := [] }

/-- An object of the single-layer kernel as `init` leaves it for the scenario. -/
def scenarioOp (isMLA page2L tokenMajor : Bool) : SingleLayerPagedKVCopy :=
  (SingleLayerPagedKVCopy.init isMLA 4 2 page2L tokenMajor scenario).1

/-- The element types a build with the given value of `__CCE_AICORE__` dispatches in
the single-layer and multi-layer entry points. -/
def guardedScalar (cceAicore : Nat) : AscendType → Option ScalarT
  | AscendType.FP16 => some ScalarT.half
  | AscendType.BF16 => if 220 ≤ cceAicore then some ScalarT.bfloat16_t else none
  | AscendType.INT8 => some ScalarT.int8_t
  | _ => none

/-- The element types the flash entry point dispatches. -/
def flashScalar : AscendType → Option ScalarT
  | AscendType.FP16 => some ScalarT.half
  | AscendType.BF16 => some ScalarT.bfloat16_t
  | AscendType.INT8 => some ScalarT.int8_t
  | _ => none

/-- The slot-index widths the entry points dispatch. -/
def slotWidth : AscendType → Option SlotT
  | AscendType.INT32 => some SlotT.int32_t
  | AscendType.INT64 => some SlotT.int64_t
  | _ => none

/-- An object of the multi-layer kernel as `init` leaves it for the scenario with two
layers and a paged capacity of 8 slots. -/
def scenarioMultiOp (page2L : Bool) : MultiLayerPagedKVCopy :=
  (MultiLayerPagedKVCopy.init 4 2 8 2 page2L scenario).1

/-- An object of the flash kernel as `init` leaves it for the scenario with two layers,
of which layer 1 is transferred. -/
def scenarioFlashOp (page2L : Bool) : LoadAndReshapeFlashCopy :=
  (LoadAndReshapeFlashCopy.init 8 4 1 2 2 1 page2L scenario).1

theorem forLoop_eq_foldlM {σ : Type} (body : Int → σ → Option σ) (bound step : Int)
    (hstep : 1 ≤ step) :
    ∀ (fuel : Nat) (i : Int) (s : σ), (bound - i).toNat < fuel →
      forLoop body bound step fuel i s
        = (loopIndices bound step fuel i).foldlM (fun s i => body i s) s := by
  intro fuel
  induction fuel with
  | zero => intro i s h; omega
  | succ k ih =>
    intro i s h
    unfold forLoop loopIndices
    by_cases hi : i < bound
    · simp only [hi, if_true, List.foldlM_cons]
      cases hb : body i s with
      | none => rfl
      | some s1 =>
        simp only [Option.bind_eq_bind, Option.some_bind]
        exact ih (i + step) s1 (by omega)
    · simp [hi]

theorem mem_loopIndices (bound step : Int) (hstep : 1 ≤ step) :
    ∀ (fuel : Nat) (i x : Int), (bound - i).toNat < fuel →
      (x ∈ loopIndices bound step fuel i ↔ i ≤ x ∧ x < bound ∧ step ∣ x - i) := by
  intro fuel
  induction fuel with
  | zero => intro i x h; omega
  | succ k ih =>
    intro i x h
    unfold loopIndices
    by_cases hi : i < bound
    · simp only [hi, if_true, List.mem_cons]
      rw [ih (i + step) x (by omega)]
      constructor
      · rintro (rfl | ⟨h1, h2, h3⟩)
        · exact ⟨le_refl _, hi, by simp⟩
        · refine ⟨by omega, h2, ?_⟩
          have : x - i = (x - (i + step)) + step := by ring
          rw [this]
          exact dvd_add h3 (dvd_refl _)
      · rintro ⟨h1, h2, ⟨c, hc⟩⟩
        by_cases hx : x = i
        · exact Or.inl hx
        · right
          have hc1 : 1 ≤ c := by
            by_contra hneg
            have hc0 : c ≤ 0 := by omega
            have : step * c ≤ 0 := by nlinarith
            omega
          refine ⟨?_, h2, ⟨c - 1, by rw [mul_sub, ← hc]; ring⟩⟩
          have : step * 1 ≤ step * c := by nlinarith
          omega
    · simp only [hi, if_false, List.not_mem_nil, false_iff]
      omega

theorem loopIndices_lower (bound step : Int) (hstep : 1 ≤ step) :
    ∀ (fuel : Nat) (i x : Int), x ∈ loopIndices bound step fuel i → i ≤ x := by
  intro fuel
  induction fuel with
  | zero => intro i x h; simp [loopIndices] at h
  | succ k ih =>
    intro i x h
    unfold loopIndices at h
    by_cases hi : i < bound
    · simp only [hi, if_true, List.mem_cons] at h
      rcases h with rfl | h
      · exact le_refl _
      · have := ih _ _ h; omega
    · simp [hi] at h

theorem loopIndices_sorted (bound step : Int) (hstep : 1 ≤ step) :
    ∀ (fuel : Nat) (i : Int), (loopIndices bound step fuel i).Pairwise (· < ·) := by
  intro fuel
  induction fuel with
  | zero => intro i; simp [loopIndices]
  | succ k ih =>
    intro i
    unfold loopIndices
    by_cases hi : i < bound
    · simp only [hi, if_true, List.pairwise_cons]
      refine ⟨?_, ih _⟩
      intro x hx
      have := loopIndices_lower bound step hstep _ _ _ hx
      omega
    · simp [hi]

theorem visited_eq (numTokens coreNums : Int) (h1 : 1 ≤ coreNums) (fuel : Nat) (bIdx : Int)
    (hf : (numTokens - bIdx).toNat < fuel) :
    visited numTokens coreNums fuel bIdx = some (loopIndices numTokens coreNums fuel bIdx) := by
  unfold visited
  rw [forLoop_eq_foldlM _ _ _ h1 _ _ _ hf]
  have key : ∀ (l : List Int) (acc : List Int),
      List.foldlM (fun (s : List Int) i => (some (s ++ [i]) : Option (List Int))) acc l
        = some (acc ++ l) := by
    intro l
    induction l with
    | nil => intro acc; simp
    | cons a t ih => intro acc; simp [List.foldlM_cons, ih]
  simpa using key _ []

theorem emod_le_self_of_nonneg (t N : Int) (h0 : 0 ≤ t) : t % N ≤ t := by
  rcases eq_or_ne N 0 with rfl | hN
  · simp
  · have h1 := Int.emod_nonneg t hN
    have h2 := Int.emod_add_ediv t N
    by_cases hp : 0 < N
    · have : 0 ≤ t / N := Int.ediv_nonneg h0 hp.le
      nlinarith
    · have hn : N < 0 := by omega
      have h3 : t % N = t % (-N) := by simp
      have : 0 ≤ t / (-N) := Int.ediv_nonneg h0 (by omega)
      have h4 := Int.emod_add_ediv t (-N)
      rw [h3]; nlinarith

theorem mem_schedule (N : Nat) (hN : 1 ≤ N) (numTokens : Int) (fuel : Nat)
    (hf : numTokens.toNat < fuel) (t : Int) :
    t ∈ schedule N numTokens fuel ↔ 0 ≤ t ∧ t < numTokens := by
  unfold schedule
  simp only [List.mem_flatMap, List.mem_range]
  have hN1 : (1 : Int) ≤ (N : Int) := by exact_mod_cast hN
  constructor
  · rintro ⟨b, hb, hmem⟩
    rw [mem_loopIndices numTokens N hN1 fuel b t (by omega)] at hmem
    omega
  · rintro ⟨h0, h1⟩
    refine ⟨(t % (N : Int)).toNat, ?_, ?_⟩
    · have := Int.emod_lt_of_pos t (by omega : (0 : Int) < (N : Int))
      have := Int.emod_nonneg t (by omega : (N : Int) ≠ 0)
      omega
    · have hnn := Int.emod_nonneg t (by omega : (N : Int) ≠ 0)
      rw [mem_loopIndices numTokens N hN1 fuel _ t (by omega)]
      rw [Int.toNat_of_nonneg hnn]
      refine ⟨emod_le_self_of_nonneg t N h0, h1, ?_⟩
      exact Int.dvd_sub_of_emod_eq rfl

/-! ## Folding a loop body with an invariant -/

theorem foldlM_invariant {σ β ι : Type} (body : σ → ι → Option σ) (Inv : σ → Prop)
    (eff : σ → β) (F : β → ι → β) (P : ι → Prop)
    (hbody : ∀ i s, P i → Inv s → ∃ s1, body s i = some s1 ∧ Inv s1 ∧ eff s1 = F (eff s) i) :
    ∀ (l : List ι) (s : σ), (∀ i ∈ l, P i) → Inv s →
      ∃ s1, l.foldlM body s = some s1 ∧ Inv s1 ∧ eff s1 = l.foldl F (eff s) := by
  intro l
  induction l with
  | nil => intro s _ hs; exact ⟨s, rfl, hs, rfl⟩
  | cons a t ih =>
    intro s hP hs
    obtain ⟨s1, h1, h2, h3⟩ := hbody a s (hP a (List.mem_cons_self _ _)) hs
    obtain ⟨s2, h4, h5, h6⟩ := ih s1 (fun i hi => hP i (List.mem_cons_of_mem _ hi)) h2
    refine ⟨s2, ?_, h5, ?_⟩
    · simp [List.foldlM_cons, h1, h4]
    · simp [List.foldl_cons, h6, h3]

theorem foldl_applyXfer_frame (n : Int) (xs : List Xfer) :
    ∀ (gm : Buf → Int → α) (b : Buf) (i : Int), (∀ x ∈ xs, ¬ x.hits n b i) →
      xs.foldl (applyXfer n) gm b i = gm b i := by
  induction xs with
  | nil => intro gm b i _; rfl
  | cons a t ih =>
    intro gm b i h
    rw [List.foldl_cons, ih _ b i (fun x hx => h x (List.mem_cons_of_mem _ hx))]
    have ha := h a (List.mem_cons_self _ _)
    unfold Xfer.hits at ha
    unfold applyXfer
    rw [if_neg ha]

theorem foldl_applyXfer_buf (n : Int) (xs : List Xfer) (gm : Buf → Int → α) (b : Buf)
    (h : ∀ x ∈ xs, x.db ≠ b) : xs.foldl (applyXfer n) gm b = gm b := by
  funext i
  apply foldl_applyXfer_frame
  intro x hx hh
  exact h x hx hh.1.symm

theorem PoolOK.cases {m : Machine α} (h : PoolOK m) :
    ∃ a b rest, m.pool = a :: b :: rest ∧ m.ready = [] ∧ a ≠ b ∧
      (b :: rest ++ [a]).Nodup ∧ (rest ++ [a, b]).Nodup := by
  obtain ⟨hr, hn, hl⟩ := h
  match hp : m.pool, hn, hl with
  | a :: b :: rest, hn, _ =>
    refine ⟨a, b, rest, rfl, hr, ?_, ?_, ?_⟩
    · intro hab; subst hab; simp at hn
    · have : (b :: rest ++ [a]).Perm (a :: b :: rest) := by
        rw [show b :: rest ++ [a] = (b :: rest) ++ [a] from rfl]
        exact (List.perm_append_comm).trans (by simp)
      exact this.nodup_iff.mpr hn
    · have : (rest ++ [a, b]).Perm (a :: b :: rest) := by
        exact (List.perm_append_comm).trans (by simp)
      exact this.nodup_iff.mpr hn
  | [], _, hl => simp at hl
  | [_], _, hl => simp at hl

theorem process1_eval (p : Bool) (n : Int) (pT lT : GlobalTensor) (m : Machine α)
    (a : Nat) (rest : List Nat) (hpool : m.pool = a :: rest) (hready : m.ready = []) :
    ∃ m1, process1 p n pT lT m = some m1 ∧ m1.gm = applyXfer n m.gm (mkXfer p pT lT) ∧
      m1.slots = m.slots ∧ m1.ptrs = m.ptrs ∧ m1.pool = rest ++ [a] ∧ m1.ready = [] := by
  cases p <;>
  · simp [process1, AllocTensor, hpool, EnQue, DataCopyIn, DeQue, hready, DataCopyOut,
      FreeTensor]
    funext c x
    simp only [applyXfer, mkXfer, Bool.false_eq_true, if_false, if_true]
    split_ifs with h1 h2
    · rfl
    · omega
    · rfl

theorem process2_eval (p : Bool) (n : Int) (kT vT lK lV : GlobalTensor) (m : Machine α)
    (a b : Nat) (rest : List Nat) (hpool : m.pool = a :: b :: rest) (hready : m.ready = [])
    (hab : a ≠ b) (hne : (mkXfer p vT lV).sb ≠ (mkXfer p kT lK).db) :
    ∃ m1, process2 p n kT vT lK lV m = some m1 ∧
      m1.gm = applyXfer n (applyXfer n m.gm (mkXfer p kT lK)) (mkXfer p vT lV) ∧
      m1.slots = m.slots ∧ m1.ptrs = m.ptrs ∧ m1.pool = rest ++ [a, b] ∧ m1.ready = [] := by
  cases p <;>
  · simp only [mkXfer, Bool.false_eq_true, if_false, if_true] at hne
    simp [process2, AllocTensor, hpool, EnQue, DataCopyIn, DeQue, hready, DataCopyOut,
      FreeTensor]
    funext c x
    simp only [applyXfer, mkXfer, Bool.false_eq_true, if_false, if_true]
    have hba : b ≠ a := Ne.symm hab
    simp only [hab, hba, hne, false_and, if_false]
    split_ifs <;> first | rfl | omega

theorem PoolOK_initBuffer (m : Machine α) : PoolOK (InitBuffer m 4) := by
  refine ⟨rfl, ?_, ?_⟩
  · simp [InitBuffer, List.nodup_range]
  · simp [InitBuffer]

theorem PoolOK_of_eq {m m1 : Machine α} (h : PoolOK m) (hp : m1.pool = m.pool)
    (hr : m1.ready = m.ready) : PoolOK m1 := by
  unfold PoolOK at *
  rw [hp, hr]; exact h

theorem PoolOK_rotate1 {m m1 : Machine α} (a : Nat) (rest : List Nat) (h : PoolOK m)
    (hpool : m.pool = a :: rest) (hp : m1.pool = rest ++ [a]) (hr : m1.ready = []) :
    PoolOK m1 := by
  obtain ⟨_, hn, hl⟩ := h
  refine ⟨hr, ?_, ?_⟩
  · rw [hp]
    have : (rest ++ [a]).Perm (a :: rest) := List.perm_append_comm.trans (by simp)
    rw [this.nodup_iff, ← hpool]; exact hn
  · rw [hp]; rw [hpool] at hl; simp at hl ⊢; omega

theorem PoolOK_rotate2 {m m1 : Machine α} (a b : Nat) (rest : List Nat) (h : PoolOK m)
    (hpool : m.pool = a :: b :: rest) (hp : m1.pool = rest ++ [a, b]) (hr : m1.ready = []) :
    PoolOK m1 := by
  obtain ⟨_, hn, hl⟩ := h
  refine ⟨hr, ?_, ?_⟩
  · rw [hp]
    have : (rest ++ [a, b]).Perm (a :: b :: rest) := List.perm_append_comm.trans (by simp)
    rw [this.nodup_iff, ← hpool]; exact hn
  · rw [hp]; rw [hpool] at hl; simp at hl ⊢

/-! ## The single-layer kernel as a list of transfers -/

theorem single_layer_processFunc_eq (isMLA : Bool) (op : SingleLayerPagedKVCopy)
    (m : Machine α) :
    op.processFunc isMLA m =
      if !op.valid then some m
      else if isMLA then
        process1 op.page2L op.hiddenDims op.keyTokensGlobal op.lmcBufferKeyGlobal m
      else
        process2 op.page2L op.hiddenDims op.keyTokensGlobal op.valueTokensGlobal
          op.lmcBufferKeyGlobal op.lmcBufferValueGlobal m := by
  rfl

theorem single_layer_iteration_spec (isMLA : Bool) (h T : Int) (p tm : Bool)
    (slots : Int → Int) (i : Int) (s : SingleLayerPagedKVCopy × Machine α)
    (hs : SingleLayerPagedKVCopy.Inv isMLA h T p tm slots s) :
    ∃ s1, SingleLayerPagedKVCopy.iteration isMLA i s = some s1 ∧
      SingleLayerPagedKVCopy.Inv isMLA h T p tm slots s1 ∧
      s1.2.gm = (SingleLayerPagedKVCopy.xfers isMLA h T p tm slots i).foldl (applyXfer h)
        s.2.gm := by
  obtain ⟨op, m⟩ := s
  obtain ⟨h1, h2, h3, h4, h5, h6, h7⟩ := hs
  simp only at h1 h2 h3 h4 h5 h6 h7
  obtain ⟨a, b, rest, hpool, hready, hab, -, -⟩ := h7.cases
  by_cases hslot : slots i = -1
  · refine ⟨({ op with valid := false },
      { m with log := m.log ++ (if isMLA then [Event.slotRead i]
                                else [Event.slotRead i, Event.slotRead i]) }), ?_, ?_, ?_⟩
    · cases isMLA <;>
        simp [SingleLayerPagedKVCopy.iteration, SingleLayerPagedKVCopy.reset, SingleLayerPagedKVCopy.updateTensorMemOffsetAndProcess, h6, hslot, SingleLayerPagedKVCopy.processFunc]
    · exact ⟨h1, h2, h3, h4, h5, h6, PoolOK_of_eq h7 rfl rfl⟩
    · simp [SingleLayerPagedKVCopy.xfers, hslot]
  · cases isMLA
    · -- keys and values
      obtain ⟨m1, e1, e2, e3, e4, e5, e6⟩ :=
        process2_eval p h ⟨Buf.key, slots i * h, h⟩ ⟨Buf.value, slots i * h, h⟩
          ⟨Buf.lmc, SingleLayerPagedKVCopy.lmcOff false h T tm i 0, h⟩ ⟨Buf.lmc, SingleLayerPagedKVCopy.lmcOff false h T tm i 1, h⟩
          { m with log := (m.log ++ [Event.slotRead i]) ++ [Event.slotRead i] }
          a b rest hpool hready hab (by cases p <;> simp [mkXfer])
      refine ⟨((SingleLayerPagedKVCopy.updateTensorMemOffsetAndProcess
          (op.reset.updateTensorMemOffsetAndProcess m Buf.key Buf.lmc i 0).1
          (op.reset.updateTensorMemOffsetAndProcess m Buf.key Buf.lmc i 0).2
          Buf.value Buf.lmc i 1).1, m1), ?_, ?_, ?_⟩
      · simp [SingleLayerPagedKVCopy.iteration, SingleLayerPagedKVCopy.reset, SingleLayerPagedKVCopy.updateTensorMemOffsetAndProcess, h6, hslot,
          single_layer_processFunc_eq, h1, h2, h3, h4, h5, SingleLayerPagedKVCopy.lmcOff] at e1 ⊢
        rw [e1]
      · refine ⟨?_, ?_, ?_, ?_, ?_, ?_, PoolOK_rotate2 a b rest h7 hpool e5 e6⟩ <;>
          simp [SingleLayerPagedKVCopy.reset, SingleLayerPagedKVCopy.updateTensorMemOffsetAndProcess, h6, hslot, h1, h2, h3, h4, h5, e3]
      · simp [SingleLayerPagedKVCopy.xfers, hslot, e2]
    · obtain ⟨m1, e1, e2, e3, e4, e5, e6⟩ :=
        process1_eval p h ⟨Buf.key, slots i * h, h⟩
          ⟨Buf.lmc, SingleLayerPagedKVCopy.lmcOff true h T tm i 0, h⟩
          { m with log := m.log ++ [Event.slotRead i] }
          a (b :: rest) hpool hready
      refine ⟨((op.reset.updateTensorMemOffsetAndProcess m Buf.key Buf.lmc i 0).1, m1),
        ?_, ?_, ?_⟩
      · simp [SingleLayerPagedKVCopy.iteration, SingleLayerPagedKVCopy.reset, SingleLayerPagedKVCopy.updateTensorMemOffsetAndProcess, h6, hslot,
          single_layer_processFunc_eq, h1, h2, h3, h4, h5, SingleLayerPagedKVCopy.lmcOff] at e1 ⊢
        rw [e1]
      · refine ⟨?_, ?_, ?_, ?_, ?_, ?_, PoolOK_rotate1 a (b :: rest) h7 hpool e5 e6⟩ <;>
          simp [SingleLayerPagedKVCopy.reset, SingleLayerPagedKVCopy.updateTensorMemOffsetAndProcess, h6, hslot, h1, h2, h3, h4, h5, e3]
      · simp [SingleLayerPagedKVCopy.xfers, hslot, e2]

theorem schedule_flatMap (N : Nat) (T : Int) (fuel : Nat) (g : Int → List Xfer) :
    (List.range N).flatMap (fun b => (loopIndices T N fuel (b : Int)).flatMap g)
      = (schedule N T fuel).flatMap g := by
  unfold schedule
  rw [List.flatMap_assoc]

theorem flash_processFunc_eq (op : LoadAndReshapeFlashCopy)
    (m : Machine α) :
    op.processFunc m =
      if !op.valid then some m
      else
        process2 op.page2L op.hiddenDims op.keyTokensGlobal op.valueTokensGlobal
          op.lmcBufferKeyGlobal op.lmcBufferValueGlobal m := by
  rfl

theorem flash_iteration_spec (h T L l : Int) (p : Bool)
    (slots : Int → Int) (i : Int) (s : LoadAndReshapeFlashCopy × Machine α)
    (hs : LoadAndReshapeFlashCopy.Inv h T L l p slots s) :
    ∃ s1, LoadAndReshapeFlashCopy.iteration i s = some s1 ∧
      LoadAndReshapeFlashCopy.Inv h T L l p slots s1 ∧
      s1.2.gm = (LoadAndReshapeFlashCopy.xfers h T L l p slots i).foldl (applyXfer h)
        s.2.gm := by
  obtain ⟨op, m⟩ := s
  obtain ⟨h1, h2, h3, h4, h5, h6, h7⟩ := hs
  simp only at h1 h2 h3 h4 h5 h6 h7
  obtain ⟨a, b, rest, hpool, hready, hab, -, -⟩ := h7.cases
  by_cases hslot : slots i = -1
  · refine ⟨({ op with valid := false },
      { m with log := m.log ++ [Event.slotRead i] }), ?_, ?_, ?_⟩
    · simp [LoadAndReshapeFlashCopy.iteration, LoadAndReshapeFlashCopy.reset, LoadAndReshapeFlashCopy.updateTensorMemOffsetAndProcess, h6, hslot, LoadAndReshapeFlashCopy.processFunc]
    · exact ⟨h1, h2, h3, h4, h5, h6, PoolOK_of_eq h7 rfl rfl⟩
    · simp [LoadAndReshapeFlashCopy.xfers, hslot]
  · obtain ⟨m1, e1, e2, e3, e4, e5, e6⟩ :=
      process2_eval p h ⟨Buf.key, slots i * h, h⟩ ⟨Buf.value, slots i * h, h⟩
        ⟨Buf.lmc, l * T * h + i * h, h⟩ ⟨Buf.lmc, L * T * h + l * T * h + i * h, h⟩
        { m with log := m.log ++ [Event.slotRead i] }
        a b rest hpool hready hab (by cases p <;> simp [mkXfer])
    refine ⟨((op.reset.updateTensorMemOffsetAndProcess m Buf.key Buf.value Buf.lmc i).1, m1),
      ?_, ?_, ?_⟩
    · simp [LoadAndReshapeFlashCopy.iteration, LoadAndReshapeFlashCopy.reset, LoadAndReshapeFlashCopy.updateTensorMemOffsetAndProcess, h6, hslot,
        flash_processFunc_eq, h1, h2, h3, h4, h5] at e1 ⊢
      rw [e1]
    · refine ⟨?_, ?_, ?_, ?_, ?_, ?_, PoolOK_rotate2 a b rest h7 hpool e5 e6⟩ <;>
        simp [LoadAndReshapeFlashCopy.reset, LoadAndReshapeFlashCopy.updateTensorMemOffsetAndProcess, h6, hslot, h1, h2, h3, h4, h5, e3]
    · simp [LoadAndReshapeFlashCopy.xfers, hslot, e2]

theorem multi_layer_processFunc_eq (op : MultiLayerPagedKVCopy) (m : Machine α) :
    op.processFunc m =
      if !op.valid then some m
      else process1 op.page2L op.hiddenDims op.pagedTokenGlobal op.lmcBufferGlobal m := by
  rfl

theorem multi_layer_iteration_spec (h L B T : Int) (p : Bool)
    (slots ptrs : Int → Int) (i kv layer : Int) (s : MultiLayerPagedKVCopy × Machine α)
    (hs : MultiLayerPagedKVCopy.Inv h L B T p slots ptrs s) :
    ∃ s1, MultiLayerPagedKVCopy.iteration i kv layer s = some s1 ∧
      MultiLayerPagedKVCopy.Inv h L B T p slots ptrs s1 ∧
      s1.2.gm = (MultiLayerPagedKVCopy.xfer1 h L B T p slots ptrs i kv layer).foldl
        (applyXfer h) s.2.gm := by
  obtain ⟨op, m⟩ := s
  obtain ⟨h1, h2, h3, h4, h5, h6, h6p, h7⟩ := hs
  simp only at h1 h2 h3 h4 h5 h6 h6p h7
  obtain ⟨a, b, rest, hpool, hready, hab, -, -⟩ := h7.cases
  by_cases hslot : slots i = -1
  · refine ⟨({ op with valid := false },
      { m with log := m.log ++ [Event.slotRead i] }), ?_, ?_, ?_⟩
    · simp [MultiLayerPagedKVCopy.iteration, MultiLayerPagedKVCopy.reset, MultiLayerPagedKVCopy.updateMemOffset, h6, hslot, MultiLayerPagedKVCopy.processFunc]
    · exact ⟨h1, h2, h3, h4, h5, h6, h6p, PoolOK_of_eq h7 rfl rfl⟩
    · simp [MultiLayerPagedKVCopy.xfer1, hslot]
  · obtain ⟨m1, e1, e2, e3, e4, e5, e6⟩ :=
      process1_eval p h ⟨Buf.layer (ptrs layer), kv * B * h + slots i * h, h⟩
        ⟨Buf.lmc, kv * L * T * h + layer * T * h + i * h, h⟩
        { m with log := (m.log ++ [Event.slotRead i]) ++ [Event.ptrRead layer] }
        a (b :: rest) hpool hready
    refine ⟨((op.reset.updateMemOffset m Buf.lmc i kv layer).1, m1), ?_, ?_, ?_⟩
    · simp [MultiLayerPagedKVCopy.iteration, MultiLayerPagedKVCopy.reset, MultiLayerPagedKVCopy.updateMemOffset, h6, h6p, hslot,
        multi_layer_processFunc_eq, h1, h2, h3, h4, h5] at e1 ⊢
      rw [e1]
    · refine ⟨?_, ?_, ?_, ?_, ?_, ?_, ?_, PoolOK_rotate1 a (b :: rest) h7 hpool e5 e6⟩ <;>
        simp [MultiLayerPagedKVCopy.reset, MultiLayerPagedKVCopy.updateMemOffset, h6, h6p, hslot, h1, h2, h3, h4, h5, e3, e4]
    · simp [MultiLayerPagedKVCopy.xfer1, hslot, e2]

theorem single_layer_resolve_key (isMLA : Bool) (op : SingleLayerPagedKVCopy)
    (m : Machine α) (t : Int) (hs : m.slots t ≠ -1) :
    (SingleLayerPagedKVCopy.resolve isMLA op m t).keyTokensGlobal
      = ⟨Buf.key, m.slots t * op.hiddenDims, op.hiddenDims⟩ ∧
    (SingleLayerPagedKVCopy.resolve isMLA op m t).lmcBufferKeyGlobal
      = ⟨Buf.lmc, (if op.tokenMajor then t * op.numKvs * op.hiddenDims + 0 * op.hiddenDims
                   else 0 * op.numTokens * op.hiddenDims + t * op.hiddenDims),
         op.hiddenDims⟩ := by
  cases isMLA <;>
    simp [SingleLayerPagedKVCopy.resolve, SingleLayerPagedKVCopy.reset,
      SingleLayerPagedKVCopy.updateTensorMemOffsetAndProcess, hs]

theorem single_layer_resolve_value (op : SingleLayerPagedKVCopy)
    (m : Machine α) (t : Int) (hs : m.slots t ≠ -1) :
    (SingleLayerPagedKVCopy.resolve false op m t).valueTokensGlobal
      = ⟨Buf.value, m.slots t * op.hiddenDims, op.hiddenDims⟩ ∧
    (SingleLayerPagedKVCopy.resolve false op m t).lmcBufferValueGlobal
      = ⟨Buf.lmc, (if op.tokenMajor then t * op.numKvs * op.hiddenDims + 1 * op.hiddenDims
                   else 1 * op.numTokens * op.hiddenDims + t * op.hiddenDims),
         op.hiddenDims⟩ := by
  simp [SingleLayerPagedKVCopy.resolve, SingleLayerPagedKVCopy.reset,
    SingleLayerPagedKVCopy.updateTensorMemOffsetAndProcess, hs]

theorem multi_layer_resolve_spec (op : MultiLayerPagedKVCopy)
    (m : Machine α) (t kv layer : Int) (hs : m.slots t ≠ -1) :
    (MultiLayerPagedKVCopy.resolve op m t kv layer).pagedTokenGlobal
      = ⟨Buf.layer (m.ptrs layer),
         kv * op.pageBuffSize * op.hiddenDims + m.slots t * op.hiddenDims, op.hiddenDims⟩ ∧
    (MultiLayerPagedKVCopy.resolve op m t kv layer).lmcBufferGlobal
      = ⟨Buf.lmc, kv * op.numLayers * op.numTokensChunk * op.hiddenDims +
           layer * op.numTokensChunk * op.hiddenDims + t * op.hiddenDims, op.hiddenDims⟩ := by
  simp [MultiLayerPagedKVCopy.resolve, MultiLayerPagedKVCopy.reset,
    MultiLayerPagedKVCopy.updateMemOffset, hs]

theorem flash_resolve_spec (op : LoadAndReshapeFlashCopy)
    (m : Machine α) (t : Int) (hs : m.slots t ≠ -1) :
    (LoadAndReshapeFlashCopy.resolve op m t).keyTokensGlobal
      = ⟨Buf.key, m.slots t * op.hiddenDims, op.hiddenDims⟩ ∧
    (LoadAndReshapeFlashCopy.resolve op m t).valueTokensGlobal
      = ⟨Buf.value, m.slots t * op.hiddenDims, op.hiddenDims⟩ ∧
    (LoadAndReshapeFlashCopy.resolve op m t).lmcBufferKeyGlobal
      = ⟨Buf.lmc, op.layerIdx * op.numTokens * op.hiddenDims + t * op.hiddenDims,
         op.hiddenDims⟩ ∧
    (LoadAndReshapeFlashCopy.resolve op m t).lmcBufferValueGlobal
      = ⟨Buf.lmc, op.numLayers * op.numTokens * op.hiddenDims +
           op.layerIdx * op.numTokens * op.hiddenDims + t * op.hiddenDims, op.hiddenDims⟩ := by
  simp [LoadAndReshapeFlashCopy.resolve, LoadAndReshapeFlashCopy.reset,
    LoadAndReshapeFlashCopy.updateTensorMemOffsetAndProcess, hs]

/-! ## The transfers of a launch -/

theorem loopIndices_lt (bound step : Int) :
    ∀ (fuel : Nat) (i x : Int), x ∈ loopIndices bound step fuel i → x < bound := by
  intro fuel
  induction fuel with
  | zero => intro i x h; simp [loopIndices] at h
  | succ k ih =>
    intro i x h
    unfold loopIndices at h
    by_cases hi : i < bound
    · simp only [hi, if_true, List.mem_cons] at h
      rcases h with rfl | h
      · exact hi
      · exact ih _ _ h
    · simp [hi] at h

theorem schedule_range (N : Nat) (T : Int) (fuel : Nat) (t : Int)
    (h : t ∈ schedule N T fuel) : 0 ≤ t ∧ t < T := by
  unfold schedule at h
  simp only [List.mem_flatMap, List.mem_range] at h
  obtain ⟨b, hb, hmem⟩ := h
  have h1 := loopIndices_lt T N fuel b t hmem
  have h2 := loopIndices_lower T N (by omega) fuel b t hmem
  omega

theorem single_layer_mem_xfers (isMLA : Bool) (h T : Int) (p tm : Bool)
    (slots : Int → Int) (t : Int) (y : Xfer) :
    y ∈ SingleLayerPagedKVCopy.xfers isMLA h T p tm slots t ↔
      slots t ≠ -1 ∧ ∃ k, (k = 0 ∨ (isMLA = false ∧ k = 1)) ∧
        y = SingleLayerPagedKVCopy.xfer isMLA h T p tm slots t k := by
  unfold SingleLayerPagedKVCopy.xfers
  by_cases hs : slots t = -1
  · simp [hs]
  · rw [if_neg hs]
    constructor
    · intro hy
      refine ⟨hs, ?_⟩
      cases isMLA
      · simp only [Bool.false_eq_true, if_false, List.mem_cons, List.mem_singleton,
          List.not_mem_nil, or_false] at hy
        rcases hy with rfl | rfl
        · exact ⟨0, Or.inl rfl, by simp [SingleLayerPagedKVCopy.xfer]⟩
        · exact ⟨1, Or.inr ⟨rfl, rfl⟩, by simp [SingleLayerPagedKVCopy.xfer]⟩
      · simp only [if_true, List.mem_singleton] at hy
        subst hy
        exact ⟨0, Or.inl rfl, by simp [SingleLayerPagedKVCopy.xfer]⟩
    · rintro ⟨-, k, hk, rfl⟩
      cases isMLA
      · rcases hk with rfl | ⟨-, rfl⟩ <;> simp [SingleLayerPagedKVCopy.xfer]
      · rcases hk with rfl | ⟨hm, -⟩
        · simp [SingleLayerPagedKVCopy.xfer]
        · exact absurd hm (by decide)

theorem single_layer_mem_launch (isMLA : Bool) (h T : Int) (p tm : Bool)
    (slots : Int → Int) (N : Nat) (fuel : Nat) (y : Xfer)
    (hy : y ∈ (schedule N T fuel).flatMap (SingleLayerPagedKVCopy.xfers isMLA h T p tm slots)) :
    ∃ t k, (0 ≤ t ∧ t < T) ∧ slots t ≠ -1 ∧ (k = 0 ∨ (isMLA = false ∧ k = 1)) ∧
      y = SingleLayerPagedKVCopy.xfer isMLA h T p tm slots t k := by
  obtain ⟨t, ht, hyt⟩ := List.mem_flatMap.mp hy
  obtain ⟨hs, k, hk, rfl⟩ := (single_layer_mem_xfers isMLA h T p tm slots t y).mp hyt
  exact ⟨t, k, schedule_range N T fuel t ht, hs, hk, rfl⟩

/-- C1 (skip invariant). In the three kernels, for a token index `t` whose slot-table
entry is `-1`, one iteration of the kernel loop returns, leaves the object with
`valid = false` and its descriptors as they were, and leaves the whole machine (the
paged buffers, the contiguous buffer, the scratch buffers and the queue) as it was,
except that the trace gains the reads of the slot table: nothing of global memory is
read or written and the pointer table is not read. This holds for every state of the
object, so for both values of `page2L`; and `processFunc` on an object with
`valid = false` returns the machine it was given. -/
theorem skip_invariant (m : Machine α) (t : Int) (hskip : m.slots t = -1) :
    (∀ (isMLA : Bool) (op : SingleLayerPagedKVCopy),
        SingleLayerPagedKVCopy.iteration isMLA t (op, m)
          = some ({ op with valid := false },
                  { m with log := m.log ++ (if isMLA then [Event.slotRead t]
                                            else [Event.slotRead t, Event.slotRead t]) }) ∧
        (op.valid = false → op.processFunc isMLA m = some m)) ∧
    (∀ (kvIdx layerIdx : Int) (op : MultiLayerPagedKVCopy),
        MultiLayerPagedKVCopy.iteration t kvIdx layerIdx (op, m)
          = some ({ op with valid := false },
                  { m with log := m.log ++ [Event.slotRead t] }) ∧
        (op.valid = false → op.processFunc m = some m)) ∧
    (∀ (op : LoadAndReshapeFlashCopy),
        LoadAndReshapeFlashCopy.iteration t (op, m)
          = some ({ op with valid := false },
                  { m with log := m.log ++ [Event.slotRead t] }) ∧
        (op.valid = false → op.processFunc m = some m)) := by
  refine ⟨?_, ?_, ?_⟩
  · intro isMLA op
    constructor
    · cases isMLA <;>
        simp [SingleLayerPagedKVCopy.iteration, SingleLayerPagedKVCopy.reset,
          SingleLayerPagedKVCopy.updateTensorMemOffsetAndProcess, hskip,
          SingleLayerPagedKVCopy.processFunc]
    · intro hv
      simp [SingleLayerPagedKVCopy.processFunc, hv]
  · intro kv layer op
    constructor
    · simp [MultiLayerPagedKVCopy.iteration, MultiLayerPagedKVCopy.reset,
        MultiLayerPagedKVCopy.updateMemOffset, hskip, MultiLayerPagedKVCopy.processFunc]
    · intro hv
      simp [MultiLayerPagedKVCopy.processFunc, hv]
  · intro op
    constructor
    · simp [LoadAndReshapeFlashCopy.iteration, LoadAndReshapeFlashCopy.reset,
        LoadAndReshapeFlashCopy.updateTensorMemOffsetAndProcess, hskip,
        LoadAndReshapeFlashCopy.processFunc]
    · intro hv
      simp [LoadAndReshapeFlashCopy.processFunc, hv]

/-- Witness of C1: token 1 of the scenario has the slot `-1`; its iteration of the
single-layer loop (keys and values, `page2L = true`) leaves the contiguous buffer and
both paged buffers as they were and records two reads of the slot table only. -/
theorem skip_invariant_witness :
    scenario.slots 1 = -1 ∧
    (SingleLayerPagedKVCopy.iteration false 1 (scenarioOp false true true, scenario)).map
        (fun s => (s.1.valid, s.2.log,
          (List.range 16).map (fun (x : Nat) => s.2.gm Buf.lmc (x : Int)),
          (List.range 4).map (fun (x : Nat) => s.2.gm Buf.key (20 + (x : Int)))))
      = some (false, [Event.slotRead 1, Event.slotRead 1],
          (List.range 16).map (fun (x : Nat) => scenario.gm Buf.lmc (x : Int)), [1, 2, 3, 4]) := by
  refine ⟨by decide, ?_⟩
  rw [((skip_invariant scenario 1 (by decide)).1 false (scenarioOp false true true)).1]
  decide

/-- C8 (work partition). With `N ≥ 1` workers and enough fuel, the kernel loop
`for (i = w; i < numTokens; i += N)` of a worker `0 ≤ w < N` returns after running its
body, whatever the body is, at the indices of a list `l` in the order of the list; `l`
is strictly increasing (so every index occurs once), it holds exactly the indices `i`
with `w ≤ i < numTokens` and `i mod N = w`, and it is empty when `w ≥ numTokens`.
Every index of `[0, numTokens)` is visited by exactly one worker. -/
theorem work_partition (numTokens N : Int) (fuel : Nat) (hN : 1 ≤ N)
    (hfuel : numTokens.toNat < fuel) :
    (∀ w : Int, 0 ≤ w → w < N →
      ∃ l : List Int, visited numTokens N fuel w = some l ∧
        (∀ (σ : Type) (body : Int → σ → Option σ) (s : σ),
          forLoop body numTokens N fuel w s = l.foldlM (fun s i => body i s) s) ∧
        l.Pairwise (· < ·) ∧
        (∀ i : Int, i ∈ l ↔ w ≤ i ∧ i < numTokens ∧ i % N = w) ∧
        (numTokens ≤ w → l = [])) ∧
    (∀ i : Int, 0 ≤ i → i < numTokens →
      ∃! w : Int, (0 ≤ w ∧ w < N) ∧ ∃ l, visited numTokens N fuel w = some l ∧ i ∈ l) := by
  have hmem : ∀ w : Int, 0 ≤ w → w < N → ∀ i : Int,
      i ∈ loopIndices numTokens N fuel w ↔ w ≤ i ∧ i < numTokens ∧ i % N = w := by
    intro w hw0 hwN i
    rw [mem_loopIndices numTokens N hN fuel w i (by omega)]
    constructor
    · rintro ⟨h1, h2, h3⟩
      refine ⟨h1, h2, ?_⟩
      have h4 : (i - w) % N = 0 := Int.emod_eq_zero_of_dvd h3
      have h5 : i % N = w % N := Int.emod_eq_emod_iff_emod_sub_eq_zero.mpr h4
      rw [h5, Int.emod_eq_of_lt hw0 hwN]
    · rintro ⟨h1, h2, h3⟩
      refine ⟨h1, h2, ?_⟩
      rw [← h3]
      exact Int.dvd_sub_of_emod_eq rfl
  constructor
  · intro w hw0 hwN
    refine ⟨loopIndices numTokens N fuel w, visited_eq numTokens N hN fuel w (by omega), ?_,
      loopIndices_sorted numTokens N hN fuel w, hmem w hw0 hwN, ?_⟩
    · intro σ body s
      exact forLoop_eq_foldlM body numTokens N hN fuel w s (by omega)
    · intro hge
      apply List.eq_nil_iff_forall_not_mem.mpr
      intro i hi
      have := (hmem w hw0 hwN i).mp hi
      omega
  · intro i hi0 hiT
    have hpos : (0 : Int) < N := by omega
    refine ⟨i % N, ⟨⟨Int.emod_nonneg i (by omega), Int.emod_lt_of_pos i hpos⟩,
      loopIndices numTokens N fuel (i % N),
      visited_eq numTokens N hN fuel _ (by
        have := Int.emod_nonneg i (show N ≠ 0 by omega); omega), ?_⟩, ?_⟩
    · exact (hmem (i % N) (Int.emod_nonneg i (by omega)) (Int.emod_lt_of_pos i hpos) i).mpr
        ⟨emod_le_self_of_nonneg i N hi0, hiT, rfl⟩
    · rintro w ⟨⟨hw0, hwN⟩, l, hl, hil⟩
      rw [visited_eq numTokens N hN fuel w (by omega)] at hl
      have hl1 : loopIndices numTokens N fuel w = l := Option.some.inj hl
      rw [← hl1] at hil
      exact ((hmem w hw0 hwN i).mp hil).2.2.symm

/-- Witness of C8: seven tokens on three workers; worker 1 visits `[1, 4]`, and worker 2
of a launch with two tokens only visits nothing. -/
theorem work_partition_witness :
    ((1 : Int) ≤ 3 ∧ (7 : Int).toNat < 8) ∧
    visited 7 3 8 1 = some [1, 4] ∧
    (∃ l : List Int, visited 2 3 8 2 = some l ∧ l = []) := by
  refine ⟨⟨by decide, by decide⟩, by decide, ?_⟩
  obtain ⟨l, h1, _, _, _, h5⟩ :=
    (work_partition 2 3 8 (by decide) (by decide)).1 2 (by decide) (by decide)
  exact ⟨l, h1, h5 (by decide)⟩

/-- C9 (dispatch), as amended. Each host entry point launches the kernel instance of
the element type and the slot width (and, single-layer, of `isMLA`) once and appends
it to the launches, when the slot tag is `INT32` or `INT64` and the element tag is one
the entry point dispatches; otherwise it returns with nothing launched and the machine
as it was. The flash entry point dispatches `FP16`, `BF16` and `INT8`; the single-layer
and the multi-layer entry points dispatch `FP16` and `INT8`, and `BF16` only in a
build with `__CCE_AICORE__ >= 220`. The `INT8` case of the single-layer entry point,
which falls through into `default`, behaves like the other cases. -/
theorem dispatch_launches_one_instance (cceAicore : Nat) (type slotType : AscendType)
    (blockDim : Nat) (hiddenDims numTokens kvs numLayers pageBuffSize numPages pagedSize
      layerIdx : Int) (page2L tokenMajor isMLA : Bool) (fuel : Nat) (h : Host α) :
    single_layer_kv_transfer_kernel cceAicore type slotType blockDim hiddenDims numTokens
        page2L tokenMajor isMLA fuel h
      = (match guardedScalar cceAicore type, slotWidth slotType with
         | some t, some s =>
           (single_layer_paged_kernel isMLA blockDim hiddenDims numTokens page2L tokenMajor
              fuel h.machine).map
             (fun m => ⟨h.launched ++ [Kernel.single_layer_paged_kv_copy t s isMLA], m⟩)
         | _, _ => some h) ∧
    multi_layer_kv_transfer_kernel cceAicore type slotType blockDim hiddenDims kvs
        numLayers pageBuffSize numTokens page2L fuel h
      = (match guardedScalar cceAicore type, slotWidth slotType with
         | some t, some s =>
           (multi_layer_paged_kernel blockDim hiddenDims kvs numLayers pageBuffSize
              numTokens page2L fuel h.machine).map
             (fun m => ⟨h.launched ++ [Kernel.multi_layer_paged_kv_copy t s], m⟩)
         | _, _ => some h) ∧
    load_and_reshape_flash_kernel type slotType blockDim hiddenDims numPages pagedSize
        numTokens numLayers layerIdx page2L fuel h
      = (match flashScalar type, slotWidth slotType with
         | some t, some s =>
           (load_and_reshape_kernel_call blockDim hiddenDims numPages pagedSize numTokens
              numLayers layerIdx page2L fuel h.machine).map
             (fun m => ⟨h.launched ++ [Kernel.load_and_reshape_flash_copy t s], m⟩)
         | _, _ => some h) := by
  refine ⟨?_, ?_, ?_⟩
  · by_cases hc : 220 ≤ cceAicore <;> cases type <;> cases slotType <;> cases isMLA <;>
      simp [single_layer_kv_transfer_kernel, dispatch_single_layer_kernel_on_slot_type,
        single_layer_paged_kernel_inst, guardedScalar, slotWidth, hc]
  · by_cases hc : 220 ≤ cceAicore <;> cases type <;> cases slotType <;>
      simp [multi_layer_kv_transfer_kernel, dispatch_paged_kernel_on_slot_type,
        multi_layer_paged_kernel_inst, guardedScalar, slotWidth, hc]
  · cases type <;> cases slotType <;>
      simp [load_and_reshape_flash_kernel, dispatch_on_slot_type,
        load_and_reshape_kernel_call_inst, flashScalar, slotWidth]

/-- Counterexample to C9 as stated: in a build with `__CCE_AICORE__ = 200` the
single-layer entry point called with `type = BF16` and `slotType = INT32` launches
nothing, while the flash entry point launches its `bfloat16_t` instance on the same
tags. -/
theorem dispatch_bf16_counterexample :
    (single_layer_kv_transfer_kernel 200 AscendType.BF16 AscendType.INT32 1 4 2 true true
        false 8 (⟨[], scenario⟩ : Host Int)).map (fun h => h.launched) = some [] ∧
    (multi_layer_kv_transfer_kernel 200 AscendType.BF16 AscendType.INT32 1 4 2 2 8 2 true
        8 (⟨[], scenario⟩ : Host Int)).map (fun h => h.launched) = some [] ∧
    (load_and_reshape_flash_kernel AscendType.BF16 AscendType.INT32 1 4 8 1 2 1 0 true
        8 (⟨[], scenario⟩ : Host Int)).map (fun h => h.launched)
      = some [Kernel.load_and_reshape_flash_copy ScalarT.bfloat16_t SlotT.int32_t] := by
  refine ⟨by decide, by decide, by decide⟩

theorem wrap32_eq (x : Int) (h0 : -2147483648 ≤ x) (h1 : x < 2147483648) : wrap32 x = x := by
  unfold wrap32
  omega

theorem wrap64_eq (x : Int) (h0 : -9223372036854775808 ≤ x)
    (h1 : x < 9223372036854775808) : wrap64 x = x := by
  unfold wrap64
  omega

theorem wrap32_range (x : Int) : -2147483648 ≤ wrap32 x ∧ wrap32 x < 2147483648 := by
  unfold wrap32
  omega

theorem wrap64_range (x : Int) :
    -9223372036854775808 ≤ wrap64 x ∧ wrap64 x < 9223372036854775808 := by
  unfold wrap64
  omega

theorem widen_int32 (raw : Int) : SlotT.widen SlotT.int32_t raw = wrap32 raw := by
  have h := wrap32_range raw
  simp only [SlotT.widen]
  exact wrap64_eq _ (by omega) (by omega)

/-- Widening preserves a table entry that fits the slot type. -/
theorem widen_eq (w : SlotT) (raw : Int) (h0 : -2147483648 ≤ raw) (h1 : raw < 2147483648) :
    w.widen raw = raw := by
  cases w
  · rw [widen_int32, wrap32_eq raw h0 h1]
  · simp only [SlotT.widen]
    exact wrap64_eq _ (by omega) (by omega)

/-- With products of the `int32_t` members that fit 32 bits and a total that fits 64
bits the flash offsets are the exact integers. -/
theorem flash_offsets_exact_of_small (numLayers layerIdx numTokens hiddenDims t : Int)
    (hl0 : 0 ≤ layerIdx) (hlL : layerIdx < numLayers) (ht0 : 0 ≤ t) (_htT : t < numTokens)
    (hh : 0 < hiddenDims) (hsmall : numLayers * numTokens < 2147483648)
    (hfit : (numLayers * numTokens + layerIdx * numTokens + t) * hiddenDims
      < 9223372036854775808) :
    LoadAndReshapeFlashCopy.nonPagedValueOffset numLayers layerIdx numTokens hiddenDims t
      = (numLayers * numTokens + layerIdx * numTokens + t) * hiddenDims ∧
    LoadAndReshapeFlashCopy.nonPagedKeyOffset layerIdx numTokens hiddenDims t
      = (layerIdx * numTokens + t) * hiddenDims := by
  have hT : 0 < numTokens := by omega
  have hLT : 0 ≤ numLayers * numTokens := mul_nonneg (by omega) hT.le
  have hlT : 0 ≤ layerIdx * numTokens := mul_nonneg hl0 hT.le
  have hlT2 : layerIdx * numTokens ≤ numLayers * numTokens :=
    mul_le_mul_of_nonneg_right hlL.le hT.le
  have a1 : 0 ≤ numLayers * numTokens * hiddenDims := mul_nonneg hLT hh.le
  have a2 : 0 ≤ layerIdx * numTokens * hiddenDims := mul_nonneg hlT hh.le
  have a3 : 0 ≤ t * hiddenDims := mul_nonneg ht0 hh.le
  have e : (numLayers * numTokens + layerIdx * numTokens + t) * hiddenDims
      = numLayers * numTokens * hiddenDims + layerIdx * numTokens * hiddenDims
        + t * hiddenDims := by ring
  have e2 : (layerIdx * numTokens + t) * hiddenDims
      = layerIdx * numTokens * hiddenDims + t * hiddenDims := by ring
  rw [e] at hfit
  unfold LoadAndReshapeFlashCopy.nonPagedValueOffset LoadAndReshapeFlashCopy.nonPagedKeyOffset
  rw [wrap32_eq (numLayers * numTokens) (by omega) hsmall,
    wrap32_eq (layerIdx * numTokens) (by omega) (by omega),
    wrap64_eq (numLayers * numTokens * hiddenDims) (by omega) (by omega),
    wrap64_eq (layerIdx * numTokens * hiddenDims) (by omega) (by omega),
    wrap64_eq (t * hiddenDims) (by omega) (by omega),
    wrap64_eq (numLayers * numTokens * hiddenDims + layerIdx * numTokens * hiddenDims)
      (by omega) (by omega),
    wrap64_eq (numLayers * numTokens * hiddenDims + layerIdx * numTokens * hiddenDims
      + t * hiddenDims) (by omega) (by omega),
    wrap64_eq (layerIdx * numTokens * hiddenDims + t * hiddenDims) (by omega) (by omega),
    e, e2]
  exact ⟨rfl, rfl⟩

/-! ## The event log of the two forms of `processFunc` -/

theorem readsOf_append (l1 l2 : List Event) : readsOf (l1 ++ l2) = readsOf l1 ++ readsOf l2 := by
  induction l1 with
  | nil => rfl
  | cons e t ih => cases e <;> simp [readsOf, ih]

theorem writesOf_append (l1 l2 : List Event) :
    writesOf (l1 ++ l2) = writesOf l1 ++ writesOf l2 := by
  induction l1 with
  | nil => rfl
  | cons e t ih => cases e <;> simp [writesOf, ih]

theorem allocsOf_append (l1 l2 : List Event) :
    allocsOf (l1 ++ l2) = allocsOf l1 ++ allocsOf l2 := by
  induction l1 with
  | nil => rfl
  | cons e t ih => cases e <;> simp [allocsOf, ih]

theorem src_mkXfer (p : Bool) (n : Int) (b1 b2 : Buf) (o1 o2 : Int) :
    (mkXfer p ⟨b1, o1, n⟩ ⟨b2, o2, n⟩).src n = (if p then ⟨b1, o1, n⟩ else ⟨b2, o2, n⟩) := by
  cases p <;> rfl

theorem dst_mkXfer (p : Bool) (n : Int) (b1 b2 : Buf) (o1 o2 : Int) :
    (mkXfer p ⟨b1, o1, n⟩ ⟨b2, o2, n⟩).dst n = (if p then ⟨b2, o2, n⟩ else ⟨b1, o1, n⟩) := by
  cases p <;> rfl

theorem process1_log (p : Bool) (n : Int) (b1 b2 : Buf) (o1 o2 : Int) (m : Machine α)
    (a : Nat) (rest : List Nat) (hpool : m.pool = a :: rest) (hready : m.ready = []) :
    ∃ m1, process1 p n ⟨b1, o1, n⟩ ⟨b2, o2, n⟩ m = some m1 ∧
      m1.log = m.log ++ callLog1 n a (mkXfer p ⟨b1, o1, n⟩ ⟨b2, o2, n⟩) ∧
      m1.ptrs = m.ptrs := by
  cases p <;>
    simp [process1, AllocTensor, hpool, EnQue, DataCopyIn, DeQue, hready, DataCopyOut,
      FreeTensor, callLog1, copyLog1, mkXfer, Xfer.src, Xfer.dst]

theorem process2_log (p : Bool) (n : Int) (k1 v1 k2 v2 : Buf) (ko1 vo1 ko2 vo2 : Int)
    (m : Machine α) (a b : Nat) (rest : List Nat) (hpool : m.pool = a :: b :: rest)
    (hready : m.ready = []) :
    ∃ m1, process2 p n ⟨k1, ko1, n⟩ ⟨v1, vo1, n⟩ ⟨k2, ko2, n⟩ ⟨v2, vo2, n⟩ m = some m1 ∧
      m1.log = m.log ++ callLog2 n a b (mkXfer p ⟨k1, ko1, n⟩ ⟨k2, ko2, n⟩)
        (mkXfer p ⟨v1, vo1, n⟩ ⟨v2, vo2, n⟩) ∧
      m1.ptrs = m.ptrs := by
  cases p <;>
    simp [process2, AllocTensor, hpool, EnQue, DataCopyIn, DeQue, hready, DataCopyOut,
      FreeTensor, callLog2, copyLog2, mkXfer, Xfer.src, Xfer.dst]

/-! ## The event log of one iteration -/

theorem single_layer_iteration_log (isMLA : Bool) (h T : Int) (p tm : Bool)
    (slots : Int → Int) (i : Int) (s : SingleLayerPagedKVCopy × Machine α)
    (hs : SingleLayerPagedKVCopy.Inv isMLA h T p tm slots s) :
    ∃ a b rest, s.2.pool = a :: b :: rest ∧ a ≠ b ∧
      ∃ s1, SingleLayerPagedKVCopy.iteration isMLA i s = some s1 ∧
        s1.2.log = s.2.log ++ SingleLayerPagedKVCopy.iterLog isMLA h T p tm slots i a b ∧
        s1.2.ptrs = s.2.ptrs := by
  obtain ⟨op, m⟩ := s
  obtain ⟨h1, h2, h3, h4, h5, h6, h7⟩ := hs
  simp only at h1 h2 h3 h4 h5 h6 h7
  obtain ⟨a, b, rest, hpool, hready, hab, -, -⟩ := h7.cases
  refine ⟨a, b, rest, hpool, hab, ?_⟩
  by_cases hslot : slots i = -1
  · cases isMLA <;>
      simp [SingleLayerPagedKVCopy.iteration, SingleLayerPagedKVCopy.reset,
        SingleLayerPagedKVCopy.updateTensorMemOffsetAndProcess, h6, hslot,
        SingleLayerPagedKVCopy.processFunc, SingleLayerPagedKVCopy.iterLog]
  · cases isMLA
    · obtain ⟨m1, e1, e2, e3⟩ :=
        process2_log p h Buf.key Buf.value Buf.lmc Buf.lmc (slots i * h) (slots i * h)
          (SingleLayerPagedKVCopy.lmcOff false h T tm i 0)
          (SingleLayerPagedKVCopy.lmcOff false h T tm i 1)
          { m with log := (m.log ++ [Event.slotRead i]) ++ [Event.slotRead i] }
          a b rest hpool hready
      refine ⟨((SingleLayerPagedKVCopy.updateTensorMemOffsetAndProcess
          (op.reset.updateTensorMemOffsetAndProcess m Buf.key Buf.lmc i 0).1
          (op.reset.updateTensorMemOffsetAndProcess m Buf.key Buf.lmc i 0).2
          Buf.value Buf.lmc i 1).1, m1), ?_, ?_, e3⟩
      · simp [SingleLayerPagedKVCopy.iteration, SingleLayerPagedKVCopy.reset,
          SingleLayerPagedKVCopy.updateTensorMemOffsetAndProcess, h6, hslot,
          single_layer_processFunc_eq, h1, h2, h3, h4, h5,
          SingleLayerPagedKVCopy.lmcOff] at e1 ⊢
        rw [e1]
      · simp [e2, SingleLayerPagedKVCopy.iterLog, hslot, SingleLayerPagedKVCopy.xfer]
    · obtain ⟨m1, e1, e2, e3⟩ :=
        process1_log p h Buf.key Buf.lmc (slots i * h)
          (SingleLayerPagedKVCopy.lmcOff true h T tm i 0)
          { m with log := m.log ++ [Event.slotRead i] }
          a (b :: rest) hpool hready
      refine ⟨((op.reset.updateTensorMemOffsetAndProcess m Buf.key Buf.lmc i 0).1, m1),
        ?_, ?_, e3⟩
      · simp [SingleLayerPagedKVCopy.iteration, SingleLayerPagedKVCopy.reset,
          SingleLayerPagedKVCopy.updateTensorMemOffsetAndProcess, h6, hslot,
          single_layer_processFunc_eq, h1, h2, h3, h4, h5,
          SingleLayerPagedKVCopy.lmcOff] at e1 ⊢
        rw [e1]
      · simp [e2, SingleLayerPagedKVCopy.iterLog, hslot, SingleLayerPagedKVCopy.xfer]

theorem flash_iteration_log (h T L l : Int) (p : Bool)
    (slots : Int → Int) (i : Int) (s : LoadAndReshapeFlashCopy × Machine α)
    (hs : LoadAndReshapeFlashCopy.Inv h T L l p slots s) :
    ∃ a b rest, s.2.pool = a :: b :: rest ∧ a ≠ b ∧
      ∃ s1, LoadAndReshapeFlashCopy.iteration i s = some s1 ∧
        s1.2.log = s.2.log ++ LoadAndReshapeFlashCopy.iterLog h T L l p slots i a b ∧
        s1.2.ptrs = s.2.ptrs := by
  obtain ⟨op, m⟩ := s
  obtain ⟨h1, h2, h3, h4, h5, h6, h7⟩ := hs
  simp only at h1 h2 h3 h4 h5 h6 h7
  obtain ⟨a, b, rest, hpool, hready, hab, -, -⟩ := h7.cases
  refine ⟨a, b, rest, hpool, hab, ?_⟩
  by_cases hslot : slots i = -1
  · simp [LoadAndReshapeFlashCopy.iteration, LoadAndReshapeFlashCopy.reset,
      LoadAndReshapeFlashCopy.updateTensorMemOffsetAndProcess, h6, hslot,
      LoadAndReshapeFlashCopy.processFunc, LoadAndReshapeFlashCopy.iterLog]
  · obtain ⟨m1, e1, e2, e3⟩ :=
      process2_log p h Buf.key Buf.value Buf.lmc Buf.lmc (slots i * h) (slots i * h)
        (l * T * h + i * h) (L * T * h + l * T * h + i * h)
        { m with log := m.log ++ [Event.slotRead i] }
        a b rest hpool hready
    refine ⟨((op.reset.updateTensorMemOffsetAndProcess m Buf.key Buf.value Buf.lmc i).1,
      m1), ?_, ?_, e3⟩
    · simp [LoadAndReshapeFlashCopy.iteration, LoadAndReshapeFlashCopy.reset,
        LoadAndReshapeFlashCopy.updateTensorMemOffsetAndProcess, h6, hslot,
        flash_processFunc_eq, h1, h2, h3, h4, h5] at e1 ⊢
      rw [e1]
    · simp [e2, LoadAndReshapeFlashCopy.iterLog, hslot, LoadAndReshapeFlashCopy.xfer]

theorem multi_layer_iteration_log (h L B T : Int) (p : Bool)
    (slots ptrs : Int → Int) (i kv layer : Int) (s : MultiLayerPagedKVCopy × Machine α)
    (hs : MultiLayerPagedKVCopy.Inv h L B T p slots ptrs s) :
    ∃ a rest, s.2.pool = a :: rest ∧
      ∃ s1, MultiLayerPagedKVCopy.iteration i kv layer s = some s1 ∧
        s1.2.log = s.2.log ++
          MultiLayerPagedKVCopy.iterLog h L B T p slots ptrs i kv layer a ∧
        s1.2.ptrs = s.2.ptrs := by
  obtain ⟨op, m⟩ := s
  obtain ⟨h1, h2, h3, h4, h5, h6, h6p, h7⟩ := hs
  simp only at h1 h2 h3 h4 h5 h6 h6p h7
  obtain ⟨a, b, rest, hpool, hready, hab, -, -⟩ := h7.cases
  refine ⟨a, b :: rest, hpool, ?_⟩
  by_cases hslot : slots i = -1
  · simp [MultiLayerPagedKVCopy.iteration, MultiLayerPagedKVCopy.reset,
      MultiLayerPagedKVCopy.updateMemOffset, h6, hslot, MultiLayerPagedKVCopy.processFunc,
      MultiLayerPagedKVCopy.iterLog]
  · obtain ⟨m1, e1, e2, e3⟩ :=
      process1_log p h (Buf.layer (ptrs layer)) Buf.lmc (kv * B * h + slots i * h)
        (kv * L * T * h + layer * T * h + i * h)
        { m with log := (m.log ++ [Event.slotRead i]) ++ [Event.ptrRead layer] }
        a (b :: rest) hpool hready
    refine ⟨((op.reset.updateMemOffset m Buf.lmc i kv layer).1, m1), ?_, ?_, e3⟩
    · simp [MultiLayerPagedKVCopy.iteration, MultiLayerPagedKVCopy.reset,
        MultiLayerPagedKVCopy.updateMemOffset, h6, h6p, hslot,
        multi_layer_processFunc_eq, h1, h2, h3, h4, h5] at e1 ⊢
      rw [e1]
    · simp [e2, MultiLayerPagedKVCopy.iterLog, hslot, MultiLayerPagedKVCopy.xfer]

/-! ## One call of `processFunc` -/

theorem process1_call (p : Bool) (n : Int) (pT lT : GlobalTensor) (m : Machine α)
    (a : Nat) (rest : List Nat) (hpool : m.pool = a :: rest) (hready : m.ready = []) :
    ∃ m1, process1 p n pT lT m = some m1 ∧
      OneVectorCall n a (if p then pT else lT) (if p then lT else pT) m m1 := by
  cases p <;>
  · simp [process1, AllocTensor, hpool, EnQue, DataCopyIn, DeQue, hready, DataCopyOut,
      FreeTensor, OneVectorCall, copyLog1, Delivered]
    intro j h0 h1
    simp [h0, h1]

theorem process2_call (p : Bool) (n : Int) (kT vT lK lV : GlobalTensor) (m : Machine α)
    (a b : Nat) (rest : List Nat) (hpool : m.pool = a :: b :: rest) (hready : m.ready = [])
    (hab : a ≠ b) :
    ∃ m1, process2 p n kT vT lK lV m = some m1 ∧
      TwoVectorCall n a b (if p then kT else lK) (if p then vT else lV)
        (if p then lK else kT) (if p then lV else vT) m m1 := by
  have hba : b ≠ a := Ne.symm hab
  cases p <;>
  · simp [process2, AllocTensor, hpool, EnQue, DataCopyIn, DeQue, hready, DataCopyOut,
      FreeTensor, TwoVectorCall, copyLog2, Delivered]
    constructor
    · intro j h0 h1
      simp [h0, h1]
    · intro j h0 h1 hskip
      simp [h0, h1, hab, hba]
      intro h2 h3 h4
      have := hskip h2 h3
      omega

theorem PoolRest_cases {m : Machine α} (h : PoolRest m) :
    ∃ a b c d, m.pool = [a, b, c, d] ∧ m.ready = [] ∧ a ≠ b ∧ [a, b, c, d].Nodup := by
  obtain ⟨hr, hn, hl⟩ := h
  match hp : m.pool, hn, hl with
  | [a, b, c, d], hn, _ =>
    refine ⟨a, b, c, d, rfl, hr, ?_, hn⟩
    intro hab; subst hab; simp at hn
  | [], _, hl => simp at hl
  | [_], _, hl => simp at hl
  | [_, _], _, hl => simp at hl
  | [_, _, _], _, hl => simp at hl
  | _ :: _ :: _ :: _ :: _ :: _, _, hl => simp at hl

theorem PoolRest_rotate1 {m1 : Machine α} (a b c d : Nat) (hn : [a, b, c, d].Nodup)
    (hp : m1.pool = [b, c, d] ++ [a]) (hr : m1.ready = []) : PoolRest m1 := by
  refine ⟨hr, ?_, ?_⟩
  · rw [hp]
    have : ([b, c, d] ++ [a]).Perm [a, b, c, d] := List.perm_append_comm
    exact this.nodup_iff.mpr hn
  · rw [hp]; rfl

theorem PoolRest_rotate2 {m1 : Machine α} (a b c d : Nat) (hn : [a, b, c, d].Nodup)
    (hp : m1.pool = [c, d] ++ [a, b]) (hr : m1.ready = []) : PoolRest m1 := by
  refine ⟨hr, ?_, ?_⟩
  · rw [hp]
    have : ([c, d] ++ [a, b]).Perm ([a, b] ++ [c, d]) := List.perm_append_comm
    exact this.nodup_iff.mpr hn
  · rw [hp]; rfl

theorem PoolRest_initBuffer (m : Machine α) : PoolRest (InitBuffer m 4) := by
  refine ⟨rfl, ?_, ?_⟩
  · simp [InitBuffer, List.nodup_range]
  · simp [InitBuffer]

theorem single_layer_resolver_queue (op : SingleLayerPagedKVCopy) (m : Machine α)
    (P Q : Buf) (t k : Int) :
    (op.updateTensorMemOffsetAndProcess m P Q t k).2.pool = m.pool ∧
    (op.updateTensorMemOffsetAndProcess m P Q t k).2.ready = m.ready := by
  by_cases hs : m.slots t = -1 <;> by_cases hk : k = 0 <;>
    simp [SingleLayerPagedKVCopy.updateTensorMemOffsetAndProcess, hs, hk]

theorem flash_resolver_queue (op : LoadAndReshapeFlashCopy) (m : Machine α)
    (P V Q : Buf) (t : Int) :
    (op.updateTensorMemOffsetAndProcess m P V Q t).2.pool = m.pool ∧
    (op.updateTensorMemOffsetAndProcess m P V Q t).2.ready = m.ready := by
  by_cases hs : m.slots t = -1 <;>
    simp [LoadAndReshapeFlashCopy.updateTensorMemOffsetAndProcess, hs]

theorem multi_layer_resolver_queue (op : MultiLayerPagedKVCopy) (m : Machine α)
    (Q : Buf) (t k l : Int) :
    (op.updateMemOffset m Q t k l).2.pool = m.pool ∧
    (op.updateMemOffset m Q t k l).2.ready = m.ready := by
  by_cases hs : m.slots t = -1 <;>
    simp [MultiLayerPagedKVCopy.updateMemOffset, hs]

theorem PoolRest_of_eq {m m1 : Machine α} (h : PoolRest m) (hp : m1.pool = m.pool)
    (hr : m1.ready = m.ready) : PoolRest m1 := by
  unfold PoolRest at *
  rw [hp, hr]; exact h

/-! ## Runs as lists of performed transfers -/

theorem Performs.nil (n : Int) (m m1 : Machine α) (hgm : m1.gm = m.gm)
    (hr : readsOf m1.log = readsOf m.log) (hw : writesOf m1.log = writesOf m.log)
    (hs : m1.slots = m.slots) (hp : m1.ptrs = m.ptrs) : Performs n [] m m1 := by
  refine ⟨by simpa using hgm, by simpa using hr, by simpa using hw, hs, hp⟩

theorem Performs.trans {n : Int} {xs ys : List Xfer} {m m1 m2 : Machine α}
    (h1 : Performs n xs m m1) (h2 : Performs n ys m1 m2) : Performs n (xs ++ ys) m m2 := by
  obtain ⟨a1, a2, a3, a4, a5⟩ := h1
  obtain ⟨b1, b2, b3, b4, b5⟩ := h2
  refine ⟨?_, ?_, ?_, b4.trans a4, b5.trans a5⟩
  · rw [b1, a1, List.foldl_append]
  · rw [b2, a2, List.map_append, List.append_assoc]
  · rw [b3, a3, List.map_append, List.append_assoc]

theorem foldlM_performs {σ ι : Type} (body : σ → ι → Option σ) (Inv : σ → Prop)
    (mach : σ → Machine α) (n : Int) (g : ι → List Xfer) (P : ι → Prop)
    (hbody : ∀ i s, P i → Inv s →
      ∃ s1, body s i = some s1 ∧ Inv s1 ∧ Performs n (g i) (mach s) (mach s1)) :
    ∀ (l : List ι) (s : σ), (∀ i ∈ l, P i) → Inv s →
      ∃ s1, l.foldlM body s = some s1 ∧ Inv s1 ∧
        Performs n (l.flatMap g) (mach s) (mach s1) := by
  intro l
  induction l with
  | nil =>
    intro s _ hs
    exact ⟨s, rfl, hs, Performs.nil n _ _ rfl rfl rfl rfl rfl⟩
  | cons a t ih =>
    intro s hP hs
    obtain ⟨s1, h1, h2, h3⟩ := hbody a s (hP a (List.mem_cons_self _ _)) hs
    obtain ⟨s2, h4, h5, h6⟩ := ih s1 (fun i hi => hP i (List.mem_cons_of_mem _ hi)) h2
    refine ⟨s2, ?_, h5, ?_⟩
    · simp [List.foldlM_cons, h1, h4]
    · rw [List.flatMap_cons]
      exact h3.trans h6

theorem forLoop_performs {σ : Type} (body : Int → σ → Option σ) (bound step : Int)
    (hstep : 1 ≤ step) (Inv : σ → Prop) (mach : σ → Machine α) (n : Int)
    (g : Int → List Xfer)
    (hbody : ∀ i s, Inv s →
      ∃ s1, body i s = some s1 ∧ Inv s1 ∧ Performs n (g i) (mach s) (mach s1))
    (fuel : Nat) (i : Int) (s : σ) (hf : (bound - i).toNat < fuel) (hs : Inv s) :
    ∃ s1, forLoop body bound step fuel i s = some s1 ∧ Inv s1 ∧
      Performs n ((loopIndices bound step fuel i).flatMap g) (mach s) (mach s1) := by
  rw [forLoop_eq_foldlM body bound step hstep fuel i s hf]
  exact foldlM_performs (fun s i => body i s) Inv mach n g (fun _ => True)
    (fun i s _ hs => hbody i s hs) (loopIndices bound step fuel i) s (fun _ _ => trivial) hs

theorem launch_performs (N : Nat) (kernel : Int → Machine α → Option (Machine α))
    (I : Machine α → Prop) (n : Int) (g : Nat → List Xfer)
    (hk : ∀ b, b < N → ∀ m, I m →
      ∃ m1, kernel (b : Int) m = some m1 ∧ I m1 ∧ Performs n (g b) m m1)
    (m : Machine α) (hm : I m) :
    ∃ m1, launch N kernel m = some m1 ∧ I m1 ∧
      Performs n ((List.range N).flatMap g) m m1 := by
  obtain ⟨m1, h1, h2, h3⟩ := foldlM_performs (fun s (b : Nat) => kernel (b : Int) s)
    I (fun s => s) n g (fun b => b < N)
    (fun b s hb hs => hk b hb s hs)
    (List.range N) m (fun b hb => List.mem_range.mp hb) hm
  exact ⟨m1, by unfold launch; exact h1, h2, h3⟩

/-! ## The three kernels as lists of performed transfers -/

theorem single_layer_iteration_performs (isMLA : Bool) (h T : Int) (p tm : Bool)
    (slots : Int → Int) (i : Int) (s : SingleLayerPagedKVCopy × Machine α)
    (hs : SingleLayerPagedKVCopy.Inv isMLA h T p tm slots s) :
    ∃ s1, SingleLayerPagedKVCopy.iteration isMLA i s = some s1 ∧
      SingleLayerPagedKVCopy.Inv isMLA h T p tm slots s1 ∧
      Performs h (SingleLayerPagedKVCopy.xfers isMLA h T p tm slots i) s.2 s1.2 := by
  obtain ⟨s1, e1, e2, e3⟩ := single_layer_iteration_spec isMLA h T p tm slots i s hs
  obtain ⟨a, b, rest, -, -, s2, f1, f2, f3⟩ :=
    single_layer_iteration_log isMLA h T p tm slots i s hs
  rw [e1] at f1
  obtain rfl : s1 = s2 := Option.some.inj f1
  refine ⟨s1, e1, e2, e3, ?_, ?_, e2.2.2.2.2.2.1.trans hs.2.2.2.2.2.1.symm, ?_⟩
  · rw [f2, readsOf_append]
    by_cases hslot : slots i = -1 <;> cases isMLA <;>
      simp [SingleLayerPagedKVCopy.iterLog, SingleLayerPagedKVCopy.xfers,
        SingleLayerPagedKVCopy.xfer, hslot, readsOf, callLog1, callLog2, copyLog1, copyLog2]
  · rw [f2, writesOf_append]
    by_cases hslot : slots i = -1 <;> cases isMLA <;>
      simp [SingleLayerPagedKVCopy.iterLog, SingleLayerPagedKVCopy.xfers,
        SingleLayerPagedKVCopy.xfer, hslot, writesOf, callLog1, callLog2, copyLog1,
        copyLog2]
  · exact f3

theorem flash_iteration_performs (h T L l : Int) (p : Bool)
    (slots : Int → Int) (i : Int) (s : LoadAndReshapeFlashCopy × Machine α)
    (hs : LoadAndReshapeFlashCopy.Inv h T L l p slots s) :
    ∃ s1, LoadAndReshapeFlashCopy.iteration i s = some s1 ∧
      LoadAndReshapeFlashCopy.Inv h T L l p slots s1 ∧
      Performs h (LoadAndReshapeFlashCopy.xfers h T L l p slots i) s.2 s1.2 := by
  obtain ⟨s1, e1, e2, e3⟩ := flash_iteration_spec h T L l p slots i s hs
  obtain ⟨a, b, rest, -, -, s2, f1, f2, f3⟩ := flash_iteration_log h T L l p slots i s hs
  rw [e1] at f1
  obtain rfl : s1 = s2 := Option.some.inj f1
  refine ⟨s1, e1, e2, e3, ?_, ?_, e2.2.2.2.2.2.1.trans hs.2.2.2.2.2.1.symm, f3⟩
  · rw [f2, readsOf_append]
    by_cases hslot : slots i = -1 <;>
      simp [LoadAndReshapeFlashCopy.iterLog, LoadAndReshapeFlashCopy.xfers,
        LoadAndReshapeFlashCopy.xfer, hslot, readsOf, callLog2, copyLog2]
  · rw [f2, writesOf_append]
    by_cases hslot : slots i = -1 <;>
      simp [LoadAndReshapeFlashCopy.iterLog, LoadAndReshapeFlashCopy.xfers,
        LoadAndReshapeFlashCopy.xfer, hslot, writesOf, callLog2, copyLog2]

theorem multi_layer_iteration_performs (h L B T : Int) (p : Bool)
    (slots ptrs : Int → Int) (i kv layer : Int) (s : MultiLayerPagedKVCopy × Machine α)
    (hs : MultiLayerPagedKVCopy.Inv h L B T p slots ptrs s) :
    ∃ s1, MultiLayerPagedKVCopy.iteration i kv layer s = some s1 ∧
      MultiLayerPagedKVCopy.Inv h L B T p slots ptrs s1 ∧
      Performs h (MultiLayerPagedKVCopy.xfer1 h L B T p slots ptrs i kv layer) s.2 s1.2 := by
  obtain ⟨s1, e1, e2, e3⟩ := multi_layer_iteration_spec h L B T p slots ptrs i kv layer s hs
  obtain ⟨a, rest, -, s2, f1, f2, f3⟩ :=
    multi_layer_iteration_log h L B T p slots ptrs i kv layer s hs
  rw [e1] at f1
  obtain rfl : s1 = s2 := Option.some.inj f1
  refine ⟨s1, e1, e2, e3, ?_, ?_, e2.2.2.2.2.2.1.trans hs.2.2.2.2.2.1.symm, f3⟩
  · rw [f2, readsOf_append]
    by_cases hslot : slots i = -1 <;>
      simp [MultiLayerPagedKVCopy.iterLog, MultiLayerPagedKVCopy.xfer1,
        MultiLayerPagedKVCopy.xfer, hslot, readsOf, callLog1, copyLog1]
  · rw [f2, writesOf_append]
    by_cases hslot : slots i = -1 <;>
      simp [MultiLayerPagedKVCopy.iterLog, MultiLayerPagedKVCopy.xfer1,
        MultiLayerPagedKVCopy.xfer, hslot, writesOf, callLog1, copyLog1]

theorem Performs_initBuffer {n : Int} {xs : List Xfer} {m m1 : Machine α} {k : Nat}
    (h : Performs n xs (InitBuffer m k) m1) : Performs n xs m m1 := h

theorem single_layer_paged_kv_copy_performs (isMLA : Bool) (h T N : Int) (p tm : Bool)
    (fuel : Nat) (w : Int) (m : Machine α) (hN : 1 ≤ N) (hf : (T - w).toNat < fuel) :
    ∃ m1, single_layer_paged_kv_copy isMLA h T N p tm fuel w m = some m1 ∧
      Performs h ((loopIndices T N fuel w).flatMap
        (SingleLayerPagedKVCopy.xfers isMLA h T p tm m.slots)) m m1 := by
  obtain ⟨s1, h1, -, h3⟩ := forLoop_performs (SingleLayerPagedKVCopy.iteration isMLA) T N hN
    (SingleLayerPagedKVCopy.Inv isMLA h T p tm m.slots) (fun s => s.2) h
    (SingleLayerPagedKVCopy.xfers isMLA h T p tm m.slots)
    (fun i s hs => single_layer_iteration_performs isMLA h T p tm m.slots i s hs)
    fuel w (SingleLayerPagedKVCopy.init isMLA h T p tm m) hf
    ⟨rfl, rfl, rfl, rfl, rfl, rfl, PoolOK_initBuffer m⟩
  refine ⟨s1.2, ?_, Performs_initBuffer h3⟩
  unfold single_layer_paged_kv_copy
  rw [h1]; rfl

theorem single_layer_paged_kernel_performs (isMLA : Bool) (N : Nat) (h T : Int)
    (p tm : Bool) (fuel : Nat) (m : Machine α) (hf : T.toNat < fuel) :
    ∃ m1, single_layer_paged_kernel isMLA N h T p tm fuel m = some m1 ∧
      Performs h ((schedule N T fuel).flatMap
        (SingleLayerPagedKVCopy.xfers isMLA h T p tm m.slots)) m m1 := by
  obtain ⟨m1, h1, -, h3⟩ := launch_performs N
    (single_layer_paged_kv_copy isMLA h T N p tm fuel) (fun s => s.slots = m.slots) h
    (fun b => (loopIndices T N fuel (b : Int)).flatMap
      (SingleLayerPagedKVCopy.xfers isMLA h T p tm m.slots))
    (fun b hb s hs => by
      obtain ⟨s1, e1, e2⟩ := single_layer_paged_kv_copy_performs isMLA h T N p tm fuel b s
        (by omega) (by omega)
      rw [hs] at e2
      exact ⟨s1, e1, e2.2.2.2.1.trans hs, e2⟩)
    m rfl
  refine ⟨m1, h1, ?_⟩
  rw [← schedule_flatMap]
  exact h3

theorem load_and_reshape_flash_copy_performs (h P S T L l : Int) (p : Bool) (N : Int)
    (fuel : Nat) (w : Int) (m : Machine α) (hN : 1 ≤ N) (hf : (T - w).toNat < fuel) :
    ∃ m1, load_and_reshape_flash_copy h P S T L l p N fuel w m = some m1 ∧
      Performs h ((loopIndices T N fuel w).flatMap
        (LoadAndReshapeFlashCopy.xfers h T L l p m.slots)) m m1 := by
  obtain ⟨s1, h1, -, h3⟩ := forLoop_performs LoadAndReshapeFlashCopy.iteration T N hN
    (LoadAndReshapeFlashCopy.Inv h T L l p m.slots) (fun s => s.2) h
    (LoadAndReshapeFlashCopy.xfers h T L l p m.slots)
    (fun i s hs => flash_iteration_performs h T L l p m.slots i s hs)
    fuel w (LoadAndReshapeFlashCopy.init P h S T L l p m) hf
    ⟨rfl, rfl, rfl, rfl, rfl, rfl, PoolOK_initBuffer m⟩
  refine ⟨s1.2, ?_, Performs_initBuffer h3⟩
  unfold load_and_reshape_flash_copy
  rw [h1]; rfl

theorem load_and_reshape_kernel_call_performs (N : Nat) (h P S T L l : Int) (p : Bool)
    (fuel : Nat) (m : Machine α) (hf : T.toNat < fuel) :
    ∃ m1, load_and_reshape_kernel_call N h P S T L l p fuel m = some m1 ∧
      Performs h ((schedule N T fuel).flatMap
        (LoadAndReshapeFlashCopy.xfers h T L l p m.slots)) m m1 := by
  obtain ⟨m1, h1, -, h3⟩ := launch_performs N
    (load_and_reshape_flash_copy h P S T L l p N fuel) (fun s => s.slots = m.slots) h
    (fun b => (loopIndices T N fuel (b : Int)).flatMap
      (LoadAndReshapeFlashCopy.xfers h T L l p m.slots))
    (fun b hb s hs => by
      obtain ⟨s1, e1, e2⟩ := load_and_reshape_flash_copy_performs h P S T L l p N fuel b s
        (by omega) (by omega)
      rw [hs] at e2
      exact ⟨s1, e1, e2.2.2.2.1.trans hs, e2⟩)
    m rfl
  refine ⟨m1, ?_, ?_⟩
  · exact h1
  · rw [← schedule_flatMap]
    exact h3

theorem multi_layer_paged_kv_copy_performs (h kvs L B T N : Int) (p : Bool)
    (fuel : Nat) (w : Int) (m : Machine α) (hN : 1 ≤ N) (hf : (T - w).toNat < fuel)
    (hkv : kvs.toNat < fuel) (hL : L.toNat < fuel) :
    ∃ m1, multi_layer_paged_kv_copy h kvs L B T N p fuel w m = some m1 ∧
      Performs h ((loopIndices T N fuel w).flatMap
        (MultiLayerPagedKVCopy.xfers h kvs L B T p m.slots m.ptrs fuel)) m m1 := by
  obtain ⟨s1, h1, -, h3⟩ := forLoop_performs
    (fun i s =>
      forLoop
        (fun kvIdx s =>
          forLoop (fun layerIdx s => MultiLayerPagedKVCopy.iteration i kvIdx layerIdx s)
            L 1 fuel 0 s)
        kvs 1 fuel 0 s) T N hN
    (MultiLayerPagedKVCopy.Inv h L B T p m.slots m.ptrs) (fun s => s.2) h
    (MultiLayerPagedKVCopy.xfers h kvs L B T p m.slots m.ptrs fuel)
    (fun i s hs =>
      forLoop_performs _ kvs 1 (le_refl _)
        (MultiLayerPagedKVCopy.Inv h L B T p m.slots m.ptrs) (fun s => s.2) h _
        (fun kv s hs =>
          forLoop_performs _ L 1 (le_refl _)
            (MultiLayerPagedKVCopy.Inv h L B T p m.slots m.ptrs) (fun s => s.2) h
            (fun layer => MultiLayerPagedKVCopy.xfer1 h L B T p m.slots m.ptrs i kv layer)
            (fun layer s hs =>
              multi_layer_iteration_performs h L B T p m.slots m.ptrs i kv layer s hs)
            fuel 0 s (by omega) hs)
        fuel 0 s (by omega) hs)
    fuel w (MultiLayerPagedKVCopy.init h L B T p m) hf
    ⟨rfl, rfl, rfl, rfl, rfl, rfl, rfl, PoolOK_initBuffer m⟩
  refine ⟨s1.2, ?_, Performs_initBuffer h3⟩
  unfold multi_layer_paged_kv_copy
  rw [h1]; rfl

theorem multi_layer_paged_kernel_performs (N : Nat) (h kvs L B T : Int) (p : Bool)
    (fuel : Nat) (m : Machine α) (hf : T.toNat < fuel)
    (hkv : kvs.toNat < fuel) (hL : L.toNat < fuel) :
    ∃ m1, multi_layer_paged_kernel N h kvs L B T p fuel m = some m1 ∧
      Performs h ((schedule N T fuel).flatMap
        (MultiLayerPagedKVCopy.xfers h kvs L B T p m.slots m.ptrs fuel)) m m1 := by
  obtain ⟨m1, h1, -, h3⟩ := launch_performs N
    (multi_layer_paged_kv_copy h kvs L B T N p fuel)
    (fun s => s.slots = m.slots ∧ s.ptrs = m.ptrs) h
    (fun b => (loopIndices T N fuel (b : Int)).flatMap
      (MultiLayerPagedKVCopy.xfers h kvs L B T p m.slots m.ptrs fuel))
    (fun b hb s hs => by
      obtain ⟨s1, e1, e2⟩ := multi_layer_paged_kv_copy_performs h kvs L B T N p fuel b s
        (by omega) (by omega) hkv hL
      rw [hs.1, hs.2] at e2
      exact ⟨s1, e1, ⟨e2.2.2.2.1.trans hs.1, e2.2.2.2.2.trans hs.2⟩, e2⟩)
    m ⟨rfl, rfl⟩
  refine ⟨m1, h1, ?_⟩
  rw [← schedule_flatMap]
  exact h3

/-! ## The direction of the transfers -/

theorem isSource_not (p : Bool) (b : Buf) : b.isSource (!p) ↔ ¬ b.isSource p := by
  cases p <;> simp [Buf.isSource]

theorem OnlyMoves_of_performs (p : Bool) (n : Int) (xs : List Xfer) (m m1 : Machine α)
    (h : Performs n xs m m1)
    (hx : ∀ x ∈ xs, x.sb.isSource p ∧ x.db.isSource (!p)) : OnlyMoves p m m1 := by
  obtain ⟨e1, e2, e3, e4, e5⟩ := h
  refine ⟨?_, ⟨_, _, e2, e3, ?_, ?_⟩, e4, e5⟩
  · intro b hb
    rw [e1]
    apply foldl_applyXfer_buf
    intro x hxm hdb
    have := (hx x hxm).2
    rw [hdb, isSource_not] at this
    exact this hb
  · intro g hg
    obtain ⟨x, hxm, rfl⟩ := List.mem_map.mp hg
    exact (hx x hxm).1
  · intro g hg
    obtain ⟨x, hxm, rfl⟩ := List.mem_map.mp hg
    exact (hx x hxm).2

theorem mkXfer_sides (p : Bool) (b : Buf) (hb : b ≠ Buf.lmc) (o1 o2 n : Int) :
    (mkXfer p ⟨b, o1, n⟩ ⟨Buf.lmc, o2, n⟩).sb.isSource p ∧
    (mkXfer p ⟨b, o1, n⟩ ⟨Buf.lmc, o2, n⟩).db.isSource (!p) := by
  cases p <;> simp [mkXfer, Buf.isSource, hb]

/-! ## Counting the transfers -/

theorem loopIndices_unit (n : Int) : ∀ (fuel : Nat) (i : Int), (n - i).toNat < fuel →
    loopIndices n 1 fuel i
      = (List.range (n - i).toNat).map (fun (k : Nat) => i + (k : Int)) := by
  intro fuel
  induction fuel with
  | zero => intro i h; omega
  | succ k ih =>
    intro i h
    unfold loopIndices
    by_cases hi : i < n
    · rw [if_pos hi, ih (i + 1) (by omega)]
      have e : (n - i).toNat = (n - (i + 1)).toNat + 1 := by omega
      rw [e, List.range_succ_eq_map]
      simp only [List.map_cons, List.map_map, Nat.cast_zero, add_zero, List.cons.injEq,
        true_and]
      apply List.map_congr_left
      intro a _
      simp only [Function.comp, Nat.succ_eq_add_one, Nat.cast_add, Nat.cast_one]
      ring
    · rw [if_neg hi]
      have e : (n - i).toNat = 0 := by omega
      rw [e]; rfl

theorem loopIndices_zero (n : Int) (fuel : Nat) (h : n.toNat < fuel) :
    loopIndices n 1 fuel 0 = (List.range n.toNat).map (fun (k : Nat) => (k : Int)) := by
  rw [loopIndices_unit n fuel 0 (by simpa using h)]
  simp

theorem flatMap_unit {ι κ : Type} (f : ι → κ) (l : List ι) :
    l.flatMap (fun a => [f a]) = l.map f := by
  induction l with
  | nil => rfl
  | cons a t ih => simp [List.flatMap_cons, ih]

theorem multi_layer_xfers_eq (h kvs L B T : Int) (p : Bool) (slots ptrs : Int → Int)
    (fuel : Nat) (hkv : kvs.toNat < fuel) (hL : L.toNat < fuel) (t : Int) :
    MultiLayerPagedKVCopy.xfers h kvs L B T p slots ptrs fuel t
      = if slots t = -1 then []
        else (MultiLayerPagedKVCopy.pairs kvs L).map
          (fun q => MultiLayerPagedKVCopy.xfer h L B T p slots ptrs t q.1 q.2) := by
  unfold MultiLayerPagedKVCopy.xfers
  rw [loopIndices_zero kvs fuel hkv, loopIndices_zero L fuel hL]
  by_cases hs : slots t = -1
  · simp [MultiLayerPagedKVCopy.xfer1, hs]
  · simp [MultiLayerPagedKVCopy.xfer1, hs, MultiLayerPagedKVCopy.pairs,
      MultiLayerPagedKVCopy.xfer, List.flatMap_map, List.map_flatMap]
    congr 1
    funext a
    rw [flatMap_unit]
    rfl

theorem multi_layer_work_map (h kvs L B T : Int) (p : Bool) (slots ptrs : Int → Int)
    (fuel : Nat) (hkv : kvs.toNat < fuel) (hL : L.toNat < fuel) (tokens : List Int) :
    tokens.flatMap (MultiLayerPagedKVCopy.xfers h kvs L B T p slots ptrs fuel)
      = (MultiLayerPagedKVCopy.work kvs L slots tokens).map
          (fun x => MultiLayerPagedKVCopy.xfer h L B T p slots ptrs x.1 x.2.1 x.2.2) := by
  unfold MultiLayerPagedKVCopy.work
  rw [List.map_flatMap]
  congr 1
  funext t
  rw [multi_layer_xfers_eq h kvs L B T p slots ptrs fuel hkv hL t]
  by_cases hs : slots t = -1
  · simp [hs]
  · simp [hs, List.map_map, Function.comp]

theorem mem_loopIndices_worker (T : Int) (N : Nat) (fuel : Nat) (hf : T.toNat < fuel)
    (w : Nat) (hw : w < N) (t : Int) :
    t ∈ loopIndices T N fuel (w : Int) ↔ 0 ≤ t ∧ t < T ∧ t % (N : Int) = (w : Int) := by
  have hN1 : (1 : Int) ≤ (N : Int) := by omega
  have hwN : (w : Int) < (N : Int) := by exact_mod_cast hw
  rw [mem_loopIndices T N hN1 fuel w t (by omega)]
  constructor
  · rintro ⟨h1, h2, h3⟩
    refine ⟨by omega, h2, ?_⟩
    have h4 : (t - w) % (N : Int) = 0 := Int.emod_eq_zero_of_dvd h3
    have h5 : t % (N : Int) = (w : Int) % (N : Int) :=
      Int.emod_eq_emod_iff_emod_sub_eq_zero.mpr h4
    rw [h5, Int.emod_eq_of_lt (by omega) hwN]
  · rintro ⟨h0, h2, h3⟩
    refine ⟨?_, h2, ?_⟩
    · rw [← h3]; exact emod_le_self_of_nonneg t N h0
    · rw [← h3]
      exact Int.dvd_sub_of_emod_eq rfl

theorem loopIndices_nodup (T : Int) (N : Nat) (hN : 1 ≤ N) (fuel : Nat) (i : Int) :
    (loopIndices T N fuel i).Nodup := by
  have h := loopIndices_sorted T N (by omega) fuel i
  exact h.imp (fun hab => ne_of_lt hab)

theorem schedule_nodup (N : Nat) (hN : 1 ≤ N) (T : Int) (fuel : Nat)
    (hf : T.toNat < fuel) : (schedule N T fuel).Nodup := by
  unfold schedule
  rw [List.nodup_flatMap]
  refine ⟨fun b _ => loopIndices_nodup T N hN fuel b, ?_⟩
  apply (List.nodup_range N).pairwise_of_forall_ne
  intro a ha b hb hab
  simp only [Function.onFun]
  intro t hta htb
  rw [mem_loopIndices_worker T N fuel hf a (List.mem_range.mp ha)] at hta
  rw [mem_loopIndices_worker T N fuel hf b (List.mem_range.mp hb)] at htb
  apply hab
  have : (a : Int) = (b : Int) := by rw [← hta.2.2, ← htb.2.2]
  exact_mod_cast this

theorem schedule_perm (N : Nat) (hN : 1 ≤ N) (T : Int) (fuel : Nat)
    (hf : T.toNat < fuel) :
    (schedule N T fuel).Perm ((List.range T.toNat).map (fun (k : Nat) => (k : Int))) := by
  rw [List.perm_ext_iff_of_nodup (schedule_nodup N hN T fuel hf)
    ((List.nodup_range _).map (fun a b hab => by exact_mod_cast hab))]
  intro t
  rw [mem_schedule N hN T fuel hf t]
  simp only [List.mem_map, List.mem_range]
  constructor
  · rintro ⟨h0, h1⟩
    exact ⟨t.toNat, by omega, by omega⟩
  · rintro ⟨k, hk, rfl⟩
    omega

theorem mem_pairs (kvs L : Int) (kv layer : Int) :
    (kv, layer) ∈ MultiLayerPagedKVCopy.pairs kvs L ↔
      (0 ≤ kv ∧ kv < kvs) ∧ (0 ≤ layer ∧ layer < L) := by
  unfold MultiLayerPagedKVCopy.pairs
  simp only [List.mem_flatMap, List.mem_map, List.mem_range, Prod.mk.injEq]
  constructor
  · rintro ⟨a, ha, b, hb, rfl, rfl⟩
    omega
  · rintro ⟨⟨h1, h2⟩, h3, h4⟩
    exact ⟨kv.toNat, by omega, layer.toNat, by omega, by omega, by omega⟩

theorem pairs_nodup (kvs L : Int) : (MultiLayerPagedKVCopy.pairs kvs L).Nodup := by
  unfold MultiLayerPagedKVCopy.pairs
  rw [List.nodup_flatMap]
  refine ⟨fun a _ => (List.nodup_range _).map (fun x y hxy => ?_), ?_⟩
  · simp only [Prod.mk.injEq, true_and] at hxy
    exact_mod_cast hxy
  · apply (List.nodup_range _).pairwise_of_forall_ne
    intro a _ b _ hab
    simp only [Function.onFun]
    intro q hqa hqb
    simp only [List.mem_map, List.mem_range] at hqa hqb
    obtain ⟨x, _, rfl⟩ := hqa
    obtain ⟨y, _, hy⟩ := hqb
    simp only [Prod.mk.injEq] at hy
    apply hab
    have := hy.1
    exact_mod_cast this.symm

theorem pairs_length (kvs L : Int) :
    (MultiLayerPagedKVCopy.pairs kvs L).length = kvs.toNat * L.toNat := by
  unfold MultiLayerPagedKVCopy.pairs
  generalize kvs.toNat = a
  induction a with
  | zero => simp
  | succ n ih =>
    rw [List.range_succ, List.flatMap_append, List.length_append, ih]
    simp
    ring

theorem mem_work (kvs L : Int) (slots : Int → Int) (tokens : List Int) (t kv layer : Int) :
    (t, kv, layer) ∈ MultiLayerPagedKVCopy.work kvs L slots tokens ↔
      t ∈ tokens ∧ slots t ≠ -1 ∧ (0 ≤ kv ∧ kv < kvs) ∧ (0 ≤ layer ∧ layer < L) := by
  unfold MultiLayerPagedKVCopy.work
  simp only [List.mem_flatMap]
  constructor
  · rintro ⟨u, hu, hx⟩
    by_cases hs : slots u = -1
    · simp [hs] at hx
    · simp only [hs, if_false, List.mem_map, Prod.mk.injEq] at hx
      obtain ⟨q, hq, rfl, rfl, rfl⟩ := hx
      exact ⟨hu, hs, (mem_pairs kvs L q.1 q.2).mp hq⟩
  · rintro ⟨ht, hs, hkv⟩
    refine ⟨t, ht, ?_⟩
    rw [if_neg hs]
    exact List.mem_map.mpr ⟨(kv, layer), (mem_pairs kvs L kv layer).mpr hkv, rfl⟩

theorem work_nodup (kvs L : Int) (slots : Int → Int) (tokens : List Int)
    (hn : tokens.Nodup) : (MultiLayerPagedKVCopy.work kvs L slots tokens).Nodup := by
  unfold MultiLayerPagedKVCopy.work
  rw [List.nodup_flatMap]
  refine ⟨fun t _ => ?_, ?_⟩
  · by_cases hs : slots t = -1
    · simp [hs]
    · simp only [hs, if_false]
      exact (pairs_nodup kvs L).map (fun x y hxy => by
        simp only [Prod.mk.injEq, true_and] at hxy
        exact Prod.ext hxy.1 hxy.2)
  · apply hn.pairwise_of_forall_ne
    intro a _ b _ hab
    simp only [Function.onFun]
    intro x hxa hxb
    apply hab
    have ha : x.1 = a := by
      by_cases hs : slots a = -1
      · simp [hs] at hxa
      · simp only [hs, if_false, List.mem_map] at hxa
        obtain ⟨q, -, rfl⟩ := hxa
        rfl
    have hb : x.1 = b := by
      by_cases hs : slots b = -1
      · simp [hs] at hxb
      · simp only [hs, if_false, List.mem_map] at hxb
        obtain ⟨q, -, rfl⟩ := hxb
        rfl
    rw [← ha, ← hb]

theorem work_length (kvs L : Int) (slots : Int → Int) (tokens : List Int) :
    (MultiLayerPagedKVCopy.work kvs L slots tokens).length
      = (tokens.filter (fun t => decide (slots t ≠ -1))).length
        * (kvs.toNat * L.toNat) := by
  unfold MultiLayerPagedKVCopy.work
  induction tokens with
  | nil => simp
  | cons a t ih =>
    rw [List.flatMap_cons, List.length_append, ih]
    by_cases hs : slots a = -1
    · simp [hs]
    · simp [hs, pairs_length]
      ring

theorem filter_schedule_length (N : Nat) (hN : 1 ≤ N) (T : Int) (fuel : Nat)
    (hf : T.toNat < fuel) (slots : Int → Int) :
    ((schedule N T fuel).filter (fun t => decide (slots t ≠ -1))).length
      = validCount slots T := by
  rw [((schedule_perm N hN T fuel hf).filter _).length_eq, List.filter_map,
    List.length_map]
  rfl

/-! ## Reordering the iterations -/

theorem slotReadsOf_append (l1 l2 : List Event) :
    slotReadsOf (l1 ++ l2) = slotReadsOf l1 ++ slotReadsOf l2 := by
  induction l1 with
  | nil => rfl
  | cons e t ih => cases e <;> simp [slotReadsOf, ih]

theorem loopIndices_length (T N : Int) (hN : 1 ≤ N) :
    ∀ (fuel : Nat) (w : Int), (T - w).toNat < fuel →
      (loopIndices T N fuel w).length = ((T - w + N - 1) / N).toNat := by
  intro fuel
  induction fuel with
  | zero => intro w h; omega
  | succ k ih =>
    intro w h
    unfold loopIndices
    by_cases hw : w < T
    · rw [if_pos hw, List.length_cons, ih (w + N) (by omega)]
      have e : T - w + N - 1 = (T - (w + N) + N - 1) + 1 * N := by ring
      have h0 : 0 ≤ (T - (w + N) + N - 1) / N :=
        Int.ediv_nonneg (by omega) (by omega)
      rw [e, Int.add_mul_ediv_right _ _ (by omega : N ≠ 0),
        Int.toNat_add h0 (by decide)]
      rfl
    · rw [if_neg hw, List.length_nil]
      have h1 : (T - w + N - 1) / N ≤ 0 := by
        have := Int.ediv_mul_le (T - w + N - 1) (show N ≠ 0 by omega)
        by_contra hc
        have h2 : 1 ≤ (T - w + N - 1) / N := by omega
        have : 1 * N ≤ (T - w + N - 1) / N * N :=
          mul_le_mul_of_nonneg_right h2 (by omega)
        omega
      omega

theorem ceil_div_eq (a N : Int) (hN : 1 ≤ N) :
    ⌈((a : Int) : ℚ) / ((N : Int) : ℚ)⌉ = (a + N - 1) / N := by
  rw [Int.ceil_eq_iff]
  have hNq : (0 : ℚ) < (N : ℚ) := by exact_mod_cast (by omega : (0 : Int) < N)
  have h1 := Int.ediv_mul_le (a + N - 1) (show N ≠ 0 by omega)
  have h2 := Int.lt_ediv_add_one_mul_self (a + N - 1) (show 0 < N by omega)
  constructor
  · rw [lt_div_iff₀ hNq]
    have : ((a + N - 1) / N - 1) * N < a := by nlinarith
    exact_mod_cast this
  · rw [div_le_iff₀ hNq]
    have : a ≤ (a + N - 1) / N * N := by nlinarith
    exact_mod_cast this

theorem forLoop_zero_step {σ : Type} (body : Int → σ → Option σ) (T w : Int)
    (hw : w < T) : ∀ (fuel : Nat) (s : σ), forLoop body T 0 fuel w s = none := by
  intro fuel
  induction fuel with
  | zero => intro s; rfl
  | succ k ih =>
    intro s
    unfold forLoop
    rw [if_pos hw, add_zero]
    cases hb : body w s with
    | none => rfl
    | some s1 => exact ih s1

theorem loopIndices_zero_step (T w : Int) (hw : w < T) :
    ∀ fuel : Nat, loopIndices T 0 fuel w = List.replicate fuel w := by
  intro fuel
  induction fuel with
  | zero => rfl
  | succ k ih =>
    unfold loopIndices
    rw [if_pos hw, add_zero, ih]
    rfl

theorem foldl_append_flatMap {ι ε : Type} (g : ι → List ε) :
    ∀ (l : List ι) (a : List ε), l.foldl (fun acc i => acc ++ g i) a = a ++ l.flatMap g := by
  intro l
  induction l with
  | nil => intro a; simp
  | cons x t ih => intro a; simp [List.foldl_cons, ih, List.flatMap_cons]

theorem forLoop_trace {σ ε : Type} (body : Int → σ → Option σ) (bound step : Int)
    (hstep : 1 ≤ step) (Inv : σ → Prop) (tr : σ → List ε) (g : Int → List ε)
    (hbody : ∀ i s, Inv s → ∃ s1, body i s = some s1 ∧ Inv s1 ∧ tr s1 = tr s ++ g i)
    (fuel : Nat) (i : Int) (s : σ) (hf : (bound - i).toNat < fuel) (hs : Inv s) :
    ∃ s1, forLoop body bound step fuel i s = some s1 ∧ Inv s1 ∧
      tr s1 = tr s ++ (loopIndices bound step fuel i).flatMap g := by
  rw [forLoop_eq_foldlM body bound step hstep fuel i s hf]
  obtain ⟨s1, h1, h2, h3⟩ := foldlM_invariant (fun s i => body i s) Inv tr
    (fun acc i => acc ++ g i) (fun _ => True)
    (fun i s _ hs => hbody i s hs) (loopIndices bound step fuel i) s (fun _ _ => trivial) hs
  exact ⟨s1, h1, h2, by rw [h3, foldl_append_flatMap]⟩

theorem flatMap_replicate {ι ε : Type} (c : Nat) (x : ε) (l : List ι) :
    l.flatMap (fun _ => List.replicate c x) = List.replicate (l.length * c) x := by
  induction l with
  | nil => simp
  | cons a t ih =>
    rw [List.flatMap_cons, ih, List.length_cons, Nat.succ_mul, Nat.add_comm,
      List.replicate_add]

/-! ### The resolver calls of the three kernels -/

theorem single_layer_iteration_reads (isMLA : Bool) (h T : Int) (p tm : Bool)
    (slots : Int → Int) (i : Int) (s : SingleLayerPagedKVCopy × Machine α)
    (hs : SingleLayerPagedKVCopy.Inv isMLA h T p tm slots s) :
    ∃ s1, SingleLayerPagedKVCopy.iteration isMLA i s = some s1 ∧
      SingleLayerPagedKVCopy.Inv isMLA h T p tm slots s1 ∧
      slotReadsOf s1.2.log
        = slotReadsOf s.2.log ++ List.replicate (if isMLA then 1 else 2) i := by
  obtain ⟨s1, e1, e2, -⟩ := single_layer_iteration_spec isMLA h T p tm slots i s hs
  obtain ⟨a, b, rest, -, -, s2, f1, f2, -⟩ :=
    single_layer_iteration_log isMLA h T p tm slots i s hs
  rw [e1] at f1
  obtain rfl : s1 = s2 := Option.some.inj f1
  refine ⟨s1, e1, e2, ?_⟩
  rw [f2, slotReadsOf_append]
  by_cases hslot : slots i = -1 <;> cases isMLA <;>
    simp [SingleLayerPagedKVCopy.iterLog, hslot, slotReadsOf, callLog1, callLog2, copyLog1,
      copyLog2, List.replicate]

theorem flash_iteration_reads (h T L l : Int) (p : Bool)
    (slots : Int → Int) (i : Int) (s : LoadAndReshapeFlashCopy × Machine α)
    (hs : LoadAndReshapeFlashCopy.Inv h T L l p slots s) :
    ∃ s1, LoadAndReshapeFlashCopy.iteration i s = some s1 ∧
      LoadAndReshapeFlashCopy.Inv h T L l p slots s1 ∧
      slotReadsOf s1.2.log = slotReadsOf s.2.log ++ List.replicate 1 i := by
  obtain ⟨s1, e1, e2, -⟩ := flash_iteration_spec h T L l p slots i s hs
  obtain ⟨a, b, rest, -, -, s2, f1, f2, -⟩ := flash_iteration_log h T L l p slots i s hs
  rw [e1] at f1
  obtain rfl : s1 = s2 := Option.some.inj f1
  refine ⟨s1, e1, e2, ?_⟩
  rw [f2, slotReadsOf_append]
  by_cases hslot : slots i = -1 <;>
    simp [LoadAndReshapeFlashCopy.iterLog, hslot, slotReadsOf, callLog2, copyLog2,
      List.replicate]

theorem multi_layer_iteration_reads (h L B T : Int) (p : Bool)
    (slots ptrs : Int → Int) (i kv layer : Int) (s : MultiLayerPagedKVCopy × Machine α)
    (hs : MultiLayerPagedKVCopy.Inv h L B T p slots ptrs s) :
    ∃ s1, MultiLayerPagedKVCopy.iteration i kv layer s = some s1 ∧
      MultiLayerPagedKVCopy.Inv h L B T p slots ptrs s1 ∧
      slotReadsOf s1.2.log = slotReadsOf s.2.log ++ List.replicate 1 i := by
  obtain ⟨s1, e1, e2, -⟩ := multi_layer_iteration_spec h L B T p slots ptrs i kv layer s hs
  obtain ⟨a, rest, -, s2, f1, f2, -⟩ :=
    multi_layer_iteration_log h L B T p slots ptrs i kv layer s hs
  rw [e1] at f1
  obtain rfl : s1 = s2 := Option.some.inj f1
  refine ⟨s1, e1, e2, ?_⟩
  rw [f2, slotReadsOf_append]
  by_cases hslot : slots i = -1 <;>
    simp [MultiLayerPagedKVCopy.iterLog, hslot, slotReadsOf, callLog1, copyLog1,
      List.replicate]

theorem single_layer_paged_kv_copy_reads (isMLA : Bool) (h T N : Int) (p tm : Bool)
    (fuel : Nat) (w : Int) (m : Machine α) (hN : 1 ≤ N) (hf : (T - w).toNat < fuel) :
    ∃ m1, single_layer_paged_kv_copy isMLA h T N p tm fuel w m = some m1 ∧
      slotReadsOf m1.log = slotReadsOf m.log ++
        (loopIndices T N fuel w).flatMap
          (fun i => List.replicate (if isMLA then 1 else 2) i) := by
  obtain ⟨s1, h1, -, h3⟩ := forLoop_trace (SingleLayerPagedKVCopy.iteration isMLA) T N hN
    (SingleLayerPagedKVCopy.Inv isMLA h T p tm m.slots) (fun s => slotReadsOf s.2.log)
    (fun i => List.replicate (if isMLA then 1 else 2) i)
    (fun i s hs => single_layer_iteration_reads isMLA h T p tm m.slots i s hs)
    fuel w (SingleLayerPagedKVCopy.init isMLA h T p tm m) hf
    ⟨rfl, rfl, rfl, rfl, rfl, rfl, PoolOK_initBuffer m⟩
  refine ⟨s1.2, ?_, h3⟩
  unfold single_layer_paged_kv_copy
  rw [h1]; rfl

theorem load_and_reshape_flash_copy_reads (h P S T L l : Int) (p : Bool) (N : Int)
    (fuel : Nat) (w : Int) (m : Machine α) (hN : 1 ≤ N) (hf : (T - w).toNat < fuel) :
    ∃ m1, load_and_reshape_flash_copy h P S T L l p N fuel w m = some m1 ∧
      slotReadsOf m1.log = slotReadsOf m.log ++
        (loopIndices T N fuel w).flatMap (fun i => List.replicate 1 i) := by
  obtain ⟨s1, h1, -, h3⟩ := forLoop_trace LoadAndReshapeFlashCopy.iteration T N hN
    (LoadAndReshapeFlashCopy.Inv h T L l p m.slots) (fun s => slotReadsOf s.2.log)
    (fun i => List.replicate 1 i)
    (fun i s hs => flash_iteration_reads h T L l p m.slots i s hs)
    fuel w (LoadAndReshapeFlashCopy.init P h S T L l p m) hf
    ⟨rfl, rfl, rfl, rfl, rfl, rfl, PoolOK_initBuffer m⟩
  refine ⟨s1.2, ?_, h3⟩
  unfold load_and_reshape_flash_copy
  rw [h1]; rfl

theorem multi_layer_paged_kv_copy_reads (h kvs L B T N : Int) (p : Bool)
    (fuel : Nat) (w : Int) (m : Machine α) (hN : 1 ≤ N) (hf : (T - w).toNat < fuel)
    (hkv : kvs.toNat < fuel) (hL : L.toNat < fuel) :
    ∃ m1, multi_layer_paged_kv_copy h kvs L B T N p fuel w m = some m1 ∧
      slotReadsOf m1.log = slotReadsOf m.log ++
        (loopIndices T N fuel w).flatMap
          (fun i => List.replicate (kvs.toNat * L.toNat) i) := by
  have hlenk : (loopIndices kvs 1 fuel 0).length = kvs.toNat := by
    rw [loopIndices_zero kvs fuel hkv]; simp
  have hlenl : (loopIndices L 1 fuel 0).length = L.toNat := by
    rw [loopIndices_zero L fuel hL]; simp
  obtain ⟨s1, h1, -, h3⟩ := forLoop_trace
    (fun i s =>
      forLoop
        (fun kvIdx s =>
          forLoop (fun layerIdx s => MultiLayerPagedKVCopy.iteration i kvIdx layerIdx s)
            L 1 fuel 0 s)
        kvs 1 fuel 0 s) T N hN
    (MultiLayerPagedKVCopy.Inv h L B T p m.slots m.ptrs) (fun s => slotReadsOf s.2.log)
    (fun i => List.replicate (kvs.toNat * L.toNat) i)
    (fun i s hs => by
      obtain ⟨s1, e1, e2, e3⟩ := forLoop_trace _ kvs 1 (le_refl _)
        (MultiLayerPagedKVCopy.Inv h L B T p m.slots m.ptrs)
        (fun s => slotReadsOf s.2.log) (fun _ => List.replicate L.toNat i)
        (fun kv s hs => by
          obtain ⟨s1, e1, e2, e3⟩ := forLoop_trace _ L 1 (le_refl _)
            (MultiLayerPagedKVCopy.Inv h L B T p m.slots m.ptrs)
            (fun s => slotReadsOf s.2.log) (fun _ => List.replicate 1 i)
            (fun layer s hs =>
              multi_layer_iteration_reads h L B T p m.slots m.ptrs i kv layer s hs)
            fuel 0 s (by omega) hs
          refine ⟨s1, e1, e2, ?_⟩
          show slotReadsOf s1.2.log = slotReadsOf s.2.log ++ List.replicate L.toNat i
          rw [e3, flatMap_replicate, hlenl, Nat.mul_one])
        fuel 0 s (by omega) hs
      refine ⟨s1, e1, e2, ?_⟩
      show slotReadsOf s1.2.log
        = slotReadsOf s.2.log ++ List.replicate (kvs.toNat * L.toNat) i
      rw [e3, flatMap_replicate, hlenk])
    fuel w (MultiLayerPagedKVCopy.init h L B T p m) hf
    ⟨rfl, rfl, rfl, rfl, rfl, rfl, rfl, PoolOK_initBuffer m⟩
  refine ⟨s1.2, ?_, h3⟩
  unfold multi_layer_paged_kv_copy
  rw [h1]; rfl

/-- C11 (multi-layer paged address), as amended. For a token `t` whose slot `s` is not
`-1`, every component index and every layer index, the multi-layer resolver reads the
pointer table at the layer index and sets the paged descriptor to the buffer of that
pointer, at the element offset `kvIdx*pageBuffSize*hiddenDims + s*hiddenDims`, with the
length `hiddenDims`; the offset is `s*hiddenDims` for the component `kvIdx = 0`. -/
theorem multi_layer_paged_address (op : MultiLayerPagedKVCopy) (m : Machine α)
    (t kvIdx layerIdx : Int) (hs : m.slots t ≠ -1) :
    (op.updateMemOffset m Buf.lmc t kvIdx layerIdx).1.pagedTokenGlobal
      = ⟨Buf.layer (m.ptrs layerIdx),
         kvIdx * op.pageBuffSize * op.hiddenDims + m.slots t * op.hiddenDims,
         op.hiddenDims⟩ ∧
    (op.updateMemOffset m Buf.lmc t kvIdx layerIdx).2.log
      = m.log ++ [Event.slotRead t, Event.ptrRead layerIdx] ∧
    (kvIdx = 0 →
      (op.updateMemOffset m Buf.lmc t kvIdx layerIdx).1.pagedTokenGlobal.off
        = m.slots t * op.hiddenDims) := by
  refine ⟨?_, ?_, ?_⟩
  · simp [MultiLayerPagedKVCopy.updateMemOffset, hs]
  · simp [MultiLayerPagedKVCopy.updateMemOffset, hs]
  · intro hk
    simp [MultiLayerPagedKVCopy.updateMemOffset, hs, hk]

/-- Witness of C11: token 0 of the scenario (slot 5, `hiddenDims = 4`, capacity 8): the
component 0 of layer 1 is resolved to the offset 20 of the buffer of pointer 1. -/
theorem multi_layer_paged_address_witness :
    scenario.slots 0 ≠ -1 ∧
    ((scenarioMultiOp true).updateMemOffset scenario Buf.lmc 0 0 1).1.pagedTokenGlobal
      = ⟨Buf.layer 1, 20, 4⟩ := by
  refine ⟨by decide, ?_⟩
  rw [(multi_layer_paged_address (scenarioMultiOp true) scenario 0 0 1 (by decide)).1]
  decide

/-- Counterexample to C11 as stated: for token 0 of the scenario (slot 5,
`hiddenDims = 4`, capacity 8) and the component `kvIdx = 1` the resolved paged offset is
`1*8*4 + 5*4 = 52`, not `s*hiddenDims = 20`. -/
theorem multi_layer_paged_address_counterexample :
    scenario.slots 0 ≠ -1 ∧
    ((scenarioMultiOp true).updateMemOffset scenario Buf.lmc 0 1 0).1.pagedTokenGlobal.off
      = 52 ∧
    scenario.slots 0 * (scenarioMultiOp true).hiddenDims = 20 := by
  refine ⟨by decide, by decide, by decide⟩

/-- C12 (exactly-one transfer). With `N ≥ 1` workers and enough fuel every kernel and
every launch returns, and the transfers it performs (the changes of global memory and
the global-memory reads and writes of the log, in order) are exactly these. Multi-layer:
the worker `w` performs the transfers of the triples (token, kv, layer) of
`work kvs L slots (loopIndices T N fuel w)`, one transfer per entry; a triple is in the
list of worker `w` exactly when `0 ≤ t < T`, `t mod N = w`, the slot of `t` is not `-1`,
`0 ≤ kv < kvs` and `0 ≤ layer < L`; the list of a launch is the lists of the workers one
after the other, it has no duplicates, within a token it runs through the pairs with
`kv` outside and `layer` inside, and its length is (number of tokens of `[0, T)` with
slot other than `-1`) `* kvs * L`. Single-layer and flash: the launch performs, for every
token of the schedule (which holds every token of `[0, T)` once) whose slot is not `-1`,
the K transfer and then (unless MLA) the V transfer, and nothing for the other
tokens. -/
theorem exactly_one_transfer (N : Nat) (hN : 1 ≤ N) (h T kvs L B P S l : Int)
    (isMLA tm p : Bool) (fuel : Nat) (m : Machine α) (hf : T.toNat < fuel)
    (hkv : kvs.toNat < fuel) (hL : L.toNat < fuel) :
    (∀ (w : Nat) (m0 : Machine α), w < N → m0.slots = m.slots → m0.ptrs = m.ptrs →
      ∃ m1, multi_layer_paged_kv_copy h kvs L B T N p fuel w m0 = some m1 ∧
        Performs h
          ((MultiLayerPagedKVCopy.work kvs L m.slots (loopIndices T N fuel w)).map
            (fun x => MultiLayerPagedKVCopy.xfer h L B T p m.slots m.ptrs x.1 x.2.1 x.2.2))
          m0 m1) ∧
    (∃ m1, multi_layer_paged_kernel N h kvs L B T p fuel m = some m1 ∧
      Performs h
        ((MultiLayerPagedKVCopy.work kvs L m.slots (schedule N T fuel)).map
          (fun x => MultiLayerPagedKVCopy.xfer h L B T p m.slots m.ptrs x.1 x.2.1 x.2.2))
        m m1) ∧
    MultiLayerPagedKVCopy.work kvs L m.slots (schedule N T fuel)
      = (List.range N).flatMap (fun (w : Nat) =>
          MultiLayerPagedKVCopy.work kvs L m.slots (loopIndices T N fuel w)) ∧
    (∀ (w : Nat) (t kv layer : Int), w < N →
      ((t, kv, layer) ∈ MultiLayerPagedKVCopy.work kvs L m.slots (loopIndices T N fuel w) ↔
        (0 ≤ t ∧ t < T ∧ t % (N : Int) = (w : Int)) ∧ m.slots t ≠ -1 ∧
        (0 ≤ kv ∧ kv < kvs) ∧ (0 ≤ layer ∧ layer < L))) ∧
    (MultiLayerPagedKVCopy.work kvs L m.slots (schedule N T fuel)).Nodup ∧
    (MultiLayerPagedKVCopy.work kvs L m.slots (schedule N T fuel)).length
      = validCount m.slots T * (kvs.toNat * L.toNat) ∧
    (∀ tokens : List Int, MultiLayerPagedKVCopy.work kvs L m.slots tokens
      = tokens.flatMap (fun t =>
          if m.slots t = -1 then []
          else (List.range kvs.toNat).flatMap (fun (kv : Nat) =>
            (List.range L.toNat).map (fun (layer : Nat) => (t, (kv : Int), (layer : Int)))))) ∧
    (∃ m1, single_layer_paged_kernel isMLA N h T p tm fuel m = some m1 ∧
      Performs h ((schedule N T fuel).flatMap (fun t =>
        if m.slots t = -1 then []
        else if isMLA then [SingleLayerPagedKVCopy.xfer isMLA h T p tm m.slots t 0]
        else [SingleLayerPagedKVCopy.xfer isMLA h T p tm m.slots t 0,
              SingleLayerPagedKVCopy.xfer isMLA h T p tm m.slots t 1])) m m1) ∧
    (∃ m1, load_and_reshape_kernel_call N h P S T L l p fuel m = some m1 ∧
      Performs h ((schedule N T fuel).flatMap (fun t =>
        if m.slots t = -1 then []
        else [LoadAndReshapeFlashCopy.xfer h T L l p m.slots t 0,
              LoadAndReshapeFlashCopy.xfer h T L l p m.slots t 1])) m m1) ∧
    (schedule N T fuel).Nodup ∧
    (∀ t, t ∈ schedule N T fuel ↔ 0 ≤ t ∧ t < T) := by
  have hN1 : (1 : Int) ≤ (N : Int) := by exact_mod_cast hN
  refine ⟨?_, ?_, ?_, ?_, ?_, ?_, ?_, ?_, ?_, schedule_nodup N hN T fuel hf,
    mem_schedule N hN T fuel hf⟩
  · intro w m0 hw hs hp
    obtain ⟨m1, e1, e2⟩ := multi_layer_paged_kv_copy_performs h kvs L B T N p fuel w m0
      hN1 (by omega) hkv hL
    rw [hs, hp, multi_layer_work_map h kvs L B T p m.slots m.ptrs fuel hkv hL] at e2
    exact ⟨m1, e1, e2⟩
  · obtain ⟨m1, e1, e2⟩ := multi_layer_paged_kernel_performs N h kvs L B T p fuel m hf hkv hL
    rw [multi_layer_work_map h kvs L B T p m.slots m.ptrs fuel hkv hL] at e2
    exact ⟨m1, e1, e2⟩
  · unfold MultiLayerPagedKVCopy.work schedule
    rw [List.flatMap_assoc]
  · intro w t kv layer hw
    rw [mem_work, mem_loopIndices_worker T N fuel hf w hw t]
  · exact work_nodup kvs L m.slots _ (schedule_nodup N hN T fuel hf)
  · rw [work_length, filter_schedule_length N hN T fuel hf]
  · intro tokens
    unfold MultiLayerPagedKVCopy.work MultiLayerPagedKVCopy.pairs
    congr 1
    funext t
    by_cases hs : m.slots t = -1
    · simp [hs]
    · simp [hs, List.map_flatMap, List.map_map, Function.comp]
      rfl
  · obtain ⟨m1, e1, e2⟩ := single_layer_paged_kernel_performs isMLA N h T p tm fuel m hf
    refine ⟨m1, e1, ?_⟩
    have e : SingleLayerPagedKVCopy.xfers isMLA h T p tm m.slots = (fun t =>
        if m.slots t = -1 then []
        else if isMLA then [SingleLayerPagedKVCopy.xfer isMLA h T p tm m.slots t 0]
        else [SingleLayerPagedKVCopy.xfer isMLA h T p tm m.slots t 0,
              SingleLayerPagedKVCopy.xfer isMLA h T p tm m.slots t 1]) := by
      funext t
      unfold SingleLayerPagedKVCopy.xfers SingleLayerPagedKVCopy.xfer
      simp
    rw [← e]
    exact e2
  · obtain ⟨m1, e1, e2⟩ := load_and_reshape_kernel_call_performs N h P S T L l p fuel m hf
    refine ⟨m1, e1, ?_⟩
    have e : LoadAndReshapeFlashCopy.xfers h T L l p m.slots = (fun t =>
        if m.slots t = -1 then []
        else [LoadAndReshapeFlashCopy.xfer h T L l p m.slots t 0,
              LoadAndReshapeFlashCopy.xfer h T L l p m.slots t 1]) := by
      funext t
      unfold LoadAndReshapeFlashCopy.xfers LoadAndReshapeFlashCopy.xfer
      simp
    rw [← e]
    exact e2

/-- Witness of C12: the multi-layer kernel on two workers for the scenario (two tokens,
token 1 skipped, two components, two layers): the launch performs the four transfers of
token 0, all by worker 0, in the order (kv, layer) = (0,0), (0,1), (1,0), (1,1). -/
theorem exactly_one_transfer_witness :
    ((1 : Nat) ≤ 2 ∧ (2 : Int).toNat < 3) ∧
    MultiLayerPagedKVCopy.work 2 2 scenario.slots (schedule 2 2 3)
      = [(0, 0, 0), (0, 0, 1), (0, 1, 0), (0, 1, 1)] ∧
    MultiLayerPagedKVCopy.work 2 2 scenario.slots (loopIndices 2 2 3 1) = [] ∧
    validCount scenario.slots 2 = 1 ∧
    (MultiLayerPagedKVCopy.work 2 2 scenario.slots (schedule 2 2 3)).length
      = validCount scenario.slots 2 * ((2 : Int).toNat * (2 : Int).toNat) ∧
    ∃ m1, multi_layer_paged_kernel 2 4 2 2 8 2 true 3 scenario = some m1 ∧
      Performs 4
        ((MultiLayerPagedKVCopy.work 2 2 scenario.slots (schedule 2 2 3)).map
          (fun x => MultiLayerPagedKVCopy.xfer 4 2 8 2 true scenario.slots scenario.ptrs
            x.1 x.2.1 x.2.2))
        scenario m1 := by
  have hthm := exactly_one_transfer 2 (by decide) 4 2 2 2 8 8 4 1 false true true 3
    scenario (by decide) (by decide) (by decide)
  exact ⟨⟨by decide, by decide⟩, by decide, by decide, by decide, hthm.2.2.2.2.2.1,
    hthm.2.1⟩

/-- C13 (direction frame). In all three variants the descriptors and the validity flag
a resolver sets do not depend on `page2L`, and an iteration of a kernel loop leaves
`page2L` as it was. A launch returns; with `page2L = true` it changes no paged buffer,
every global-memory read it performs addresses a paged buffer and every write the
contiguous buffer; with `page2L = false` it does not change the contiguous buffer, every
read addresses the contiguous buffer and every write a paged buffer; in both directions
the slot table (and the pointer table) is as before. -/
theorem direction_frame (N : Nat) (h T kvs L B P S l : Int) (isMLA tm p : Bool)
    (fuel : Nat) (m : Machine α) (hf : T.toNat < fuel) (hkv : kvs.toNat < fuel)
    (hL : L.toNat < fuel) :
    (∃ m1, single_layer_paged_kernel isMLA N h T p tm fuel m = some m1 ∧
      OnlyMoves p m m1) ∧
    (∃ m1, load_and_reshape_kernel_call N h P S T L l p fuel m = some m1 ∧
      OnlyMoves p m m1) ∧
    (∃ m1, multi_layer_paged_kernel N h kvs L B T p fuel m = some m1 ∧
      OnlyMoves p m m1) ∧
    (∀ (q : Bool) (X Y Z : Buf) (t k j : Int),
      (∀ op : SingleLayerPagedKVCopy,
        ({ op with page2L := q }).updateTensorMemOffsetAndProcess m X Y t k
          = ({ (op.updateTensorMemOffsetAndProcess m X Y t k).1 with page2L := q },
             (op.updateTensorMemOffsetAndProcess m X Y t k).2)) ∧
      (∀ op : LoadAndReshapeFlashCopy,
        ({ op with page2L := q }).updateTensorMemOffsetAndProcess m X Y Z t
          = ({ (op.updateTensorMemOffsetAndProcess m X Y Z t).1 with page2L := q },
             (op.updateTensorMemOffsetAndProcess m X Y Z t).2)) ∧
      (∀ op : MultiLayerPagedKVCopy,
        ({ op with page2L := q }).updateMemOffset m X t k j
          = ({ (op.updateMemOffset m X t k j).1 with page2L := q },
             (op.updateMemOffset m X t k j).2))) ∧
    (∀ (t k j : Int),
      (∀ (s s1 : SingleLayerPagedKVCopy × Machine α),
        SingleLayerPagedKVCopy.iteration isMLA t s = some s1 → s1.1.page2L = s.1.page2L) ∧
      (∀ (s s1 : LoadAndReshapeFlashCopy × Machine α),
        LoadAndReshapeFlashCopy.iteration t s = some s1 → s1.1.page2L = s.1.page2L) ∧
      (∀ (s s1 : MultiLayerPagedKVCopy × Machine α),
        MultiLayerPagedKVCopy.iteration t k j s = some s1 → s1.1.page2L = s.1.page2L)) := by
  refine ⟨?_, ?_, ?_, ?_, ?_⟩
  · obtain ⟨m1, e1, e2⟩ := single_layer_paged_kernel_performs isMLA N h T p tm fuel m hf
    refine ⟨m1, e1, OnlyMoves_of_performs p h _ m m1 e2 ?_⟩
    intro x hx
    obtain ⟨t, k, -, -, -, rfl⟩ := single_layer_mem_launch _ _ _ _ _ _ _ _ _ hx
    unfold SingleLayerPagedKVCopy.xfer
    by_cases hk : k = 0
    · simp only [hk, if_true]
      exact mkXfer_sides p Buf.key (by decide) _ _ _
    · simp only [hk, if_false]
      exact mkXfer_sides p Buf.value (by decide) _ _ _
  · obtain ⟨m1, e1, e2⟩ := load_and_reshape_kernel_call_performs N h P S T L l p fuel m hf
    refine ⟨m1, e1, OnlyMoves_of_performs p h _ m m1 e2 ?_⟩
    intro x hx
    obtain ⟨t, hts, hxt⟩ := List.mem_flatMap.mp hx
    unfold LoadAndReshapeFlashCopy.xfers at hxt
    by_cases hs : m.slots t = -1
    · simp [hs] at hxt
    · simp only [hs, if_false, List.mem_cons, List.mem_singleton, List.not_mem_nil,
        or_false] at hxt
      rcases hxt with rfl | rfl
      · exact mkXfer_sides p Buf.key (by decide) _ _ _
      · exact mkXfer_sides p Buf.value (by decide) _ _ _
  · obtain ⟨m1, e1, e2⟩ :=
      multi_layer_paged_kernel_performs N h kvs L B T p fuel m hf hkv hL
    refine ⟨m1, e1, OnlyMoves_of_performs p h _ m m1 e2 ?_⟩
    intro x hx
    obtain ⟨t, hts, hxt⟩ := List.mem_flatMap.mp hx
    unfold MultiLayerPagedKVCopy.xfers at hxt
    obtain ⟨kv, -, hxk⟩ := List.mem_flatMap.mp hxt
    obtain ⟨layer, -, hxl⟩ := List.mem_flatMap.mp hxk
    unfold MultiLayerPagedKVCopy.xfer1 at hxl
    by_cases hs : m.slots t = -1
    · simp [hs] at hxl
    · simp only [hs, if_false, List.mem_singleton] at hxl
      subst hxl
      exact mkXfer_sides p (Buf.layer _) (by simp) _ _ _
  · intro q X Y Z t k j
    refine ⟨?_, ?_, ?_⟩
    · intro op
      by_cases hs : m.slots t = -1 <;> by_cases hk : k = 0 <;>
        simp [SingleLayerPagedKVCopy.updateTensorMemOffsetAndProcess, hs, hk]
    · intro op
      by_cases hs : m.slots t = -1 <;>
        simp [LoadAndReshapeFlashCopy.updateTensorMemOffsetAndProcess, hs]
    · intro op
      by_cases hs : m.slots t = -1 <;>
        simp [MultiLayerPagedKVCopy.updateMemOffset, hs]
  · intro t k j
    refine ⟨?_, ?_, ?_⟩
    · intro s s1 hs1
      unfold SingleLayerPagedKVCopy.iteration at hs1
      simp only [Option.map_eq_some'] at hs1
      obtain ⟨m1, -, rfl⟩ := hs1
      by_cases hs : s.2.slots t = -1 <;> cases isMLA <;>
        simp [SingleLayerPagedKVCopy.updateTensorMemOffsetAndProcess,
          SingleLayerPagedKVCopy.reset, hs]
    · intro s s1 hs1
      unfold LoadAndReshapeFlashCopy.iteration at hs1
      simp only [Option.map_eq_some'] at hs1
      obtain ⟨m1, -, rfl⟩ := hs1
      by_cases hs : s.2.slots t = -1 <;>
        simp [LoadAndReshapeFlashCopy.updateTensorMemOffsetAndProcess,
          LoadAndReshapeFlashCopy.reset, hs]
    · intro s s1 hs1
      unfold MultiLayerPagedKVCopy.iteration at hs1
      simp only [Option.map_eq_some'] at hs1
      obtain ⟨m1, -, rfl⟩ := hs1
      by_cases hs : s.2.slots t = -1 <;>
        simp [MultiLayerPagedKVCopy.updateMemOffset, MultiLayerPagedKVCopy.reset, hs]

/-- Witness of C13: the multi-layer kernel launched on two workers for the scenario in
the direction `page2L = true` returns, reads only paged buffers and writes only the
contiguous buffer. -/
theorem direction_frame_witness :
    ((2 : Int).toNat < 3 ∧ (2 : Int).toNat < 3 ∧ (2 : Int).toNat < 3) ∧
    ∃ m1, multi_layer_paged_kernel 2 4 2 2 8 2 true 3 scenario = some m1 ∧
      OnlyMoves true scenario m1 :=
  ⟨⟨by decide, by decide, by decide⟩,
   (direction_frame 2 4 2 2 2 8 8 4 1 false true true 3 scenario (by decide) (by decide)
     (by decide)).2.2.1⟩

/-- C15 (addresses are recomputed per token). In every kernel loop the machine an
iteration leaves does not depend on the validity flag and the descriptors the object
carries from earlier iterations (replacing them by arbitrary values changes nothing).
From a state of the loop the iteration for the token `i` returns; when the slot of `i`
is `-1` it performs no transfer (global memory and the global-memory reads and writes
of the log are as before); otherwise the object it leaves is the one the resolver
calls of this iteration produce for `i` (and `kv`, `layer`), and the global-memory
reads and writes the log gains are exactly the source and destination descriptors of
that object. -/
theorem descriptors_recomputed (h T L B l : Int) (p tm : Bool) (slots ptrs : Int → Int)
    (i kv layer : Int) (v : Bool) (g1 g2 g3 g4 : GlobalTensor) :
    (∀ (isMLA : Bool) (s : SingleLayerPagedKVCopy × Machine α),
      (SingleLayerPagedKVCopy.iteration isMLA i
          ({ s.1 with valid := v, keyTokensGlobal := g1, valueTokensGlobal := g2,
                      lmcBufferKeyGlobal := g3, lmcBufferValueGlobal := g4 }, s.2)).map
          Prod.snd
        = (SingleLayerPagedKVCopy.iteration isMLA i s).map Prod.snd ∧
      (SingleLayerPagedKVCopy.Inv isMLA h T p tm slots s →
        ∃ s1, SingleLayerPagedKVCopy.iteration isMLA i s = some s1 ∧
          (slots i = -1 → Performs h [] s.2 s1.2) ∧
          (slots i ≠ -1 →
            s1.1 = SingleLayerPagedKVCopy.resolve isMLA s.1 s.2 i ∧
            readsOf s1.2.log = readsOf s.2.log ++
              SingleLayerPagedKVCopy.sources isMLA
                (SingleLayerPagedKVCopy.resolve isMLA s.1 s.2 i) ∧
            writesOf s1.2.log = writesOf s.2.log ++
              SingleLayerPagedKVCopy.dests isMLA
                (SingleLayerPagedKVCopy.resolve isMLA s.1 s.2 i)))) ∧
    (∀ (s : LoadAndReshapeFlashCopy × Machine α),
      (LoadAndReshapeFlashCopy.iteration i
          ({ s.1 with valid := v, keyTokensGlobal := g1, valueTokensGlobal := g2,
                      lmcBufferKeyGlobal := g3, lmcBufferValueGlobal := g4 }, s.2)).map
          Prod.snd
        = (LoadAndReshapeFlashCopy.iteration i s).map Prod.snd ∧
      (LoadAndReshapeFlashCopy.Inv h T L l p slots s →
        ∃ s1, LoadAndReshapeFlashCopy.iteration i s = some s1 ∧
          (slots i = -1 → Performs h [] s.2 s1.2) ∧
          (slots i ≠ -1 →
            s1.1 = LoadAndReshapeFlashCopy.resolve s.1 s.2 i ∧
            readsOf s1.2.log = readsOf s.2.log ++
              (LoadAndReshapeFlashCopy.resolve s.1 s.2 i).sources ∧
            writesOf s1.2.log = writesOf s.2.log ++
              (LoadAndReshapeFlashCopy.resolve s.1 s.2 i).dests))) ∧
    (∀ (s : MultiLayerPagedKVCopy × Machine α),
      (MultiLayerPagedKVCopy.iteration i kv layer
          ({ s.1 with valid := v, pagedTokenGlobal := g1, lmcBufferGlobal := g2 },
           s.2)).map Prod.snd
        = (MultiLayerPagedKVCopy.iteration i kv layer s).map Prod.snd ∧
      (MultiLayerPagedKVCopy.Inv h L B T p slots ptrs s →
        ∃ s1, MultiLayerPagedKVCopy.iteration i kv layer s = some s1 ∧
          (slots i = -1 → Performs h [] s.2 s1.2) ∧
          (slots i ≠ -1 →
            s1.1 = MultiLayerPagedKVCopy.resolve s.1 s.2 i kv layer ∧
            readsOf s1.2.log = readsOf s.2.log ++
              (MultiLayerPagedKVCopy.resolve s.1 s.2 i kv layer).sources ∧
            writesOf s1.2.log = writesOf s.2.log ++
              (MultiLayerPagedKVCopy.resolve s.1 s.2 i kv layer).dests))) := by
  refine ⟨?_, ?_, ?_⟩
  · intro isMLA s
    refine ⟨?_, ?_⟩
    · by_cases hs : s.2.slots i = -1 <;> cases isMLA <;>
        simp [SingleLayerPagedKVCopy.iteration, SingleLayerPagedKVCopy.reset,
          SingleLayerPagedKVCopy.updateTensorMemOffsetAndProcess,
          SingleLayerPagedKVCopy.processFunc, hs]
    · intro hs
      obtain ⟨s1, e1, e2, e3⟩ := single_layer_iteration_performs isMLA h T p tm slots i s hs
      obtain ⟨h1, h2, h3, h4, h5, h6, -⟩ := hs
      refine ⟨s1, e1, ?_, ?_⟩
      · intro hslot
        simpa [SingleLayerPagedKVCopy.xfers, hslot] using e3
      · intro hslot
        have hslot2 : s.2.slots i ≠ -1 := by rw [h6]; exact hslot
        have hk := single_layer_resolve_key isMLA s.1 s.2 i hslot2
        have hR : s1.1 = SingleLayerPagedKVCopy.resolve isMLA s.1 s.2 i := by
          unfold SingleLayerPagedKVCopy.iteration at e1
          simp only [Option.map_eq_some'] at e1
          obtain ⟨m1, -, rfl⟩ := e1
          cases isMLA <;> rfl
        have hp : (SingleLayerPagedKVCopy.resolve isMLA s.1 s.2 i).page2L = p := by
          rw [← hR]; exact e2.2.2.2.1
        refine ⟨hR, ?_, ?_⟩
        · rw [e3.2.1]
          congr 1
          cases isMLA
          · have hv := single_layer_resolve_value s.1 s.2 i hslot2
            cases p <;>
              simp [SingleLayerPagedKVCopy.xfers, SingleLayerPagedKVCopy.sources, hslot,
                hp, hk.1, hk.2, hv.1, hv.2, mkXfer, Xfer.src, h1, h2, h3, h5, h6,
                SingleLayerPagedKVCopy.lmcOff]
          · cases p <;>
              simp [SingleLayerPagedKVCopy.xfers, SingleLayerPagedKVCopy.sources, hslot,
                hp, hk.1, hk.2, mkXfer, Xfer.src, h1, h2, h3, h5, h6,
                SingleLayerPagedKVCopy.lmcOff]
        · rw [e3.2.2.1]
          congr 1
          cases isMLA
          · have hv := single_layer_resolve_value s.1 s.2 i hslot2
            cases p <;>
              simp [SingleLayerPagedKVCopy.xfers, SingleLayerPagedKVCopy.dests, hslot,
                hp, hk.1, hk.2, hv.1, hv.2, mkXfer, Xfer.dst, h1, h2, h3, h5, h6,
                SingleLayerPagedKVCopy.lmcOff]
          · cases p <;>
              simp [SingleLayerPagedKVCopy.xfers, SingleLayerPagedKVCopy.dests, hslot,
                hp, hk.1, hk.2, mkXfer, Xfer.dst, h1, h2, h3, h5, h6,
                SingleLayerPagedKVCopy.lmcOff]
  · intro s
    refine ⟨?_, ?_⟩
    · by_cases hs : s.2.slots i = -1 <;>
        simp [LoadAndReshapeFlashCopy.iteration, LoadAndReshapeFlashCopy.reset,
          LoadAndReshapeFlashCopy.updateTensorMemOffsetAndProcess,
          LoadAndReshapeFlashCopy.processFunc, hs]
    · intro hs
      obtain ⟨s1, e1, e2, e3⟩ := flash_iteration_performs h T L l p slots i s hs
      obtain ⟨h1, h2, h3, h4, h5, h6, -⟩ := hs
      refine ⟨s1, e1, ?_, ?_⟩
      · intro hslot
        simpa [LoadAndReshapeFlashCopy.xfers, hslot] using e3
      · intro hslot
        have hslot2 : s.2.slots i ≠ -1 := by rw [h6]; exact hslot
        obtain ⟨k1, k2, k3, k4⟩ := flash_resolve_spec s.1 s.2 i hslot2
        have hR : s1.1 = LoadAndReshapeFlashCopy.resolve s.1 s.2 i := by
          unfold LoadAndReshapeFlashCopy.iteration at e1
          simp only [Option.map_eq_some'] at e1
          obtain ⟨m1, -, rfl⟩ := e1
          rfl
        have hp : (LoadAndReshapeFlashCopy.resolve s.1 s.2 i).page2L = p := by
          rw [← hR]; exact e2.2.2.2.2.1
        refine ⟨hR, ?_, ?_⟩
        · rw [e3.2.1]
          congr 1
          cases p <;>
            simp [LoadAndReshapeFlashCopy.xfers, LoadAndReshapeFlashCopy.sources, hslot,
              hp, k1, k2, k3, k4, mkXfer, Xfer.src, h1, h2, h3, h4, h6]
        · rw [e3.2.2.1]
          congr 1
          cases p <;>
            simp [LoadAndReshapeFlashCopy.xfers, LoadAndReshapeFlashCopy.dests, hslot,
              hp, k1, k2, k3, k4, mkXfer, Xfer.dst, h1, h2, h3, h4, h6]
  · intro s
    refine ⟨?_, ?_⟩
    · by_cases hs : s.2.slots i = -1 <;>
        simp [MultiLayerPagedKVCopy.iteration, MultiLayerPagedKVCopy.reset,
          MultiLayerPagedKVCopy.updateMemOffset, MultiLayerPagedKVCopy.processFunc, hs]
    · intro hs
      obtain ⟨s1, e1, e2, e3⟩ :=
        multi_layer_iteration_performs h L B T p slots ptrs i kv layer s hs
      obtain ⟨h1, h2, h3, h4, h5, h6, h7, -⟩ := hs
      refine ⟨s1, e1, ?_, ?_⟩
      · intro hslot
        simpa [MultiLayerPagedKVCopy.xfer1, hslot] using e3
      · intro hslot
        have hslot2 : s.2.slots i ≠ -1 := by rw [h6]; exact hslot
        obtain ⟨k1, k2⟩ := multi_layer_resolve_spec s.1 s.2 i kv layer hslot2
        have hR : s1.1 = MultiLayerPagedKVCopy.resolve s.1 s.2 i kv layer := by
          unfold MultiLayerPagedKVCopy.iteration at e1
          simp only [Option.map_eq_some'] at e1
          obtain ⟨m1, -, rfl⟩ := e1
          rfl
        have hp : (MultiLayerPagedKVCopy.resolve s.1 s.2 i kv layer).page2L = p := by
          rw [← hR]; exact e2.2.2.2.2.1
        refine ⟨hR, ?_, ?_⟩
        · rw [e3.2.1]
          congr 1
          cases p <;>
            simp [MultiLayerPagedKVCopy.xfer1, MultiLayerPagedKVCopy.sources, hslot,
              hp, k1, k2, mkXfer, Xfer.src, h1, h2, h3, h4, h6, h7]
        · rw [e3.2.2.1]
          congr 1
          cases p <;>
            simp [MultiLayerPagedKVCopy.xfer1, MultiLayerPagedKVCopy.dests, hslot,
              hp, k1, k2, mkXfer, Xfer.dst, h1, h2, h3, h4, h6, h7]

/-- Witness of C15: a state of the single-layer loop on the scenario whose object
carries a stale validity flag and stale descriptors of another token; the iteration for
the skipped token 1 performs no transfer, and the iteration for token 0 leaves the same
machine as from the fresh object. -/
theorem descriptors_recomputed_witness :
    SingleLayerPagedKVCopy.Inv false 4 2 true true scenario.slots
      ({ scenarioOp false true true with
           valid := false, keyTokensGlobal := ⟨Buf.key, 28, 4⟩ },
       InitBuffer scenario 4) ∧
    (∃ s1, SingleLayerPagedKVCopy.iteration false 1
        ({ scenarioOp false true true with
             valid := false, keyTokensGlobal := ⟨Buf.key, 28, 4⟩ },
         InitBuffer scenario 4) = some s1 ∧
      s1.2.gm = (InitBuffer scenario 4).gm) ∧
    (SingleLayerPagedKVCopy.iteration false 0
        ({ scenarioOp false true true with
             valid := false, keyTokensGlobal := ⟨Buf.key, 28, 4⟩,
             valueTokensGlobal := GlobalTensor.empty,
             lmcBufferKeyGlobal := GlobalTensor.empty,
             lmcBufferValueGlobal := GlobalTensor.empty },
         InitBuffer scenario 4)).map Prod.snd
      = (SingleLayerPagedKVCopy.iteration false 0
          (scenarioOp false true true, InitBuffer scenario 4)).map Prod.snd := by
  have hinv : SingleLayerPagedKVCopy.Inv false 4 2 true true scenario.slots
      ({ scenarioOp false true true with
           valid := false, keyTokensGlobal := ⟨Buf.key, 28, 4⟩ },
       InitBuffer scenario 4) :=
    ⟨rfl, rfl, rfl, rfl, rfl, rfl, PoolOK_initBuffer scenario⟩
  refine ⟨hinv, ?_, ?_⟩
  · obtain ⟨s1, h1, h2, -⟩ :=
      ((descriptors_recomputed 4 2 0 0 0 true true scenario.slots scenario.ptrs 1 0 0
        false GlobalTensor.empty GlobalTensor.empty GlobalTensor.empty
        GlobalTensor.empty).1 false _).2 hinv
    exact ⟨s1, h1, (h2 (by decide)).1⟩
  · exact ((descriptors_recomputed 4 2 0 0 0 true true scenario.slots scenario.ptrs 0 0 0
      false ⟨Buf.key, 28, 4⟩ GlobalTensor.empty GlobalTensor.empty
      GlobalTensor.empty).1 false (scenarioOp false true true, InitBuffer scenario 4)).1

/-- C16 (MLA shape). With `isMLA = true` the single-layer dispatcher launches the
`IsMLA = true` instance of the slot width. In that instance one iteration of the kernel
loop for the token `i` reads the slot table once and, when the slot `s` is not `-1`,
acquires the one scratch buffer `a` and moves one vector between the key cache at
`s*hiddenDims` and the contiguous buffer at `i*hiddenDims` (for both values of
`tokenMajor`), in the direction of `page2L`; it performs no other event. Over a whole
launch the value cache is not changed and no global-memory read or write of the launch
addresses it. -/
theorem mla_shape (t : ScalarT) (slotType : AscendType) (N : Nat) (h T : Int)
    (p tm : Bool) (fuel : Nat) (host : Host α) :
    dispatch_single_layer_kernel_on_slot_type t slotType N h T p tm true fuel host
      = (match slotWidth slotType with
         | some s => single_layer_paged_kernel_inst t s true N h T p tm fuel host
         | none => some host) ∧
    (∀ (slots : Int → Int) (i : Int) (s : SingleLayerPagedKVCopy × Machine α),
      SingleLayerPagedKVCopy.Inv true h T p tm slots s →
      ∃ a rest, s.2.pool = a :: rest ∧
        ∃ s1, SingleLayerPagedKVCopy.iteration true i s = some s1 ∧
          s1.2.log = s.2.log ++ Event.slotRead i ::
            (if slots i = -1 then []
             else copyLog1 h a
               (if p then ⟨Buf.key, slots i * h, h⟩ else ⟨Buf.lmc, i * h, h⟩)
               (if p then ⟨Buf.lmc, i * h, h⟩ else ⟨Buf.key, slots i * h, h⟩)) ∧
          s1.2.gm = (if slots i = -1 then s.2.gm
             else applyXfer h s.2.gm
               (mkXfer p ⟨Buf.key, slots i * h, h⟩ ⟨Buf.lmc, i * h, h⟩))) ∧
    (T.toNat < fuel →
      ∃ m1, single_layer_paged_kernel true N h T p tm fuel host.machine = some m1 ∧
        m1.gm Buf.value = host.machine.gm Buf.value ∧
        ∃ rs ws, readsOf m1.log = readsOf host.machine.log ++ rs ∧
          writesOf m1.log = writesOf host.machine.log ++ ws ∧
          ∀ g, g ∈ rs ++ ws → g.buf = Buf.key ∨ g.buf = Buf.lmc) := by
  refine ⟨?_, ?_, ?_⟩
  · cases slotType <;>
      simp [dispatch_single_layer_kernel_on_slot_type, slotWidth]
  · intro slots i s hs
    obtain ⟨a, b, rest, hpool, -, s1, e1, e2, -⟩ :=
      single_layer_iteration_log true h T p tm slots i s hs
    obtain ⟨s2, f1, -, f3⟩ := single_layer_iteration_spec true h T p tm slots i s hs
    rw [e1] at f1
    obtain rfl : s1 = s2 := Option.some.inj f1
    have hoff : SingleLayerPagedKVCopy.lmcOff true h T tm i 0 = i * h := by
      cases tm <;> simp [SingleLayerPagedKVCopy.lmcOff]
    refine ⟨a, b :: rest, hpool, s1, e1, ?_, ?_⟩
    · rw [e2]
      by_cases hslot : slots i = -1
      · simp [SingleLayerPagedKVCopy.iterLog, hslot]
      · cases p <;>
          simp [SingleLayerPagedKVCopy.iterLog, hslot, callLog1,
            SingleLayerPagedKVCopy.xfer, hoff, mkXfer, Xfer.src, Xfer.dst]
    · rw [f3]
      by_cases hslot : slots i = -1
      · simp [SingleLayerPagedKVCopy.xfers, hslot]
      · simp [SingleLayerPagedKVCopy.xfers, hslot, hoff]
  · intro hf
    obtain ⟨m1, e1, e2, e3, e4, -, -⟩ :=
      single_layer_paged_kernel_performs true N h T p tm fuel host.machine hf
    have hmem : ∀ x ∈ (schedule N T fuel).flatMap
        (SingleLayerPagedKVCopy.xfers true h T p tm host.machine.slots),
        (x.sb = Buf.key ∨ x.sb = Buf.lmc) ∧ (x.db = Buf.key ∨ x.db = Buf.lmc) := by
      intro x hx
      obtain ⟨t, k, -, -, hk, rfl⟩ := single_layer_mem_launch _ _ _ _ _ _ _ _ _ hx
      have hk0 : k = 0 := by
        rcases hk with hk | ⟨hk, -⟩
        · exact hk
        · exact absurd hk (by decide)
      subst hk0
      cases p <;> simp [SingleLayerPagedKVCopy.xfer, mkXfer]
    refine ⟨m1, e1, ?_, _, _, e3, e4, ?_⟩
    · rw [e2]
      apply foldl_applyXfer_buf
      intro x hx hv
      rcases (hmem x hx).2 with hh | hh <;> rw [hh] at hv <;> exact absurd hv (by decide)
    · intro g hg
      rcases List.mem_append.mp hg with hg | hg
      · obtain ⟨x, hx, rfl⟩ := List.mem_map.mp hg
        exact (hmem x hx).1
      · obtain ⟨x, hx, rfl⟩ := List.mem_map.mp hg
        exact (hmem x hx).2

/-- Witness of C16: the MLA instance launched on one worker for the two tokens of the
scenario (token 0 in slot 5, token 1 skipped, `hiddenDims = 4`) returns with the value
cache as it was, and its log is: slot read of token 0, the six events of one vector
from the key cache at 20 to the contiguous buffer at 0, slot read of token 1. -/
theorem mla_shape_witness :
    (2 : Int).toNat < 3 ∧
    (∃ m1, single_layer_paged_kernel true 1 4 2 true false 3 scenario = some m1 ∧
      m1.gm Buf.value = scenario.gm Buf.value) ∧
    (single_layer_paged_kernel true 1 4 2 true false 3 scenario).map (fun m => m.log)
      = some [Event.slotRead 0, Event.alloc 0, Event.gmRead ⟨Buf.key, 20, 4⟩ 4,
          Event.enque 0, Event.deque 0, Event.gmWrite ⟨Buf.lmc, 0, 4⟩ 4, Event.release 0,
          Event.slotRead 1] := by
  refine ⟨by decide, ?_, by decide⟩
  obtain ⟨m1, h1, h2, -⟩ :=
    (mla_shape ScalarT.half AscendType.INT32 1 4 2 true false 3
      (⟨[], scenario⟩ : Host Int)).2.2 (by decide)
  exact ⟨m1, h1, h2⟩

/-- C18 (scratch-pool discipline). With the queue modelled as a pool and a FIFO ready
list: every kernel starts with nothing held (`init` leaves the four buffers in the pool
and nothing published) and the resolvers do not touch the queue; a call of `processFunc`
on an invalid object does nothing; a call on a valid object made with nothing held
returns with nothing held again. With `a`, `b` the first two buffers of the pool, the
events of a two-component call (single-layer without MLA, flash) are: acquire `a`,
acquire `b`, read K, read V, publish `a`, publish `b`, consume `a`, consume `b`, write K,
write V, release `a`, release `b`; the number of buffers held after each event is
`1,2,2,2,2,2,2,2,2,2,1,0`; the V destination holds the V source data and the K
destination holds the K source data (where the V destination does not cover it). The
events of a one-component call (MLA, multi-layer) are acquire, read, publish, consume,
write, release of the buffer `a`, with `1,1,1,1,1,0` buffers held. -/
theorem scratch_pool_discipline (m : Machine α) (hm : PoolRest m) :
    ∃ a b : Nat, a ≠ b ∧ m.pool.take 2 = [a, b] ∧
      (∀ op : SingleLayerPagedKVCopy,
        (op.valid = false → ∀ isMLA, op.processFunc isMLA m = some m) ∧
        (op.valid = true →
          (∃ m1, op.processFunc false m = some m1 ∧ PoolRest m1 ∧
            TwoVectorCall op.hiddenDims a b
              (if op.page2L then op.keyTokensGlobal else op.lmcBufferKeyGlobal)
              (if op.page2L then op.valueTokensGlobal else op.lmcBufferValueGlobal)
              (if op.page2L then op.lmcBufferKeyGlobal else op.keyTokensGlobal)
              (if op.page2L then op.lmcBufferValueGlobal else op.valueTokensGlobal)
              m m1) ∧
          (∃ m1, op.processFunc true m = some m1 ∧ PoolRest m1 ∧
            OneVectorCall op.hiddenDims a
              (if op.page2L then op.keyTokensGlobal else op.lmcBufferKeyGlobal)
              (if op.page2L then op.lmcBufferKeyGlobal else op.keyTokensGlobal)
              m m1))) ∧
      (∀ op : LoadAndReshapeFlashCopy,
        (op.valid = false → op.processFunc m = some m) ∧
        (op.valid = true →
          ∃ m1, op.processFunc m = some m1 ∧ PoolRest m1 ∧
            TwoVectorCall op.hiddenDims a b
              (if op.page2L then op.keyTokensGlobal else op.lmcBufferKeyGlobal)
              (if op.page2L then op.valueTokensGlobal else op.lmcBufferValueGlobal)
              (if op.page2L then op.lmcBufferKeyGlobal else op.keyTokensGlobal)
              (if op.page2L then op.lmcBufferValueGlobal else op.valueTokensGlobal)
              m m1)) ∧
      (∀ op : MultiLayerPagedKVCopy,
        (op.valid = false → op.processFunc m = some m) ∧
        (op.valid = true →
          ∃ m1, op.processFunc m = some m1 ∧ PoolRest m1 ∧
            OneVectorCall op.hiddenDims a
              (if op.page2L then op.pagedTokenGlobal else op.lmcBufferGlobal)
              (if op.page2L then op.lmcBufferGlobal else op.pagedTokenGlobal)
              m m1)) ∧
      (∀ (n : Int) (ks vs kd vd : GlobalTensor),
        heldTrace 0 (copyLog1 n a ks kd) = [1, 1, 1, 1, 1, 0] ∧
        heldTrace 0 (copyLog2 n a b ks vs kd vd) = [1, 2, 2, 2, 2, 2, 2, 2, 2, 2, 1, 0]) ∧
      (∀ (m0 : Machine α) (isMLA p tm : Bool) (h T B L l P S : Int),
        PoolRest (SingleLayerPagedKVCopy.init isMLA h T p tm m0).2 ∧
        PoolRest (LoadAndReshapeFlashCopy.init P h S T L l p m0).2 ∧
        PoolRest (MultiLayerPagedKVCopy.init h L B T p m0).2) ∧
      (∀ (o1 : SingleLayerPagedKVCopy) (o2 : LoadAndReshapeFlashCopy)
          (o3 : MultiLayerPagedKVCopy) (P V Q : Buf) (t k l : Int),
        PoolRest (o1.updateTensorMemOffsetAndProcess m P Q t k).2 ∧
        PoolRest (o2.updateTensorMemOffsetAndProcess m P V Q t).2 ∧
        PoolRest (o3.updateMemOffset m Q t k l).2) := by
  obtain ⟨a, b, c, d, hpool, hready, hab, hn⟩ := PoolRest_cases hm
  refine ⟨a, b, hab, by rw [hpool]; rfl, ?_, ?_, ?_, ?_, ?_, ?_⟩
  · intro op
    refine ⟨?_, ?_⟩
    · intro hv isMLA
      simp [SingleLayerPagedKVCopy.processFunc, hv]
    · intro hv
      refine ⟨?_, ?_⟩
      · obtain ⟨m1, e1, e2⟩ := process2_call op.page2L op.hiddenDims op.keyTokensGlobal
          op.valueTokensGlobal op.lmcBufferKeyGlobal op.lmcBufferValueGlobal m a b [c, d]
          hpool hready hab
        refine ⟨m1, ?_, ?_, e2⟩
        · rw [single_layer_processFunc_eq]; simp [hv, e1]
        · exact PoolRest_rotate2 a b c d hn (by rw [e2.2.2.1, hpool]; rfl) e2.2.1
      · obtain ⟨m1, e1, e2⟩ := process1_call op.page2L op.hiddenDims op.keyTokensGlobal
          op.lmcBufferKeyGlobal m a [b, c, d] hpool hready
        refine ⟨m1, ?_, ?_, e2⟩
        · rw [single_layer_processFunc_eq]; simp [hv, e1]
        · exact PoolRest_rotate1 a b c d hn (by rw [e2.2.2.1, hpool]; rfl) e2.2.1
  · intro op
    refine ⟨?_, ?_⟩
    · intro hv
      simp [LoadAndReshapeFlashCopy.processFunc, hv]
    · intro hv
      obtain ⟨m1, e1, e2⟩ := process2_call op.page2L op.hiddenDims op.keyTokensGlobal
        op.valueTokensGlobal op.lmcBufferKeyGlobal op.lmcBufferValueGlobal m a b [c, d]
        hpool hready hab
      refine ⟨m1, ?_, ?_, e2⟩
      · rw [flash_processFunc_eq]; simp [hv, e1]
      · exact PoolRest_rotate2 a b c d hn (by rw [e2.2.2.1, hpool]; rfl) e2.2.1
  · intro op
    refine ⟨?_, ?_⟩
    · intro hv
      simp [MultiLayerPagedKVCopy.processFunc, hv]
    · intro hv
      obtain ⟨m1, e1, e2⟩ := process1_call op.page2L op.hiddenDims op.pagedTokenGlobal
        op.lmcBufferGlobal m a [b, c, d] hpool hready
      refine ⟨m1, ?_, ?_, e2⟩
      · rw [multi_layer_processFunc_eq]; simp [hv, e1]
      · exact PoolRest_rotate1 a b c d hn (by rw [e2.2.2.1, hpool]; rfl) e2.2.1
  · intro n ks vs kd vd
    exact ⟨rfl, rfl⟩
  · intro m0 isMLA p tm h T B L l P S
    exact ⟨PoolRest_initBuffer m0, PoolRest_initBuffer m0, PoolRest_initBuffer m0⟩
  · intro o1 o2 o3 P V Q t k l
    exact ⟨PoolRest_of_eq hm (single_layer_resolver_queue o1 m P Q t k).1
        (single_layer_resolver_queue o1 m P Q t k).2,
      PoolRest_of_eq hm (flash_resolver_queue o2 m P V Q t).1
        (flash_resolver_queue o2 m P V Q t).2,
      PoolRest_of_eq hm (multi_layer_resolver_queue o3 m Q t k l).1
        (multi_layer_resolver_queue o3 m Q t k l).2⟩

/-- Witness of C18: the flash object resolved for token 0 of the scenario, called with
the queue as `InitBuffer` leaves it, returns with nothing held. -/
theorem scratch_pool_discipline_witness :
    PoolRest (InitBuffer scenario 4) ∧
    ∃ m1, (LoadAndReshapeFlashCopy.resolve (scenarioFlashOp true) scenario 0).processFunc
        (InitBuffer scenario 4) = some m1 ∧ PoolRest m1 := by
  refine ⟨PoolRest_initBuffer scenario, ?_⟩
  obtain ⟨a, b, _, _, _, hflash, _⟩ :=
    scratch_pool_discipline (InitBuffer scenario 4) (PoolRest_initBuffer scenario)
  obtain ⟨m1, h1, h2, _⟩ :=
    (hflash (LoadAndReshapeFlashCopy.resolve (scenarioFlashOp true) scenario 0)).2
      (by decide)
  exact ⟨m1, h1, h2⟩

/-- C20 (exact offset arithmetic in the flash variant) fails in the code. For
`numLayers = numTokens = 65536`, `layerIdx = 0`, token 0 and `hiddenDims = 1` (all
within their types, the exact value offset `4294967296` fits 64 bits) the value offset
evaluated with the widths of its operand types is `0`, because the `int32_t` product
`numLayers_ * numTokens_` wraps before it is widened; for `layerIdx = 65535` the key
offset is `-65536` where the exact integer is `4294901760`. -/
theorem flash_offset_int32_overflow :
    wrap32 65536 = 65536 ∧ wrap32 65535 = 65535 ∧ wrap32 0 = 0 ∧ wrap64 1 = 1 ∧
    ((65536 * 65536 + 0 * 65536 + 0) * 1 : Int) = 4294967296 ∧
    wrap64 4294967296 = 4294967296 ∧
    LoadAndReshapeFlashCopy.nonPagedValueOffset 65536 0 65536 1 0 = 0 ∧
    ((65535 * 65536 + 0) * 1 : Int) = 4294901760 ∧
    wrap64 4294901760 = 4294901760 ∧
    LoadAndReshapeFlashCopy.nonPagedKeyOffset 65535 65536 1 0 = -65536 := by
  refine ⟨by decide, by decide, by decide, by decide, by decide, by decide, by decide,
    by decide, by decide, by decide⟩

/-- C22 (termination of the worker loop). For every worker index `w ≥ 0`, every
`numTokens` and every worker count `N ≥ 1`, with enough fuel: the kernel loop
`for (i = w; i < numTokens; i += N)` returns for every body that returns, after running
the body once for each index of `loopIndices`, which has exactly
`max(0, ceil((numTokens - w) / N))` entries; every index satisfies `0 ≤ i < numTokens`,
so for a 32-bit `numTokens` the narrowing of the 64-bit loop counter to the `int`
parameter of the resolver keeps its value (and `i + N` does not leave 64 bits for a
32-bit `N`). The three kernels return, and the indices of their resolver calls are the
loop indices, each one once in the flash and MLA kernels, twice in the single-layer
kernel without MLA and `kvs * numLayers` times in the multi-layer kernel. With `N = 0`
and `w < numTokens` the loop and the three kernels do not return for any fuel, the loop
staying at the index `w`. -/
theorem worker_loop_terminates (T N w : Int) (fuel : Nat) (hN : 1 ≤ N) (hw : 0 ≤ w)
    (hf : (T - w).toNat < fuel) :
    (∀ (σ : Type) (body : Int → σ → Option σ) (s : σ),
      forLoop body T N fuel w s = (loopIndices T N fuel w).foldlM (fun s i => body i s) s) ∧
    (loopIndices T N fuel w).length
      = (max 0 ⌈(((T - w : Int)) : ℚ) / ((N : Int) : ℚ)⌉).toNat ∧
    (∀ i ∈ loopIndices T N fuel w,
      0 ≤ i ∧ i < T ∧
      (T < 2147483648 → wrap32 i = i ∧ (N < 2147483648 → wrap64 (i + N) = i + N))) ∧
    (∀ (isMLA p tm : Bool) (h : Int) (m : Machine α),
      ∃ m1, single_layer_paged_kv_copy isMLA h T N p tm fuel w m = some m1 ∧
        slotReadsOf m1.log = slotReadsOf m.log ++
          (loopIndices T N fuel w).flatMap
            (fun i => List.replicate (if isMLA then 1 else 2) i)) ∧
    (∀ (p : Bool) (h P S L l : Int) (m : Machine α),
      ∃ m1, load_and_reshape_flash_copy h P S T L l p N fuel w m = some m1 ∧
        slotReadsOf m1.log = slotReadsOf m.log ++
          (loopIndices T N fuel w).flatMap (fun i => List.replicate 1 i)) ∧
    (∀ (p : Bool) (h kvs L B : Int) (m : Machine α),
      kvs.toNat < fuel → L.toNat < fuel →
      ∃ m1, multi_layer_paged_kv_copy h kvs L B T N p fuel w m = some m1 ∧
        slotReadsOf m1.log = slotReadsOf m.log ++
          (loopIndices T N fuel w).flatMap
            (fun i => List.replicate (kvs.toNat * L.toNat) i)) ∧
    (w < T → ∀ f : Nat,
      (∀ (σ : Type) (body : Int → σ → Option σ) (s : σ), forLoop body T 0 f w s = none) ∧
      loopIndices T 0 f w = List.replicate f w ∧
      (∀ (isMLA p tm : Bool) (h : Int) (m : Machine α),
        single_layer_paged_kv_copy isMLA h T 0 p tm f w m = none) ∧
      (∀ (p : Bool) (h P S L l : Int) (m : Machine α),
        load_and_reshape_flash_copy h P S T L l p 0 f w m = none) ∧
      (∀ (p : Bool) (h kvs L B : Int) (m : Machine α),
        multi_layer_paged_kv_copy h kvs L B T 0 p f w m = none)) := by
  refine ⟨?_, ?_, ?_, ?_, ?_, ?_, ?_⟩
  · intro σ body s
    exact forLoop_eq_foldlM body T N hN fuel w s hf
  · rw [loopIndices_length T N hN fuel w hf, ceil_div_eq (T - w) N hN]
    by_cases h0 : 0 ≤ (T - w + N - 1) / N
    · rw [max_eq_right h0]
    · rw [max_eq_left (by omega)]
      omega
  · intro i hi
    have h1 := loopIndices_lower T N hN fuel w i hi
    have h2 := loopIndices_lt T N fuel w i hi
    refine ⟨by omega, h2, ?_⟩
    intro hT
    refine ⟨wrap32_eq i (by omega) (by omega), ?_⟩
    intro hN2
    exact wrap64_eq (i + N) (by omega) (by omega)
  · intro isMLA p tm h m
    exact single_layer_paged_kv_copy_reads isMLA h T N p tm fuel w m hN hf
  · intro p h P S L l m
    exact load_and_reshape_flash_copy_reads h P S T L l p N fuel w m hN hf
  · intro p h kvs L B m hkv hL
    exact multi_layer_paged_kv_copy_reads h kvs L B T N p fuel w m hN hf hkv hL
  · intro hwT f
    refine ⟨fun σ body s => forLoop_zero_step body T w hwT f s,
      loopIndices_zero_step T w hwT f, ?_, ?_, ?_⟩
    · intro isMLA p tm h m
      unfold single_layer_paged_kv_copy
      rw [forLoop_zero_step _ T w hwT f]
      rfl
    · intro p h P S L l m
      unfold load_and_reshape_flash_copy
      rw [forLoop_zero_step _ T w hwT f]
      rfl
    · intro p h kvs L B m
      unfold multi_layer_paged_kv_copy
      rw [forLoop_zero_step _ T w hwT f]
      rfl

/-- Witness of C22: seven tokens on three workers; the loop of worker 1 runs for the
indices 1 and 4, that is `ceil((7 - 1) / 3) = 2` iterations, and with a step of 0 it
does not return. -/
theorem worker_loop_terminates_witness :
    ((1 : Int) ≤ 3 ∧ (0 : Int) ≤ 1 ∧ ((7 : Int) - 1).toNat < 8) ∧
    loopIndices 7 3 8 1 = [1, 4] ∧
    (loopIndices 7 3 8 1).length
      = (max 0 ⌈(((7 - 1 : Int)) : ℚ) / ((3 : Int) : ℚ)⌉).toNat ∧
    visited 7 0 8 1 = none := by
  have hthm := @worker_loop_terminates Int 7 3 1 8 (by decide) (by decide) (by decide)
  exact ⟨⟨by decide, by decide, by decide⟩, by decide, hthm.2.1,
    (hthm.2.2.2.2.2.2 (by decide) 8).1 (List Int) (fun i tr => some (tr ++ [i])) []⟩

/-- C23 (flash with one layer equals single-layer component-major). For every slot
table, `hiddenDims`, `numTokens`, worker count, direction and machine: the flash
resolver of an object with `numLayers = 1` and `layerIdx = 0` and the single-layer
resolver calls (`IsMLA = false`) of an object with `tokenMajor = false` and the same
`hiddenDims` and `numTokens` set, for every valid token, the same four descriptors
(paged K and V, contiguous K and V); with enough fuel both launches return, they leave
the same global memory, and the global-memory reads and writes they add to the log are
the same. -/
theorem flash_one_layer_eq_single_layer (N : Nat) (h T P S : Int) (p : Bool) (fuel : Nat)
    (m : Machine α) :
    (∀ (fop : LoadAndReshapeFlashCopy) (sop : SingleLayerPagedKVCopy) (t : Int),
      fop.numLayers = 1 → fop.layerIdx = 0 → sop.tokenMajor = false →
      fop.hiddenDims = sop.hiddenDims → fop.numTokens = sop.numTokens →
      m.slots t ≠ -1 →
      (LoadAndReshapeFlashCopy.resolve fop m t).keyTokensGlobal
        = (SingleLayerPagedKVCopy.resolve false sop m t).keyTokensGlobal ∧
      (LoadAndReshapeFlashCopy.resolve fop m t).valueTokensGlobal
        = (SingleLayerPagedKVCopy.resolve false sop m t).valueTokensGlobal ∧
      (LoadAndReshapeFlashCopy.resolve fop m t).lmcBufferKeyGlobal
        = (SingleLayerPagedKVCopy.resolve false sop m t).lmcBufferKeyGlobal ∧
      (LoadAndReshapeFlashCopy.resolve fop m t).lmcBufferValueGlobal
        = (SingleLayerPagedKVCopy.resolve false sop m t).lmcBufferValueGlobal) ∧
    (T.toNat < fuel →
      ∃ m1 m2,
        load_and_reshape_kernel_call N h P S T 1 0 p fuel m = some m1 ∧
        single_layer_paged_kernel false N h T p false fuel m = some m2 ∧
        m1.gm = m2.gm ∧ readsOf m1.log = readsOf m2.log ∧
        writesOf m1.log = writesOf m2.log ∧ m1.slots = m2.slots) := by
  refine ⟨?_, ?_⟩
  · intro fop sop t hL hl htm hh hT hs
    obtain ⟨f1, f2, f3, f4⟩ := flash_resolve_spec fop m t hs
    obtain ⟨k1, k2⟩ := single_layer_resolve_key false sop m t hs
    obtain ⟨v1, v2⟩ := single_layer_resolve_value sop m t hs
    rw [f1, f2, f3, f4, k1, k2, v1, v2, hL, hl, htm, hh, hT]
    simp
  · intro hf
    obtain ⟨m1, e1, f1⟩ := load_and_reshape_kernel_call_performs N h P S T 1 0 p fuel m hf
    obtain ⟨m2, e2, f2⟩ := single_layer_paged_kernel_performs false N h T p false fuel m hf
    have hx : LoadAndReshapeFlashCopy.xfers h T 1 0 p m.slots
        = SingleLayerPagedKVCopy.xfers false h T p false m.slots := by
      funext t
      unfold LoadAndReshapeFlashCopy.xfers SingleLayerPagedKVCopy.xfers
      simp [SingleLayerPagedKVCopy.lmcOff]
    rw [hx] at f1
    exact ⟨m1, m2, e1, e2, f1.1.trans f2.1.symm, f1.2.1.trans f2.2.1.symm,
      f1.2.2.1.trans f2.2.2.1.symm, f1.2.2.2.1.trans f2.2.2.2.1.symm⟩

/-- Witness of C23: the two launches on two workers for the scenario (two tokens,
`hiddenDims = 4`, paged to contiguous) return and leave the same global memory. -/
theorem flash_one_layer_eq_single_layer_witness :
    (2 : Int).toNat < 3 ∧
    ∃ m1 m2,
      load_and_reshape_kernel_call 2 4 8 4 2 1 0 true 3 scenario = some m1 ∧
      single_layer_paged_kernel false 2 4 2 true false 3 scenario = some m2 ∧
      m1.gm = m2.gm := by
  refine ⟨by decide, ?_⟩
  obtain ⟨m1, m2, h1, h2, h3, -⟩ :=
    (flash_one_layer_eq_single_layer 2 4 2 8 4 true 3 scenario).2 (by decide)
  exact ⟨m1, m2, h1, h2, h3⟩

end KVCacheOps
